import Mathlib

/-!
# Polybot V2: fund ledger, settlement, position tracking, prices, strategies, scheduler

A shallow embedding of the store (`internal/db/db.go`), the position tracker
(`internal/polymarket/resolver.go`, `markets.go`), the engine glue, price
aggregator, window scheduler and lifecycle (`internal/engine/engine.go`), the
two built-in strategies (`internal/strategy`) and the symbol mapping of the
price feed (`internal/pricefeed/binance.go`).

Conventions of the embedding.

* `float64` amounts are exact rationals (`ℚ`); rounding is outside the model.
* A table is the list of its rows. `UPDATE … WHERE c` maps over the rows and
  rewrites those satisfying `c`; `RowsAffected` is the number of such rows.
  The `PRIMARY KEY` constraint of the schema is the predicate `PrimaryKey`.
* The audit columns `created_at`, `updated_at`, `filled_at`, `resolved_at`,
  `redeemed_at` hold wall-clock readings and are not represented.
* An instant is an `Int` number of nanoseconds, as `time.Duration` counts them.
* The market client and the order client are inputs: a function from the
  request to the reply. A store statement that comes back with a driver error
  has changed nothing; which statements do so is an input of the engine
  functions (`ResolveFaults`, `PlaceEnv`).
* A Go map is the list of its values with distinct keys (`KeysDistinct`); the
  iteration order of the map is the order of the list.
-/

deriving instance DecidableEq for Except

namespace Polybot

/-! ## Store: `internal/db/db.go` -/

def StatusPending : String := "PENDING"
def StatusFilled : String := "FILLED"
def StatusWon : String := "WON"
def StatusLost : String := "LOST"
def StatusRedeemed : String := "REDEEMED"

/-- Row of the `strategies` table. -/
structure Strategy where
  ID : String
  Enabled : Bool
  Budget : ℚ
  Locked : ℚ
  PnL : ℚ
  Wins : Int
  Losses : Int
deriving DecidableEq

/-- Available returns budget minus locked funds. -/
def Strategy.Available (s : Strategy) : ℚ :=
  s.Budget - s.Locked

/-- Row of the `positions` table. -/
structure Position where
  ID : Int
  StrategyID : String
  MarketID : String
  TokenID : String
  Side : String
  Status : String
  Cost : ℚ
  Shares : ℚ
  Payout : ℚ
  OrderID : String
deriving DecidableEq

/-- The database: both tables and the `AUTOINCREMENT` counter of `positions`. -/
structure DB where
  strategies : List Strategy
  positions : List Position
  lastPosID : Int
deriving DecidableEq

/-- Schema constraint `id TEXT PRIMARY KEY` on `strategies`. -/
def PrimaryKey (db : DB) : Prop :=
  (db.strategies.map (fun s => s.ID)).Nodup

instance (db : DB) : Decidable (PrimaryKey db) := by
  unfold PrimaryKey; infer_instance

/-- GetStrategy: `SELECT … FROM strategies WHERE id = ?` read with `QueryRow`, the first
matching row, `none` for `sql.ErrNoRows`. -/
def GetStrategy (db : DB) (id : String) : Option Strategy :=
  db.strategies.find? (fun s => decide (s.ID = id))

/-- ListStrategies: `SELECT … FROM strategies ORDER BY id`. The order of the rows is the order
of the list. -/
def ListStrategies (db : DB) : List Strategy :=
  db.strategies

/-- The `WHERE id = ? AND (budget - locked) >= ?` clause of `LockFunds`. -/
def lockWhere (strategyID : String) (amount : ℚ) (s : Strategy) : Bool :=
  decide (s.ID = strategyID) && decide (s.Budget - s.Locked ≥ amount)

/-- The `SET locked = locked + ?` clause of `LockFunds`. -/
def lockSet (amount : ℚ) (s : Strategy) : Strategy :=
  { s with Locked := s.Locked + amount }

/-- Lock funds for a strategy (before placing bet). The `UPDATE` runs, then
zero affected rows is reported as the error `insufficient funds or strategy not
found`. Returns the database after the call and the error, if any. -/
def LockFunds (db : DB) (strategyID : String) (amount : ℚ) : DB × Option String :=
  let rows := (db.strategies.filter (lockWhere strategyID amount)).length
  let db1 : DB :=
    { db with
      strategies := db.strategies.map
        (fun s => if lockWhere strategyID amount s then lockSet amount s else s) }
  if rows = 0 then (db1, some "insufficient funds or strategy not found")
  else (db1, none)

/-- The `SET locked = MAX(0, locked - ?)` clause of `UnlockFunds`. -/
def unlockSet (amount : ℚ) (s : Strategy) : Strategy :=
  { s with Locked := max 0 (s.Locked - amount) }

/-- Unlock funds (after resolution): `UPDATE strategies SET locked =
MAX(0, locked - ?) WHERE id = ?`. -/
def UnlockFunds (db : DB) (strategyID : String) (amount : ℚ) : DB :=
  { db with
    strategies := db.strategies.map
      (fun s => if s.ID = strategyID then unlockSet amount s else s) }

/-- CreatePosition: `INSERT INTO positions (strategy_id, market_id, token_id, side, status,
cost, shares, order_id)`; `payout` takes its default 0 and the id is the next
value of the `AUTOINCREMENT` counter, returned as `LastInsertId`. -/
def CreatePosition (db : DB) (p : Position) : DB × Int :=
  let id := db.lastPosID + 1
  ({ db with
      positions := db.positions ++ [{ p with ID := id, Payout := 0 }]
      lastPosID := id }, id)

/-- GetPosition: `SELECT … FROM positions WHERE id = ?` read with `QueryRow`. -/
def GetPosition (db : DB) (id : Int) : Option Position :=
  db.positions.find? (fun p => decide (p.ID = id))

/-- The statement `UPDATE positions SET status = ?, payout = ?, <time field> =
CURRENT_TIMESTAMP WHERE id = ?` that `UpdatePositionStatus` executes once a time
field was chosen. -/
def execUpdateStatus (db : DB) (id : Int) (status : String) (payout : ℚ) : DB :=
  { db with
    positions := db.positions.map
      (fun p => if p.ID = id then { p with Status := status, Payout := payout } else p) }

/-- UpdatePositionStatus: a `switch` with no default picks the time column for
FILLED, WON, LOST and REDEEMED; for any other status `timeField` stays empty,
the query text is malformed, and `Exec` returns an error without touching a row.
Returns the database after the call and the error, if any. -/
def UpdatePositionStatus (db : DB) (id : Int) (status : String) (payout : ℚ) :
    DB × Option String :=
  let timeField :=
    if status = StatusFilled then "filled_at"
    else if status = StatusWon ∨ status = StatusLost then "resolved_at"
    else if status = StatusRedeemed then "redeemed_at"
    else ""
  if timeField = "" then (db, some "syntax error")
  else (execUpdateStatus db id status payout, none)

def boolToInt (b : Bool) : Int :=
  if b then 1 else 0

/-- The `SET` clause of the strategy update inside `ResolvePosition`. Every
right-hand side reads the row as it was before the statement. -/
def resolveSet (cost profit : ℚ) (won : Bool) (s : Strategy) : Strategy :=
  { s with
    Locked := max 0 (s.Locked - cost)
    Budget := s.Budget + profit
    PnL := s.PnL + profit
    Wins := s.Wins + boolToInt won
    Losses := s.Losses + boolToInt (!won) }

/-- Resolve a position and update strategy stats, in one transaction. The only
modelled failure is `sql.ErrNoRows` from the initial `SELECT`, after which the
deferred `Rollback` leaves the database as it was. Returns the database after
the call and the error, if any. -/
def ResolvePosition (db : DB) (posID : Int) (won : Bool) (payout : ℚ) : DB × Option String :=
  match db.positions.find? (fun p => decide (p.ID = posID)) with
  | none => (db, some "sql: no rows in result set")
  | some row =>
    let strategyID := row.StrategyID
    let cost := row.Cost
    let status := if won then StatusWon else StatusLost
    let positions := db.positions.map
      (fun p => if p.ID = posID then { p with Status := status, Payout := payout } else p)
    let profit := if !won then -cost else payout - cost
    ({ db with
        positions := positions
        strategies := db.strategies.map
          (fun s => if s.ID = strategyID then resolveSet cost profit won s else s) }, none)

/-- UpdateStrategyStats updates wins/losses and P&L for a strategy. -/
def UpdateStrategyStats (db : DB) (strategyID : String) (won : Bool) (pnl : ℚ) : DB :=
  let winsIncr : Int := if won then 1 else 0
  let lossesIncr : Int := if won then 0 else 1
  { db with
    strategies := db.strategies.map
      (fun s => if s.ID = strategyID then
        { s with PnL := s.PnL + pnl, Wins := s.Wins + winsIncr, Losses := s.Losses + lossesIncr }
      else s) }

/-- The ledger invariant `0 ≤ locked ≤ budget` of one strategy row. -/
def LedgerInv (s : Strategy) : Prop :=
  0 ≤ s.Locked ∧ s.Locked ≤ s.Budget

instance (s : Strategy) : Decidable (LedgerInv s) := by
  unfold LedgerInv; infer_instance

/-! ## Market client: `internal/polymarket/clob.go` -/

/-- Token represents a market token (YES/NO outcome). -/
structure Token where
  TokenID : String
  Outcome : String
  Price : ℚ
  Winner : Bool
deriving DecidableEq

/-- Market represents a Polymarket market; the fields the tracker and the
market finder read. -/
structure Market where
  ConditionID : String
  Question : String
  Active : Bool
  Closed : Bool
  Tokens : List Token
deriving DecidableEq

/-- OrderRequest for placing orders; `OrderType` is the field `Type`. -/
structure OrderRequest where
  TokenID : String
  Price : ℚ
  Size : ℚ
  Side : String
  OrderType : String
deriving DecidableEq

/-- OrderResponse from placing an order; the fields `placeBet` reads. -/
structure OrderResponse where
  OrderID : String
  Status : String
deriving DecidableEq

/-- CalculateShares calculates number of shares for a given USD amount. -/
def CalculateShares (usdAmount price : ℚ) : ℚ :=
  if price ≤ 0 ∨ price ≥ 1 then 0 else usdAmount / price

/-! ## Market finder: `internal/polymarket/markets.go` -/

/-- One minute of `time.Duration`, in nanoseconds. -/
def Minute : Int := 60 * 1000000000

/-- BTCMinuteMarket represents a parsed BTC minute market. -/
structure BTCMinuteMarket where
  ConditionID : String
  Question : String
  TargetPrice : ℚ
  Direction : String
  StartTime : Int
  EndTime : Int
  UpTokenID : String
  DownTokenID : String
  UpPrice : ℚ
  DownPrice : ℚ
  Active : Bool
deriving DecidableEq

/-- What `parseMarket` extracts from the free text of the question with its
two regular expressions and the wall clock: the target price, the end of the
window and the direction word. The extraction itself is an input here. -/
structure QuestionFields where
  TargetPrice : ℚ
  EndTime : Int
  Direction : String
deriving DecidableEq

/-- The library function `strings.ToLower`, on the ASCII letters. -/
def ToLower (s : String) : String :=
  String.mk (s.data.map Char.toLower)

/-- The four variables the token loop of `parseMarket` assigns. -/
structure TokenScan where
  upTokenID : String
  downTokenID : String
  upPrice : ℚ
  downPrice : ℚ
deriving DecidableEq

/-- Body of the loop `for _, t := range m.Tokens` of `parseMarket`. -/
def scanToken (acc : TokenScan) (t : Token) : TokenScan :=
  let outcome := ToLower t.Outcome
  if outcome = "yes" ∨ outcome = "up" then
    { acc with upTokenID := t.TokenID, upPrice := t.Price }
  else if outcome = "no" ∨ outcome = "down" then
    { acc with downTokenID := t.TokenID, downPrice := t.Price }
  else acc

/-- Find Up/Down tokens (BTC markets use "Up"/"Down", others use "Yes"/"No"). -/
def scanTokens (tokens : List Token) : TokenScan :=
  tokens.foldl scanToken { upTokenID := "", downTokenID := "", upPrice := 0, downPrice := 0 }

/-- Extracts info from a Polymarket market. `q` is the outcome of the question
parsing, `none` when the question does not match. -/
def parseMarket (q : Option QuestionFields) (m : Market) : Option BTCMinuteMarket :=
  match q with
  | none => none
  | some f =>
    let startTime := f.EndTime - 5 * Minute
    let toks := scanTokens m.Tokens
    some {
      ConditionID := m.ConditionID
      Question := m.Question
      TargetPrice := f.TargetPrice
      Direction := f.Direction
      StartTime := startTime
      EndTime := f.EndTime
      UpTokenID := toks.upTokenID
      DownTokenID := toks.downTokenID
      UpPrice := toks.upPrice
      DownPrice := toks.downPrice
      Active := m.Active }

/-- Resolution result; `FinalPrice` is never assigned and `ResolvedAt` is a
wall-clock reading. -/
structure Resolution where
  ConditionID : String
  Winner : String
deriving DecidableEq

/-- The outcome of the first token flagged as winner, the empty string when
there is none. -/
def winnerOf (tokens : List Token) : String :=
  match tokens.find? (fun t => t.Winner) with
  | some t => t.Outcome
  | none => ""

/-- CheckResolution checks if a market has resolved. `GetMarket` is the answer
of the client for a condition id. -/
def CheckResolution (GetMarket : String → Except String Market) (conditionID : String) :
    Except String (Option Resolution) :=
  match GetMarket conditionID with
  | .error err => .error err
  | .ok market =>
    if !market.Closed then .ok none
    else
      let winner := winnerOf market.Tokens
      if winner = "" then .ok none
      else .ok (some { ConditionID := conditionID, Winner := winner })

/-! ## Position tracker: `internal/polymarket/resolver.go` -/

/-- TrackedPosition is a position being tracked for resolution. -/
structure TrackedPosition where
  ID : String
  ConditionID : String
  TokenID : String
  Side : String
  Shares : ℚ
  Cost : ℚ
  PlacedAt : Int
  ExpiresAt : Int
deriving DecidableEq

/-- The map `pendingPos`, as the list of its values; the key of a value is its
`ID`. Keys of a map are distinct. -/
def KeysDistinct (pending : List TrackedPosition) : Prop :=
  (pending.map (fun p => p.ID)).Nodup

instance (pending : List TrackedPosition) : Decidable (KeysDistinct pending) := by
  unfold KeysDistinct; infer_instance

/-- The builtin `delete(pt.pendingPos, posID)`. -/
def mapDelete (pending : List TrackedPosition) (posID : String) : List TrackedPosition :=
  pending.filter (fun p => decide (p.ID ≠ posID))

/-- Track adds a position to be tracked: `pt.pendingPos[pos.ID] = pos`. -/
def Track (pending : List TrackedPosition) (pos : TrackedPosition) : List TrackedPosition :=
  mapDelete pending pos.ID ++ [pos]

/-- Untrack removes a position from tracking. -/
def Untrack (pending : List TrackedPosition) (posID : String) : List TrackedPosition :=
  mapDelete pending posID

/-- Body of the loop `for posID, pos := range pt.pendingPos` of
`CheckResolutions`. The accumulator is `toRemove` and the state the callback
acts on. -/
def resolveStep {σ : Type} (onResolution : Option (σ → String → Bool → ℚ → σ))
    (GetMarket : String → Except String Market) (now : Int)
    (acc : List String × σ) (pos : TrackedPosition) : List String × σ :=
  match CheckResolution GetMarket pos.ConditionID with
  | .error _ => acc
  | .ok none =>
    if now > pos.ExpiresAt + 30 * Minute then (acc.1 ++ [pos.ID], acc.2) else acc
  | .ok (some resolution) =>
    let won := decide (resolution.Winner = pos.Side)
    let payout : ℚ := if won then pos.Shares else 0
    let st := match onResolution with
      | some cb => cb acc.2 pos.ID won payout
      | none => acc.2
    (acc.1 ++ [pos.ID], st)

/-- CheckResolutions checks all pending positions for resolution. Returns the
map after the clean-up loop and the state left by the callbacks. -/
def CheckResolutions {σ : Type} (onResolution : Option (σ → String → Bool → ℚ → σ))
    (GetMarket : String → Except String Market) (now : Int)
    (pending : List TrackedPosition) (st : σ) : List TrackedPosition × σ :=
  if pending.length = 0 then (pending, st)
  else
    let out := pending.foldl (resolveStep onResolution GetMarket now) ([], st)
    (out.1.foldl mapDelete pending, out.2)

/-- GetPendingCount returns number of pending positions. -/
def GetPendingCount (pending : List TrackedPosition) : Nat :=
  pending.length

/-! ## Engine: `internal/engine/engine.go` -/

/-- The parts of the engine the money path reads and writes: the store, whether
a market client was created, and the tracker (`nil` in dry-run mode). -/
structure Engine where
  db : DB
  polyClient : Bool
  tracker : Option (List TrackedPosition)
deriving DecidableEq

/-- Reads a run of decimal digits; `seen` tells whether a digit was read. -/
def scanDigits : List Char → Nat → Bool → Option Nat
  | [], acc, seen => if seen then some acc else none
  | c :: cs, acc, seen =>
    if c.isDigit then scanDigits cs (acc * 10 + (c.toNat - 48)) true
    else if seen then some acc else none

/-- The call `fmt.Sscanf(s, "%d", &n)` on a variable holding 0: blanks are skipped, an
optional sign and a run of decimal digits are read and the rest of the text is
ignored; when no digit is found or the value does not fit `int64` the variable
keeps 0. -/
def Sscanf_d (s : String) : Int :=
  let cs := s.data.dropWhile (fun c => c = Char.ofNat 32 || c = Char.ofNat 9)
  let signed : Bool × List Char :=
    match cs with
    | c :: rest =>
      if c = Char.ofNat 45 then (true, rest)
      else if c = Char.ofNat 43 then (false, rest)
      else (false, cs)
    | [] => (false, cs)
  match scanDigits signed.2 0 false with
  | none => 0
  | some n =>
    let v : Int := if signed.1 then -(n : Int) else (n : Int)
    if -(2 : Int) ^ 63 ≤ v ∧ v < (2 : Int) ^ 63 then v else 0

/-- The call `fmt.Sprintf("%d", n)`. -/
def Sprintf_d (n : Int) : String :=
  toString n

/-- Which store calls of one `onPositionResolved` run come back with a driver
error. A statement that reports an error has changed nothing. -/
structure ResolveFaults where
  getPosition : Bool
  updatePositionStatus : Bool
  unlockFunds : Bool
  updateStrategyStats : Bool
deriving DecidableEq

def noResolveFaults : ResolveFaults :=
  { getPosition := false, updatePositionStatus := false, unlockFunds := false,
    updateStrategyStats := false }

/-- Handles a resolved position. The notification and the log lines do not
touch the store and are left out. -/
def onPositionResolved (f : ResolveFaults) (db : DB) (posID : String) (won : Bool)
    (payout : ℚ) : DB :=
  let posIDInt := Sscanf_d posID
  if f.getPosition then db
  else
    match GetPosition db posIDInt with
    | none => db
    | some pos =>
      let status := if won then StatusWon else StatusLost
      let updated : DB × Option String :=
        if f.updatePositionStatus then (db, some "driver error")
        else UpdatePositionStatus db posIDInt status payout
      match updated with
      | (_, some _) => db
      | (db1, none) =>
        let db2 := if f.unlockFunds then db1 else UnlockFunds db1 pos.StrategyID pos.Cost
        let pnl := payout - pos.Cost
        if f.updateStrategyStats then db2
        else UpdateStrategyStats db2 pos.StrategyID won pnl

/-- The engine loop body `checkResolutions`: one poll of the tracker with
`onPositionResolved` as the callback. `faults` gives the driver errors met
while settling each position id. -/
def checkResolutions (faults : String → ResolveFaults)
    (GetMarket : String → Except String Market) (now : Int) (e : Engine) : Engine :=
  match e.tracker with
  | none => e
  | some pending =>
    let out := CheckResolutions
      (some (fun db posID won payout => onPositionResolved (faults posID) db posID won payout))
      GetMarket now pending e.db
    { e with tracker := some out.1, db := out.2 }

/-- Signal represents a trading signal from a strategy. -/
structure Signal where
  Side : String
  Confidence : ℚ
  Amount : ℚ
  Reason : String
deriving DecidableEq

/-- What the outside world answers during one `placeBet`: driver errors of the
store calls, the reply of `PlaceOrder`, and the clock. -/
structure PlaceEnv where
  lockFails : Bool
  createFails : Bool
  unlockFails : Bool
  updateStatusFails : Bool
  PlaceOrder : OrderRequest → Except String OrderResponse
  now : Int

/-- Places a bet for a strategy. Returns the engine afterwards and the error,
if any. -/
def placeBet (env : PlaceEnv) (e : Engine) (stratID : String)
    (polyMarket : Option BTCMinuteMarket) (signal : Signal) (amount : ℚ) :
    Engine × Option String :=
  let locked : DB × Option String :=
    if env.lockFails then (e.db, some "driver error") else LockFunds e.db stratID amount
  match locked with
  | (db1, some err) => ({ e with db := db1 }, some ("lock funds: " ++ err))
  | (db1, none) =>
    let marketID := match polyMarket with
      | some m => m.ConditionID
      | none => ""
    let pos : Position :=
      { ID := 0, StrategyID := stratID, MarketID := marketID, TokenID := "",
        Side := signal.Side, Status := StatusPending, Cost := amount, Shares := 0,
        Payout := 0, OrderID := "" }
    if env.createFails then
      let db2 := if env.unlockFails then db1 else UnlockFunds db1 stratID amount
      ({ e with db := db2 }, some "create position: driver error")
    else
      let created := CreatePosition db1 pos
      let db2 := created.1
      let posID := created.2
      let markFilled : DB :=
        if env.updateStatusFails then db2 else (UpdatePositionStatus db2 posID StatusFilled 0).1
      match e.polyClient, polyMarket with
      | true, some m =>
        let tokenID := if signal.Side = "DOWN" then m.DownTokenID else m.UpTokenID
        let price := if signal.Side = "DOWN" then m.DownPrice else m.UpPrice
        let shares := CalculateShares amount price
        let order : OrderRequest :=
          { TokenID := tokenID, Price := price, Size := shares, Side := "BUY", OrderType := "FOK" }
        match env.PlaceOrder order with
        | .error _ => ({ e with db := db2 }, none)
        | .ok result =>
          if result.Status = "FILLED" then
            let tracker := e.tracker.map (fun pending =>
              Track pending
                { ID := Sprintf_d posID
                  ConditionID := m.ConditionID
                  TokenID := tokenID
                  Side := signal.Side
                  Shares := shares
                  Cost := amount
                  PlacedAt := env.now
                  ExpiresAt := m.EndTime })
            ({ e with db := markFilled, tracker := tracker }, none)
          else ({ e with db := db2 }, none)
      | _, _ => ({ e with db := markFilled }, none)

/-- One call of the resolution callback, as a record. -/
structure Settlement where
  posID : String
  won : Bool
  payout : ℚ
deriving DecidableEq

/-- A callback that only records its calls, in order. -/
def record (log : List Settlement) (posID : String) (won : Bool) (payout : ℚ) :
    List Settlement :=
  log ++ [{ posID := posID, won := won, payout := payout }]

/-- A sequence of polls of the tracker, one per tick of `runResolver`; every
poll has its own client answers and its own clock reading. -/
def runPolls {σ : Type} (onResolution : Option (σ → String → Bool → ℚ → σ)) :
    List ((String → Except String Market) × Int) → List TrackedPosition → σ →
    List TrackedPosition × σ
  | [], pending, st => (pending, st)
  | poll :: rest, pending, st =>
    let out := CheckResolutions onResolution poll.1 poll.2 pending st
    runPolls onResolution rest out.1 out.2

/-! ## Strategies: `internal/strategy/strategy.go`, `simple.go`, `ensemble.go` -/

/-- MarketInfo contains current market state. -/
structure MarketInfo where
  ID : String
  Asset : String
  Timeframe : String
  StartTime : Int
  EndTime : Int
  OpenPrice : ℚ
  CurrentPrice : ℚ
  TargetPrice : ℚ
  YesPrice : ℚ
  NoPrice : ℚ
  UpProbability : ℚ
  DownProbability : ℚ
  UpTokenID : String
  DownTokenID : String
deriving DecidableEq

/-- PriceHistory for strategy analysis. -/
structure PriceHistory where
  Prices : List ℚ
  Times : List Int
  High : ℚ
  Low : ℚ
  Open : ℚ
  Current : ℚ
deriving DecidableEq

/-- SimpleStrategy follows BTC price movement. -/
structure SimpleStrategy where
  minMovement : ℚ
deriving DecidableEq

def NewSimpleStrategy : SimpleStrategy :=
  { minMovement := 0.02 }

def SimpleStrategy.MinConfidence (_s : SimpleStrategy) : ℚ :=
  0.5

/-- Decide of the simple follower. `prices` is `none` for a nil pointer. The
text of `Reason` is a rendering of floating-point numbers and is left empty. -/
def SimpleStrategy.Decide (s : SimpleStrategy) (_market : MarketInfo)
    (prices : Option PriceHistory) : Option Signal :=
  match prices with
  | none => none
  | some p =>
    if p.Prices.length < 5 then none
    else
      let change := (p.Current - p.Open) / p.Open * 100
      let absChange := |change|
      if absChange < s.minMovement then none
      else
        let side := if change > 0 then "UP" else "DOWN"
        let confidence := min (0.5 + absChange * 5) 0.8
        let amount : ℚ := 5.0
        some { Side := side, Confidence := confidence, Amount := amount, Reason := "" }

/-- EnsembleStrategy combines multiple signals and bets when majority agree. -/
structure EnsembleStrategy where
  minConfidence : ℚ
  minSignals : Nat
deriving DecidableEq

def NewEnsembleStrategy : EnsembleStrategy :=
  { minConfidence := 0.6, minSignals := 3 }

def EnsembleStrategy.MinConfidence (e : EnsembleStrategy) : ℚ :=
  e.minConfidence

/-- The anonymous struct `{name, side, conf}` the four sub-signals return; an
empty `side` is an abstention. -/
structure SubSignal where
  name : String
  side : String
  conf : ℚ
deriving DecidableEq

/-- Helper function `avg`. -/
def avg (nums : List ℚ) : ℚ :=
  if nums.length = 0 then 0 else nums.foldl (fun sum n => sum + n) 0 / nums.length

/-- The sub-signal momentumSignal looks at recent price movement. The slices
`Prices[len-3:]` and `Prices[len-6 : len-3]` are `drop` and `take`; with exactly
five samples the second slice expression panics in Go, a case `Decide` never
reaches since it asks for ten samples first. -/
def EnsembleStrategy.momentumSignal (_e : EnsembleStrategy) (prices : PriceHistory) :
    SubSignal :=
  let name := "momentum"
  if prices.Prices.length < 5 then { name := name, side := "", conf := 0 }
  else
    let recent := avg (prices.Prices.drop (prices.Prices.length - 3))
    let earlier := avg ((prices.Prices.drop (prices.Prices.length - 6)).take 3)
    let change := (recent - earlier) / earlier * 100
    let side := if change > 0.05 then "UP" else if change < -0.05 then "DOWN" else ""
    let conf := min (|change| * 10) 1.0
    { name := name, side := side, conf := conf }

/-- The sub-signal trendSignal looks at overall trend direction. -/
def EnsembleStrategy.trendSignal (_e : EnsembleStrategy) (prices : PriceHistory) : SubSignal :=
  let name := "trend"
  let change := (prices.Current - prices.Open) / prices.Open * 100
  let side := if change > 0.02 then "UP" else if change < -0.02 then "DOWN" else ""
  let conf := min (|change| * 5) 1.0
  { name := name, side := side, conf := conf }

/-- The sub-signal volatilitySignal checks if price is breaking out. -/
def EnsembleStrategy.volatilitySignal (_e : EnsembleStrategy) (prices : PriceHistory) :
    SubSignal :=
  let name := "volatility"
  let priceRange := prices.High - prices.Low
  if priceRange = 0 then { name := name, side := "", conf := 0 }
  else
    let positionInRange := (prices.Current - prices.Low) / priceRange
    if positionInRange > 0.8 then { name := name, side := "UP", conf := positionInRange }
    else if positionInRange < 0.2 then
      { name := name, side := "DOWN", conf := 1 - positionInRange }
    else { name := name, side := "", conf := 0 }

/-- The sub-signal marketProbSignal uses Polymarket's own probabilities. -/
def EnsembleStrategy.marketProbSignal (_e : EnsembleStrategy) (market : MarketInfo) :
    SubSignal :=
  let name := "market"
  if market.UpProbability > 0.55 then
    { name := name, side := "UP", conf := market.UpProbability }
  else if market.DownProbability > 0.55 then
    { name := name, side := "DOWN", conf := market.DownProbability }
  else { name := name, side := "", conf := 0 }

/-- The function calculateBetSize based on confidence (Kelly-inspired). -/
def EnsembleStrategy.calculateBetSize (_e : EnsembleStrategy) (confidence : ℚ) : ℚ :=
  let base : ℚ := 5.0
  let multiplier := (confidence - 0.5) * 5
  base + (base * multiplier)

/-- The counters of the vote loop of `Decide`; the list `reasons` only feeds the
text of `Reason`. -/
structure Tally where
  upVotes : Nat
  downVotes : Nat
  totalConf : ℚ
deriving DecidableEq

/-- Body of the loop `for _, sig := range signals` of `Decide`. -/
def tallyStep (t : Tally) (sig : SubSignal) : Tally :=
  if sig.side = "UP" then
    { t with upVotes := t.upVotes + 1, totalConf := t.totalConf + sig.conf }
  else if sig.side = "DOWN" then
    { t with downVotes := t.downVotes + 1, totalConf := t.totalConf + sig.conf }
  else t

/-- The part of `Decide` that follows the collection of the sub-signals: count
the votes, require `minSignals` on one side, average, compare with
`minConfidence`, size the bet. -/
def EnsembleStrategy.decideFrom (e : EnsembleStrategy) (signals : List SubSignal) :
    Option Signal :=
  let t := signals.foldl tallyStep { upVotes := 0, downVotes := 0, totalConf := 0 }
  let chosen : Option (String × Nat) :=
    if t.upVotes ≥ e.minSignals then some ("UP", t.upVotes)
    else if t.downVotes ≥ e.minSignals then some ("DOWN", t.downVotes)
    else none
  match chosen with
  | none => none
  | some (side, votes) =>
    let avgConf := t.totalConf / (votes : ℚ)
    if avgConf < e.minConfidence then none
    else
      let amount := e.calculateBetSize avgConf
      some { Side := side, Confidence := avgConf, Amount := amount, Reason := "" }

/-- The four sub-signals, in the order `Decide` collects them. -/
def EnsembleStrategy.subSignals (e : EnsembleStrategy) (market : MarketInfo)
    (prices : PriceHistory) : List SubSignal :=
  [e.momentumSignal prices, e.trendSignal prices, e.volatilitySignal prices,
    e.marketProbSignal market]

/-- Decide of the ensemble voter. The history pointer is taken as present: on
a nil pointer the Go function panics. -/
def EnsembleStrategy.Decide (e : EnsembleStrategy) (market : MarketInfo)
    (prices : PriceHistory) : Option Signal :=
  if prices.Prices.length < 10 then none
  else e.decideFrom (e.subSignals market prices)

/-! ## Price aggregator: `updatePrice`, `getPrice`, `getPriceHistory` of `engine.go` -/

/-- PricePoint with timestamp. -/
structure PricePoint where
  Price : ℚ
  Time : Int
deriving DecidableEq

/-- The two price maps of the engine. A key that was never written reads as
the zero value, as in Go. -/
structure PriceState where
  prices : String → ℚ
  priceHist : String → List PricePoint

/-- The maps as `New` makes them. -/
def newPriceState : PriceState :=
  { prices := fun _ => 0, priceHist := fun _ => [] }

/-- Keep last 120 prices (10 min of 5-sec updates). `now` is the clock reading
stored with the sample. -/
def updatePrice (st : PriceState) (asset : String) (price : ℚ) (now : Int) : PriceState :=
  let hist := st.priceHist asset
  let hist := hist ++ [{ Price := price, Time := now }]
  let hist := if hist.length > 120 then hist.drop 1 else hist
  { prices := Function.update st.prices asset price
    priceHist := Function.update st.priceHist asset hist }

def getPrice (st : PriceState) (asset : String) : ℚ :=
  st.prices asset

/-- The snapshot handed to the strategies; `none` is the nil pointer. `High` and
`Low` are recomputed by a scan of the retained prices. -/
def getPriceHistory (st : PriceState) (asset : String) : Option PriceHistory :=
  let hist := st.priceHist asset
  if hist.length = 0 then none
  else
    let prices := hist.map (fun p => p.Price)
    let first := prices.headD 0
    some {
      Prices := prices
      Times := []
      Current := prices.getLastD 0
      Open := first
      High := prices.foldl (fun hi p => if p > hi then p else hi) first
      Low := prices.foldl (fun lo p => if p < lo then p else lo) first }

/-- One price tick: asset, price and the clock reading at ingestion. -/
structure Tick where
  asset : String
  price : ℚ
  time : Int
deriving DecidableEq

/-- The calls of `updatePrice` made for a sequence of ticks, in order. -/
def ingest (st : PriceState) (ticks : List Tick) : PriceState :=
  ticks.foldl (fun s t => updatePrice s t.asset t.price t.time) st

/-- The prices of the ticks of one asset, in ingestion order. -/
def pricesOf (asset : String) (ticks : List Tick) : List ℚ :=
  (ticks.filter (fun t => decide (t.asset = asset))).map (fun t => t.price)

/-- The samples of the ticks of one asset, in ingestion order. -/
def pointsOf (asset : String) (ticks : List Tick) : List PricePoint :=
  (ticks.filter (fun t => decide (t.asset = asset))).map
    (fun t => { Price := t.price, Time := t.time })

/-! ## Window scheduler: `runMarketLoop`, `onMarketWindow` of `engine.go` -/

/-- The method `Time.Truncate`: rounds `t` down to a multiple of `d` since the
zero time; for `d ≤ 0` the instant is returned as it is. Instants count
nanoseconds from the zero time. -/
def Truncate (t d : Int) : Int :=
  if d ≤ 0 then t else t - t % d

/-- The instant `next` of `runMarketLoop`: align to next 5-minute boundary. -/
def nextWindow (now : Int) : Int :=
  Truncate now (5 * Minute) + 5 * Minute

/-- The duration `waitDur := next.Sub(now)` of `runMarketLoop`. -/
def waitDur (now : Int) : Int :=
  nextWindow now - now

/-- A strategy implementation held by the registry. -/
inductive StrategyImpl where
  | ensemble (e : EnsembleStrategy)
  | simple (s : SimpleStrategy)
deriving DecidableEq

/-- The method `ID` of the interface. -/
def StrategyImpl.ID : StrategyImpl → String
  | .ensemble _ => "ensemble"
  | .simple _ => "simple"

/-- The method `Decide` of the interface, called with a history that is
present. -/
def StrategyImpl.Decide (impl : StrategyImpl) (market : MarketInfo) (prices : PriceHistory) :
    Option Signal :=
  match impl with
  | .ensemble e => e.Decide market prices
  | .simple s => s.Decide market (some prices)

/-- DefaultRegistry with built-in strategies. -/
def DefaultRegistry : List StrategyImpl :=
  [.ensemble NewEnsembleStrategy, .simple NewSimpleStrategy]

/-- The method `Registry.Get`; `none` is the nil interface of a missing key. -/
def RegistryGet (r : List StrategyImpl) (id : String) : Option StrategyImpl :=
  r.find? (fun s => decide (s.ID = id))

/-- What the outside world answers during one `onMarketWindow`: the clock,
whether `ListStrategies` fails, the outcome of `GetMarketForWindow` for the call
made while an asset is handled, and the environment of the `placeBet` made for
an asset and a strategy. -/
structure WindowEnv where
  now : Int
  listFails : Bool
  GetMarketForWindow : String → Except String BTCMinuteMarket
  place : String → String → PlaceEnv

/-- One pass of the strategy loop that got as far as calling `Decide`: the
asset, the row `dbStrat` as loaded at the start of the window, the snapshot
handed to `Decide`, the signal, and the amount and outcome of `placeBet` when
there was one. -/
structure Evaluation where
  asset : String
  strat : Strategy
  marketInfo : MarketInfo
  signal : Option Signal
  betAmount : Option ℚ
  err : Option String
deriving DecidableEq

/-- Create market info: the literal built for an asset, then the four
assignments made when a market was matched. -/
def buildMarketInfo (asset : String) (now : Int) (price : ℚ)
    (market : Option BTCMinuteMarket) : MarketInfo :=
  let marketInfo : MarketInfo :=
    { ID := "", Asset := asset, Timeframe := "5min", StartTime := now,
      EndTime := now + 5 * Minute, OpenPrice := price, CurrentPrice := price,
      TargetPrice := 0, YesPrice := 0, NoPrice := 0, UpProbability := 0,
      DownProbability := 0, UpTokenID := "", DownTokenID := "" }
  match market with
  | none => marketInfo
  | some m =>
    { marketInfo with
      ID := m.ConditionID
      TargetPrice := m.TargetPrice
      YesPrice := m.UpPrice
      NoPrice := m.DownPrice }

/-- Body of the loop `for _, dbStrat := range strategies` of `onMarketWindow`.
The accumulator is the engine and the evaluations made so far. -/
def evalStrategy (env : WindowEnv) (asset : String) (marketInfo : MarketInfo)
    (market : Option BTCMinuteMarket) (priceHist : PriceHistory)
    (acc : Engine × List Evaluation) (dbStrat : Strategy) : Engine × List Evaluation :=
  if !dbStrat.Enabled then acc
  else
    match RegistryGet DefaultRegistry dbStrat.ID with
    | none => acc
    | some strat =>
      if dbStrat.Available < 5 then acc
      else
        match strat.Decide marketInfo priceHist with
        | none =>
          (acc.1, acc.2 ++ [{ asset := asset, strat := dbStrat, marketInfo := marketInfo,
                              signal := none, betAmount := none, err := none }])
        | some signal =>
          let betAmount :=
            if signal.Amount > dbStrat.Available then dbStrat.Available else signal.Amount
          let out := placeBet (env.place asset dbStrat.ID) acc.1 dbStrat.ID market signal betAmount
          (out.1, acc.2 ++ [{ asset := asset, strat := dbStrat, marketInfo := marketInfo,
                              signal := some signal, betAmount := some betAmount,
                              err := out.2 }])

/-- Body of the loop `for _, asset := range e.config.Assets` of
`onMarketWindow`. The finder is set together with the market client, so
`e.finder != nil` is read off `polyClient`. -/
def windowAsset (env : WindowEnv) (ps : PriceState) (strategies : List Strategy)
    (acc : Engine × List Evaluation) (asset : String) : Engine × List Evaluation :=
  let price := getPrice ps asset
  if price = 0 then acc
  else
    match getPriceHistory ps asset with
    | none => acc
    | some priceHist =>
      let market : Option BTCMinuteMarket :=
        if acc.1.polyClient then
          match env.GetMarketForWindow asset with
          | .ok m => some m
          | .error _ => none
        else none
      let marketInfo := buildMarketInfo asset env.now price market
      strategies.foldl (evalStrategy env asset marketInfo market priceHist) acc

/-- The function onMarketWindow is called at the start of each trading window.
`assets` is `config.Assets` and `ps` the price maps. Returns the engine after
the window and the evaluations made, in order. -/
def onMarketWindow (env : WindowEnv) (assets : List String) (ps : PriceState) (e : Engine) :
    Engine × List Evaluation :=
  if env.listFails then (e, [])
  else
    let strategies := ListStrategies e.db
    assets.foldl (windowAsset env ps strategies) (e, [])

/-- The test a row of `strategies` passes before `Decide` is called for it. -/
def eligible (s : Strategy) : Bool :=
  s.Enabled && (RegistryGet DefaultRegistry s.ID).isSome && !decide (s.Available < 5)

/-- The test an asset passes before its strategies are looked at. -/
def priced (ps : PriceState) (asset : String) : Bool :=
  !decide (getPrice ps asset = 0) && (getPriceHistory ps asset).isSome

/-! ## Lifecycle: `Start` and `Stop` of `engine.go` -/

/-- The fields `Start` and `Stop` act on: the flag `running`, whether the
channel `stopCh` made by `New` has been closed, and whether the channel
`stopCh` of the price feed has been closed. -/
structure Lifecycle where
  running : Bool
  stopChClosed : Bool
  feedStopChClosed : Bool
deriving DecidableEq

/-- The engine as `New` returns it. -/
def newLifecycle : Lifecycle :=
  { running := false, stopChClosed := false, feedStopChClosed := false }

/-- Start begins the trading engine. `loadFails` stands for the two error
returns after the flag is set (strategies cannot be loaded, or none is
enabled). Returns the state afterwards and the error, if any. -/
def Lifecycle.Start (st : Lifecycle) (loadFails : Bool) : Lifecycle × Option String :=
  if st.running then (st, some "engine already running")
  else
    let st1 := { st with running := true }
    if loadFails then (st1, some "load strategies")
    else (st1, none)

/-- Stop gracefully stops the engine. Closing a channel that is already
closed is a run-time panic, rendered as an error; `priceFeed.Stop` closes the
channel of the feed. -/
def Lifecycle.Stop (st : Lifecycle) : Except String Lifecycle :=
  if !st.running then .ok st
  else if st.stopChClosed then .error "close of closed channel"
  else
    let st1 := { st with stopChClosed := true }
    if st1.feedStopChClosed then .error "close of closed channel"
    else .ok { st1 with feedStopChClosed := true, running := false }

/-- A call made on the engine. -/
inductive LifecycleCall where
  | start (loadFails : Bool)
  | stop
deriving DecidableEq

/-- A sequence of calls, stopping at the first panic. -/
def runCalls : List LifecycleCall → Lifecycle → Except String Lifecycle
  | [], st => .ok st
  | .start loadFails :: rest, st => runCalls rest (st.Start loadFails).1
  | .stop :: rest, st =>
    match st.Stop with
    | .error err => .error err
    | .ok st1 => runCalls rest st1

/-! ## Price feed symbols: `internal/pricefeed/binance.go` -/

/-- The library function `strings.ToUpper`, on the ASCII letters. -/
def ToUpper (s : String) : String :=
  String.mk (s.data.map Char.toUpper)

/-- The function normalizeSymbol: BTCUSDT -> BTC, ETHUSDT -> ETH. The test
`len(s) > 4 && s[len(s)-4:] == "USDT"` and the slice `s[:len(s)-4]` count
bytes; with the suffix "USDT" present they cut at the same place as the count
in characters used here. -/
def normalizeSymbol (binanceSymbol : String) : String :=
  if binanceSymbol = "BTCUSDT" then "BTC"
  else if binanceSymbol = "ETHUSDT" then "ETH"
  else if binanceSymbol = "SOLUSDT" then "SOL"
  else if binanceSymbol = "BNBUSDT" then "BNB"
  else if binanceSymbol = "XRPUSDT" then "XRP"
  else if binanceSymbol.data.length > 4 ∧
      binanceSymbol.data.drop (binanceSymbol.data.length - 4) = "USDT".data then
    String.mk (binanceSymbol.data.take (binanceSymbol.data.length - 4))
  else binanceSymbol

/-- SymbolToBinance converts our asset symbol to Binance format (lowercase
required). -/
def SymbolToBinance (asset : String) : String :=
  ToLower asset ++ "usdt"

/-- The callback `New` registers on the feed, run by `handleMessage` for a
ticker with symbol `tickerSymbol`: the price is stored under the normalized
symbol. -/
def onTicker (ps : PriceState) (tickerSymbol : String) (price : ℚ) (now : Int) : PriceState :=
  updatePrice ps (normalizeSymbol tickerSymbol) price now

/-! ## Reading one window evaluation by evaluation -/

/-- The pointer `market` that `onMarketWindow` holds while it handles an asset:
the answer of the finder if there is a finder and it reports no error, `nil`
otherwise. -/
def windowMarket (env : WindowEnv) (finder : Bool) (asset : String) :
    Option BTCMinuteMarket :=
  if finder then
    match env.GetMarketForWindow asset with
    | .ok m => some m
    | .error _ => none
  else none

/-- The effect on the engine of the evaluation `ev`: none without a signal,
otherwise the call `placeBet(&dbStrat, marketInfo, market, signal, betAmount)`
with `betAmount` the smaller of the signal's amount and the funds available to
the row. -/
def betAfter (env : WindowEnv) (finder : Bool) (e : Engine) (ev : Evaluation) : Engine :=
  match ev.signal with
  | none => e
  | some signal =>
    (placeBet (env.place ev.asset ev.strat.ID) e ev.strat.ID (windowMarket env finder ev.asset)
      signal (min signal.Amount ev.strat.Available)).1

/-! ## Reading one poll position by position -/

/-- What one poll decides for one tracked position. -/
inductive Verdict where
  | keep
  | expire
  | settle (won : Bool) (payout : ℚ)
deriving DecidableEq

/-- The branch of the loop body of `CheckResolutions` taken for `pos`. -/
def verdict (GetMarket : String → Except String Market) (now : Int)
    (pos : TrackedPosition) : Verdict :=
  match CheckResolution GetMarket pos.ConditionID with
  | .error _ => .keep
  | .ok none => if now > pos.ExpiresAt + 30 * Minute then .expire else .keep
  | .ok (some resolution) =>
    .settle (decide (resolution.Winner = pos.Side))
      (if decide (resolution.Winner = pos.Side) then pos.Shares else 0)

/-- The callback calls one poll makes, in iteration order. -/
def settlements (GetMarket : String → Except String Market) (now : Int)
    (pending : List TrackedPosition) : List Settlement :=
  pending.filterMap (fun pos =>
    match verdict GetMarket now pos with
    | .settle won payout => some { posID := pos.ID, won := won, payout := payout }
    | _ => none)

/-- The ids one poll appends to `toRemove`, in iteration order. -/
def removedIDs (GetMarket : String → Except String Market) (now : Int)
    (pending : List TrackedPosition) : List String :=
  (pending.filter (fun pos => decide (verdict GetMarket now pos ≠ .keep))).map (fun p => p.ID)

/-- Applies a callback to recorded calls, in order. -/
def replay {σ : Type} (cb : σ → String → Bool → ℚ → σ) (log : List Settlement) (st : σ) : σ :=
  log.foldl (fun s e => cb s e.posID e.won e.payout) st

/-! ## Sample states -/

/-- A strategy with budget 100 of which 30 are locked. -/
def sampleStrategy : Strategy :=
  { ID := "simple", Enabled := true, Budget := 100, Locked := 30, PnL := 0, Wins := 0,
    Losses := 0 }

/-- A filled position of cost 10 held by `sampleStrategy`. -/
def samplePosition : Position :=
  { ID := 1, StrategyID := "simple", MarketID := "0xc0", TokenID := "", Side := "UP",
    Status := "FILLED", Cost := 10, Shares := 0, Payout := 0, OrderID := "" }

def sampleDB : DB :=
  { strategies := [sampleStrategy], positions := [samplePosition], lastPosID := 1 }

/-- A strategy with budget 5 and nothing locked. -/
def thinStrategy : Strategy :=
  { ID := "simple", Enabled := true, Budget := 5, Locked := 0, PnL := 0, Wins := 0,
    Losses := 0 }

/-- A store whose only position costs more than its strategy's whole budget. -/
def thinDB : DB :=
  { strategies := [thinStrategy], positions := [samplePosition], lastPosID := 1 }



/-- A strategy with budget 100 of which only 5 are locked. -/
def lowLockedStrategy : Strategy :=
  { ID := "simple", Enabled := true, Budget := 100, Locked := 5, PnL := 0, Wins := 0,
    Losses := 0 }

/-- A store in which the sample position of cost 10 is open while only 5 are
locked. -/
def lowLockedDB : DB :=
  { strategies := [lowLockedStrategy], positions := [samplePosition], lastPosID := 1 }

/-- An open market with outcomes labelled "Up" and "Down". -/
def openMarket : Market :=
  { ConditionID := "0xc0", Question := "Bitcoin Up or Down - 3:15 PM ET", Active := true,
    Closed := false,
    Tokens := [{ TokenID := "tok-up", Outcome := "Up", Price := 1 / 2, Winner := false },
               { TokenID := "tok-down", Outcome := "Down", Price := 1 / 2, Winner := false }] }

/-- The same market, closed, with the "Up" token flagged as winner. -/
def closedMarketUp : Market :=
  { ConditionID := "0xc0", Question := "Bitcoin Up or Down - 3:15 PM ET", Active := false,
    Closed := true,
    Tokens := [{ TokenID := "tok-up", Outcome := "Up", Price := 1, Winner := true },
               { TokenID := "tok-down", Outcome := "Down", Price := 0, Winner := false }] }

/-- A closed market whose winning outcome is labelled "up". -/
def closedMarketLower : Market :=
  { ConditionID := "0xc0", Question := "Bitcoin Up or Down - 3:15 PM ET", Active := false,
    Closed := true,
    Tokens := [{ TokenID := "tok-up", Outcome := "up", Price := 1, Winner := true },
               { TokenID := "tok-down", Outcome := "down", Price := 0, Winner := false }] }

def sampleQuestion : QuestionFields :=
  { TargetPrice := 97500, EndTime := 900 * 1000000000, Direction := "up" }

/-- An engine in live mode over the sample store, nothing tracked yet. -/
def liveEngine : Engine :=
  { db := sampleDB, polyClient := true, tracker := some [] }

/-- Every store call succeeds and the order is filled. -/
def fillEnv : PlaceEnv :=
  { lockFails := false, createFails := false, unlockFails := false,
    updateStatusFails := false,
    PlaceOrder := fun _ => .ok { OrderID := "order-1", Status := "FILLED" },
    now := 0 }

def upSignal : Signal :=
  { Side := "UP", Confidence := 7 / 10, Amount := 10, Reason := "" }

/-- The tracked position `placeBet` registers for `upSignal` on `openMarket`. -/
def upBet : TrackedPosition :=
  { ID := "2", ConditionID := "0xc0", TokenID := "tok-up", Side := "UP", Shares := 20,
    Cost := 10, PlacedAt := 0, ExpiresAt := 900 * 1000000000 }

/-- A tracked position for the sample position: cost 10, shares 20, side "up". -/
def lowerBet : TrackedPosition :=
  { ID := "1", ConditionID := "0xc0", TokenID := "tok-up", Side := "up", Shares := 20,
    Cost := 10, PlacedAt := 0, ExpiresAt := 900 * 1000000000 }

/-- A second tracked position, on another market. -/
def otherBet : TrackedPosition :=
  { ID := "7", ConditionID := "0xc1", TokenID := "tok-down", Side := "down", Shares := 8,
    Cost := 4, PlacedAt := 0, ExpiresAt := 900 * 1000000000 }

/-- A client for which market `0xc0` has resolved "up" and every other market
is still open. -/
def resolvedClient (conditionID : String) : Except String Market :=
  if conditionID = "0xc0" then .ok closedMarketLower
  else .ok { openMarket with ConditionID := conditionID }

/-- A client for which every market is still open. -/
def openClient (conditionID : String) : Except String Market :=
  .ok { openMarket with ConditionID := conditionID }

/-- A market snapshot with the given up and down probabilities. -/
def marketWith (up down : ℚ) : MarketInfo :=
  { ID := "0xc0", Asset := "BTC", Timeframe := "5min", StartTime := 0, EndTime := 300000000000,
    OpenPrice := 100, CurrentPrice := 100, TargetPrice := 0, YesPrice := 0, NoPrice := 0,
    UpProbability := up, DownProbability := down, UpTokenID := "", DownTokenID := "" }

/-- The snapshot `getPriceHistory` builds from a non-empty list of prices. -/
def historyOf (prices : List ℚ) : PriceHistory :=
  { Prices := prices, Times := [], Current := prices.getLastD 0, Open := prices.headD 0,
    High := prices.foldl (fun hi p => if p > hi then p else hi) (prices.headD 0),
    Low := prices.foldl (fun lo p => if p < lo then p else lo) (prices.headD 0) }

/-- Ten samples: open 100, a spike to 101, current 100.16. Momentum votes UP
with 0.6, trend UP with 0.8, volatility DOWN with 0.84. -/
def spikeHistory : PriceHistory :=
  historyOf [100, 101, 101, 101, 100.1, 100.1, 100.1, 100.16009, 100.16009, 100.16]

/-- Ten samples: open 100, a spike to 101, current 100.08. Momentum votes UP
with 0.6, trend UP with 0.4, volatility DOWN with 0.92. -/
def weakHistory : PriceHistory :=
  historyOf [100, 101, 101, 101, 100.02, 100.02, 100.02, 100.080018, 100.080018, 100.08]

/-- Ten samples: open 90, a plateau at 110, a dip, current 109.5. Momentum votes
DOWN with 1, trend UP with 1, volatility UP with 0.975. -/
def dipHistory : PriceHistory :=
  historyOf [90, 110, 110, 110, 110, 110, 110, 100, 100, 109.5]

/-- Ten samples on which only two sub-signals agree: momentum and trend vote UP,
volatility votes DOWN. -/
def calmHistory : PriceHistory :=
  historyOf [100, 101, 99.9, 100, 100, 100, 100, 100.1, 100.1, 100.1]

/-- Five samples moving from 100 to 100.03. -/
def risingHistory : PriceHistory :=
  historyOf [100, 100.01, 100.02, 100.02, 100.03]

/-- Five samples moving from 100 to 100.01. -/
def flatHistory : PriceHistory :=
  historyOf [100, 100, 100.01, 100, 100.01]

/-- A settled position: WON with payout 20. -/
def wonPosition : Position :=
  { samplePosition with Status := "WON", Payout := 20 }

/-- The sample store after position 1 was settled as won. -/
def settledDB : DB :=
  { strategies := [{ sampleStrategy with Locked := 20, PnL := 10, Wins := 1 }],
    positions := [wonPosition], lastPosID := 1 }

/-- A run of `n` ticks for BTC with prices `k`, `k + 1`, … -/
def rampTicks (k : Nat) : Nat → List Tick
  | 0 => []
  | n + 1 => { asset := "BTC", price := (k : ℚ), time := (k : Int) } :: rampTicks (k + 1) n

/-- A matched market whose up token trades at 0.9. -/
def bullishMarket : BTCMinuteMarket :=
  { ConditionID := "0xc0", Question := "Bitcoin Up or Down - 3:15 PM ET", TargetPrice := 0,
    Direction := "up", StartTime := 600 * 1000000000, EndTime := 900 * 1000000000,
    UpTokenID := "tok-up", DownTokenID := "tok-down", UpPrice := 0.9, DownPrice := 0.1,
    Active := true }

/-- Five ticks for BTC, from 100 to 100.03. -/
def risingTicks : List Tick :=
  [{ asset := "BTC", price := 100, time := 1 }, { asset := "BTC", price := 100.01, time := 2 },
   { asset := "BTC", price := 100.02, time := 3 }, { asset := "BTC", price := 100.02, time := 4 },
   { asset := "BTC", price := 100.03, time := 5 }]

/-- A store with both built-in strategies enabled, each with budget 100. -/
def twoStrategyDB : DB :=
  { strategies :=
      [{ ID := "ensemble", Enabled := true, Budget := 100, Locked := 0, PnL := 0, Wins := 0,
         Losses := 0 },
       { ID := "simple", Enabled := true, Budget := 100, Locked := 0, PnL := 0, Wins := 0,
         Losses := 0 }],
    positions := [], lastPosID := 0 }

/-- A window in which the finder matches `bullishMarket` and every call
succeeds. -/
def matchedWindow : WindowEnv :=
  { now := 600 * 1000000000, listFails := false,
    GetMarketForWindow := fun _ => .ok bullishMarket,
    place := fun _ _ => fillEnv }

/-- A window in which the reservation made for any strategy fails. -/
def failingWindow : WindowEnv :=
  { now := 600 * 1000000000, listFails := false,
    GetMarketForWindow := fun _ => .error "no market found",
    place := fun _ _ => { fillEnv with lockFails := true } }

/-- The order client is down. -/
def orderErrorEnv : PlaceEnv :=
  { fillEnv with PlaceOrder := fun _ => .error "order rejected" }

/-- The store refuses the insertion of the position. -/
def createErrorEnv : PlaceEnv :=
  { fillEnv with createFails := true }

/-- Every store call succeeds but the status update. -/
def updateErrorEnv : PlaceEnv :=
  { fillEnv with updateStatusFails := true }

/-- The store refuses the insertion of the position and the release that
follows it. -/
def createUnlockErrorEnv : PlaceEnv :=
  { fillEnv with createFails := true, unlockFails := true }

/-- An engine in dry-run mode over the sample store. -/
def dryEngine : Engine :=
  { db := sampleDB, polyClient := false, tracker := none }

/-- Ten ticks for BTC that leave the history `calmHistory`. -/
def calmTicks : List Tick :=
  ([100, 101, 99.9, 100, 100, 100, 100, 100.1, 100.1, 100.1] : List ℚ).map
    (fun p => { asset := "BTC", price := p, time := 0 })

/-- Five ticks for ETH, from 2000 to 2001. -/
def ethTicks : List Tick :=
  ([2000, 2000.2, 2000.5, 2000.8, 2001] : List ℚ).map
    (fun p => { asset := "ETH", price := p, time := 0 })

/-- A store in which the ensemble has 10 available and the simple follower
100. -/
def cappedDB : DB :=
  { strategies :=
      [{ ID := "ensemble", Enabled := true, Budget := 10, Locked := 0, PnL := 0, Wins := 0,
         Losses := 0 },
       { ID := "simple", Enabled := true, Budget := 100, Locked := 0, PnL := 0, Wins := 0,
         Losses := 0 }],
    positions := [], lastPosID := 0 }

/-- An engine with a live client over `cappedDB`. -/
def cappedEngine : Engine :=
  { db := cappedDB, polyClient := true, tracker := some [] }

/-- An engine with a live client over the store with both built-in
strategies. -/
def twoStrategyEngine : Engine :=
  { db := twoStrategyDB, polyClient := true, tracker := some [] }

/-! # Theorems -/

/-! ## Lookups in keyed tables -/

theorem find?_map_key {α κ : Type} [DecidableEq κ] (key : α → κ) (f : α → α)
    (hf : ∀ a, key (f a) = key a) (k : κ) (l : List α) :
    (l.map f).find? (fun a => decide (key a = k))
      = (l.find? (fun a => decide (key a = k))).map f := by
  induction l with
  | nil => rfl
  | cons a t ih =>
    by_cases h : key a = k
    · simp [List.find?_cons, hf, h]
    · simp [List.find?_cons, hf, h, ih]

theorem find?_key_unique {α κ : Type} [DecidableEq κ] (key : α → κ) (k : κ) (l : List α)
    (hnd : (l.map key).Nodup) (a : α)
    (hfind : l.find? (fun x => decide (key x = k)) = some a) :
    ∀ b ∈ l, key b = k → b = a := by
  induction l with
  | nil => simp at hfind
  | cons x t ih =>
    intro b hb hk
    rw [List.map_cons, List.nodup_cons] at hnd
    by_cases hx : key x = k
    · have hxa : x = a := by simpa [List.find?_cons, hx] using hfind
      rcases List.mem_cons.1 hb with rfl | hbt
      · exact hxa
      · exfalso
        apply hnd.1
        rw [hx, ← hk]
        exact List.mem_map_of_mem key hbt
    · have hfind' : t.find? (fun x => decide (key x = k)) = some a := by
        simpa [List.find?_cons, hx] using hfind
      rcases List.mem_cons.1 hb with rfl | hbt
      · exact absurd hk hx
      · exact ih hnd.2 hfind' b hbt hk

theorem find?_key_mem {α κ : Type} [DecidableEq κ] (key : α → κ) (k : κ) (l : List α) (a : α)
    (hfind : l.find? (fun x => decide (key x = k)) = some a) : a ∈ l ∧ key a = k := by
  refine ⟨List.mem_of_find?_eq_some hfind, ?_⟩
  simpa using List.find?_some hfind

theorem find?_key_of_mem {α κ : Type} [DecidableEq κ] (key : α → κ) (k : κ) (l : List α)
    (b : α) (hb : b ∈ l) (hk : key b = k) :
    ∃ a, l.find? (fun x => decide (key x = k)) = some a := by
  cases h : l.find? (fun x => decide (key x = k)) with
  | some a => exact ⟨a, rfl⟩
  | none =>
    rw [List.find?_eq_none] at h
    have := h b hb
    simp [hk] at this

/-! ## Fund ledger -/

theorem LockFunds_fst (db : DB) (id : String) (amount : ℚ) :
    (LockFunds db id amount).1 =
      { db with
        strategies := db.strategies.map
          (fun s => if lockWhere id amount s then lockSet amount s else s) } := by
  unfold LockFunds
  dsimp only
  split <;> rfl

theorem LockFunds_snd_none_iff (db : DB) (id : String) (amount : ℚ) :
    (LockFunds db id amount).2 = none ↔ ∃ s ∈ db.strategies, lockWhere id amount s = true := by
  unfold LockFunds
  dsimp only
  split
  · rename_i h
    have hnil : db.strategies.filter (lockWhere id amount) = [] := List.length_eq_zero.1 h
    constructor
    · intro h'; cases h'
    · rintro ⟨s, hs, hw⟩
      have : s ∈ db.strategies.filter (lockWhere id amount) := List.mem_filter.2 ⟨hs, hw⟩
      rw [hnil] at this
      cases this
  · rename_i h
    constructor
    · intro _
      obtain ⟨s, hs⟩ := List.exists_mem_of_length_pos (Nat.pos_of_ne_zero h)
      exact ⟨s, (List.mem_filter.1 hs).1, (List.mem_filter.1 hs).2⟩
    · intro _; rfl

theorem lockRow_ID (id : String) (amount : ℚ) (s : Strategy) :
    (if lockWhere id amount s then lockSet amount s else s).ID = s.ID := by
  split <;> rfl

theorem GetStrategy_LockFunds (db : DB) (id k : String) (amount : ℚ) :
    GetStrategy (LockFunds db id amount).1 k =
      (GetStrategy db k).map (fun s => if lockWhere id amount s then lockSet amount s else s) := by
  rw [LockFunds_fst]
  exact find?_map_key (fun s : Strategy => s.ID) _ (lockRow_ID id amount) k db.strategies

theorem PrimaryKey_LockFunds (db : DB) (id : String) (amount : ℚ) (hpk : PrimaryKey db) :
    PrimaryKey (LockFunds db id amount).1 := by
  rw [LockFunds_fst]
  unfold PrimaryKey at *
  simp only [List.map_map]
  have : ((fun s : Strategy => s.ID) ∘
      fun s => if lockWhere id amount s then lockSet amount s else s) = fun s => s.ID := by
    funext s; exact lockRow_ID id amount s
  rw [this]; exact hpk

theorem LockFunds_ok_iff (db : DB) (hpk : PrimaryKey db) (id : String) (amount : ℚ) :
    (LockFunds db id amount).2 = none ↔
      ∃ s, GetStrategy db id = some s ∧ s.Budget - s.Locked ≥ amount := by
  rw [LockFunds_snd_none_iff]
  constructor
  · rintro ⟨r, hr, hw⟩
    simp only [lockWhere, Bool.and_eq_true, decide_eq_true_eq] at hw
    obtain ⟨a, ha⟩ := find?_key_of_mem (fun s : Strategy => s.ID) id db.strategies r hr hw.1
    have hra := find?_key_unique (fun s : Strategy => s.ID) id db.strategies hpk a ha r hr hw.1
    exact ⟨a, ha, hra ▸ hw.2⟩
  · rintro ⟨s, hs, hge⟩
    obtain ⟨hmem, hid⟩ := find?_key_mem (fun s : Strategy => s.ID) id db.strategies s hs
    exact ⟨s, hmem, by simp [lockWhere, hid, hge]⟩

theorem LockFunds_fail_unchanged (db : DB) (id : String) (amount : ℚ)
    (hfail : (LockFunds db id amount).2 ≠ none) : (LockFunds db id amount).1 = db := by
  have hno : ∀ s ∈ db.strategies, lockWhere id amount s = false := by
    intro s hs
    by_contra hc
    exact hfail ((LockFunds_snd_none_iff db id amount).2 ⟨s, hs, by simpa using hc⟩)
  rw [LockFunds_fst]
  have : db.strategies.map (fun s => if lockWhere id amount s then lockSet amount s else s)
      = db.strategies := by
    conv_rhs => rw [← List.map_id db.strategies]
    apply List.map_congr_left
    intro s hs
    simp [hno s hs]
  rw [this]

/-- C2. `LockFunds` succeeds exactly when the strategy exists and
`budget − locked ≥ amount`; on success `locked` grows by `amount` and every other
column of the row keeps its value; on failure an error is returned and the
database is the one before the call. -/
theorem LockFunds_spec (db : DB) (hpk : PrimaryKey db) (id : String) (amount : ℚ) :
    ((LockFunds db id amount).2 = none ↔
        ∃ s, GetStrategy db id = some s ∧ s.Budget - s.Locked ≥ amount) ∧
    ((LockFunds db id amount).2 = none →
        ∃ s, GetStrategy db id = some s ∧
          GetStrategy (LockFunds db id amount).1 id
            = some { s with Locked := s.Locked + amount }) ∧
    ((LockFunds db id amount).2 ≠ none →
        (∃ err, (LockFunds db id amount).2 = some err) ∧ (LockFunds db id amount).1 = db) := by
  refine ⟨LockFunds_ok_iff db hpk id amount, ?_, ?_⟩
  · intro hok
    obtain ⟨s, hs, hge⟩ := (LockFunds_ok_iff db hpk id amount).1 hok
    obtain ⟨-, hid⟩ := find?_key_mem (fun s : Strategy => s.ID) id db.strategies s hs
    refine ⟨s, hs, ?_⟩
    rw [GetStrategy_LockFunds, hs]
    simp [lockWhere, hid, hge, lockSet]
  · intro hfail
    refine ⟨?_, LockFunds_fail_unchanged db id amount hfail⟩
    cases h : (LockFunds db id amount).2 with
    | none => exact absurd h hfail
    | some err => exact ⟨err, rfl⟩

theorem LockFunds_not_both (db : DB) (hpk : PrimaryKey db) (id : String) (a1 a2 : ℚ)
    (hsum : ∀ s, GetStrategy db id = some s → a1 + a2 > s.Budget - s.Locked) :
    ¬ ((LockFunds db id a1).2 = none ∧ (LockFunds (LockFunds db id a1).1 id a2).2 = none) := by
  rintro ⟨h1, h2⟩
  obtain ⟨s, hs, hge1⟩ := (LockFunds_ok_iff db hpk id a1).1 h1
  obtain ⟨s', hs', hge2⟩ :=
    (LockFunds_ok_iff _ (PrimaryKey_LockFunds db id a1 hpk) id a2).1 h2
  obtain ⟨-, hid⟩ := find?_key_mem (fun s : Strategy => s.ID) id db.strategies s hs
  rw [GetStrategy_LockFunds, hs] at hs'
  have hrow : s' = lockSet a1 s := by
    have : lockWhere id a1 s = true := by simp [lockWhere, hid, hge1]
    simpa [this] using hs'.symm
  have hlt := hsum s hs
  rw [hrow] at hge2
  simp only [lockSet] at hge2
  linarith

/-- C3. Two reservations whose amounts sum to more than `budget − locked` never
both succeed, whichever is applied first. The amounts need not even be
positive. -/
theorem LockFunds_never_both_succeed (db : DB) (hpk : PrimaryKey db) (id : String)
    (a1 a2 : ℚ)
    (hsum : ∀ s, GetStrategy db id = some s → a1 + a2 > s.Budget - s.Locked) :
    ¬ ((LockFunds db id a1).2 = none ∧ (LockFunds (LockFunds db id a1).1 id a2).2 = none) ∧
    ¬ ((LockFunds db id a2).2 = none ∧ (LockFunds (LockFunds db id a2).1 id a1).2 = none) := by
  refine ⟨LockFunds_not_both db hpk id a1 a2 hsum, LockFunds_not_both db hpk id a2 a1 ?_⟩
  intro s hs
  have := hsum s hs
  linarith

theorem unlockRow_ID (id : String) (amount : ℚ) (s : Strategy) :
    (if s.ID = id then unlockSet amount s else s).ID = s.ID := by
  split <;> rfl

theorem GetStrategy_UnlockFunds (db : DB) (id k : String) (amount : ℚ) :
    GetStrategy (UnlockFunds db id amount) k =
      (GetStrategy db k).map (fun s => if s.ID = id then unlockSet amount s else s) :=
  find?_map_key (fun s : Strategy => s.ID) _ (unlockRow_ID id amount) k db.strategies

/-- C4. `UnlockFunds` sets `locked` of the strategy to `max 0 (locked − amount)`
and keeps every other column, every other strategy and every position; after
two releases of the same amount `locked` is still non-negative. -/
theorem UnlockFunds_spec (db : DB) (id : String) (amount : ℚ) :
    GetStrategy (UnlockFunds db id amount) id =
        (GetStrategy db id).map (fun s => { s with Locked := max 0 (s.Locked - amount) }) ∧
    (∀ k, k ≠ id → GetStrategy (UnlockFunds db id amount) k = GetStrategy db k) ∧
    (UnlockFunds db id amount).positions = db.positions ∧
    (∀ s, GetStrategy (UnlockFunds (UnlockFunds db id amount) id amount) id = some s →
        0 ≤ s.Locked) := by
  have hrow : ∀ (d : DB) (a : ℚ), GetStrategy (UnlockFunds d id a) id =
      (GetStrategy d id).map (fun s => { s with Locked := max 0 (s.Locked - a) }) := by
    intro d a
    rw [GetStrategy_UnlockFunds]
    cases h : GetStrategy d id with
    | none => rfl
    | some s =>
      obtain ⟨-, hid⟩ := find?_key_mem (fun s : Strategy => s.ID) id d.strategies s h
      simp only [Option.map_some']
      have hid' : s.ID = id := hid
      simp [hid', unlockSet]
  refine ⟨hrow db amount, ?_, rfl, ?_⟩
  · intro k hk
    rw [GetStrategy_UnlockFunds]
    cases h : GetStrategy db k with
    | none => rfl
    | some s =>
      obtain ⟨-, hid⟩ := find?_key_mem (fun s : Strategy => s.ID) k db.strategies s h
      have hid' : s.ID = k := hid
      have hne : s.ID ≠ id := by rw [hid']; exact hk
      simp [hne]
  · intro s hs
    rw [hrow] at hs
    cases h : GetStrategy (UnlockFunds db id amount) id with
    | none => rw [h] at hs; cases hs
    | some r =>
      rw [h] at hs
      simp only [Option.map_some', Option.some.injEq] at hs
      rw [← hs]
      exact le_max_left _ _

theorem resolveRow_ID (id : String) (cost profit : ℚ) (won : Bool) (s : Strategy) :
    (if s.ID = id then resolveSet cost profit won s else s).ID = s.ID := by
  split <;> rfl

theorem resolvePos_ID (posID : Int) (status : String) (payout : ℚ) (p : Position) :
    (if p.ID = posID then { p with Status := status, Payout := payout } else p).ID = p.ID := by
  split <;> rfl

theorem ResolvePosition_of_row (db : DB) (posID : Int) (won : Bool) (payout : ℚ)
    (p : Position) (hp : GetPosition db posID = some p) :
    ResolvePosition db posID won payout =
      ({ db with
          positions := db.positions.map
            (fun q => if q.ID = posID then
              { q with Status := if won then StatusWon else StatusLost, Payout := payout }
            else q)
          strategies := db.strategies.map
            (fun s => if s.ID = p.StrategyID then
              resolveSet p.Cost (if !won then -p.Cost else payout - p.Cost) won s
            else s) }, none) := by
  unfold GetPosition at hp
  unfold ResolvePosition
  rw [hp]

theorem GetStrategy_ResolvePosition (db : DB) (posID : Int) (won : Bool) (payout : ℚ)
    (p : Position) (hp : GetPosition db posID = some p) (k : String) :
    GetStrategy (ResolvePosition db posID won payout).1 k =
      (GetStrategy db k).map (fun s => if s.ID = p.StrategyID then
        resolveSet p.Cost (if !won then -p.Cost else payout - p.Cost) won s else s) := by
  rw [ResolvePosition_of_row db posID won payout p hp]
  exact find?_map_key (fun s : Strategy => s.ID) _ (resolveRow_ID p.StrategyID _ _ won) k
    db.strategies

theorem GetPosition_ResolvePosition (db : DB) (posID : Int) (won : Bool) (payout : ℚ)
    (p : Position) (hp : GetPosition db posID = some p) :
    GetPosition (ResolvePosition db posID won payout).1 posID =
      some { p with Status := if won then StatusWon else StatusLost, Payout := payout } := by
  rw [ResolvePosition_of_row db posID won payout p hp]
  obtain ⟨-, hpid⟩ := find?_key_mem (fun q : Position => q.ID) posID db.positions p hp
  have hpid' : p.ID = posID := hpid
  unfold GetPosition at hp ⊢
  dsimp only
  rw [find?_map_key (fun q : Position => q.ID) _ (resolvePos_ID posID _ payout), hp]
  simp [hpid']

/-- C5. Settling a position of cost `c` whose strategy has `locked ≥ c` takes `c`
off `locked`, adds the net profit to the realized P&L, bumps exactly one of the
two counters and records the position as WON or LOST. -/
theorem ResolvePosition_spec (db : DB) (posID : Int) (won : Bool) (payout : ℚ)
    (p : Position) (s : Strategy)
    (hp : GetPosition db posID = some p)
    (hs : GetStrategy db p.StrategyID = some s)
    (hlocked : s.Locked ≥ p.Cost) :
    (ResolvePosition db posID won payout).2 = none ∧
    ∃ s' p',
      GetStrategy (ResolvePosition db posID won payout).1 p.StrategyID = some s' ∧
      GetPosition (ResolvePosition db posID won payout).1 posID = some p' ∧
      s'.Locked = s.Locked - p.Cost ∧
      s'.PnL = s.PnL + (if won then payout - p.Cost else -p.Cost) ∧
      s'.Wins = s.Wins + (if won then 1 else 0) ∧
      s'.Losses = s.Losses + (if won then 0 else 1) ∧
      p'.Status = (if won then "WON" else "LOST") := by
  obtain ⟨-, hsid⟩ := find?_key_mem (fun s : Strategy => s.ID) p.StrategyID db.strategies s hs
  have hsid' : s.ID = p.StrategyID := hsid
  have hmax : max 0 (s.Locked - p.Cost) = s.Locked - p.Cost := max_eq_right (by linarith)
  refine ⟨by rw [ResolvePosition_of_row db posID won payout p hp], _, _,
    by rw [GetStrategy_ResolvePosition db posID won payout p hp, hs]; rfl,
    GetPosition_ResolvePosition db posID won payout p hp, ?_⟩
  cases won <;> simp [hsid', resolveSet, boolToInt, hmax, StatusWon, StatusLost]

theorem LockFunds_inv (db : DB) (hinv : ∀ s ∈ db.strategies, LedgerInv s) (id : String)
    (amount : ℚ) (hamt : 0 ≤ amount) :
    ∀ s ∈ (LockFunds db id amount).1.strategies, LedgerInv s := by
  rw [LockFunds_fst]
  intro s hs
  obtain ⟨r, hr, rfl⟩ := List.mem_map.1 hs
  have hri := hinv r hr
  unfold LedgerInv at hri ⊢
  by_cases hw : lockWhere id amount r = true
  · rw [if_pos hw]
    simp only [lockWhere, Bool.and_eq_true, decide_eq_true_eq] at hw
    simp only [lockSet]
    constructor <;> linarith [hw.2]
  · rw [if_neg hw]; exact hri

theorem UnlockFunds_inv (db : DB) (hinv : ∀ s ∈ db.strategies, LedgerInv s) (id : String)
    (amount : ℚ) (hamt : 0 ≤ amount) :
    ∀ s ∈ (UnlockFunds db id amount).strategies, LedgerInv s := by
  intro s hs
  obtain ⟨r, hr, rfl⟩ := List.mem_map.1 hs
  have hri := hinv r hr
  unfold LedgerInv at hri ⊢
  by_cases hw : r.ID = id
  · rw [if_pos hw]
    simp only [unlockSet]
    refine ⟨le_max_left _ _, max_le (by linarith) (by linarith)⟩
  · rw [if_neg hw]; exact hri

theorem profit_eq_credit_sub (won : Bool) (payout cost : ℚ) :
    (if !won then -cost else payout - cost) = (if won then payout else 0) - cost := by
  cases won <;> simp

theorem credit_nonneg (won : Bool) (payout : ℚ) (hpay : 0 ≤ payout) :
    (0 : ℚ) ≤ if won then payout else 0 := by
  cases won
  · exact le_of_eq rfl
  · exact hpay

theorem ResolvePosition_inv_iff (db : DB) (hinv : ∀ s ∈ db.strategies, LedgerInv s)
    (posID : Int) (won : Bool) (payout : ℚ) (p : Position)
    (hp : GetPosition db posID = some p) (hpay : 0 ≤ payout) :
    (∀ s ∈ (ResolvePosition db posID won payout).1.strategies, LedgerInv s) ↔
      ∀ s ∈ db.strategies, s.ID = p.StrategyID →
        p.Cost ≤ s.Budget + (if won then payout else 0) := by
  rw [ResolvePosition_of_row db posID won payout p hp]
  dsimp only
  rw [profit_eq_credit_sub]
  have hcredit := credit_nonneg won payout hpay
  generalize (if won then payout else 0) = credit at hcredit ⊢
  constructor
  · intro h r hr hid
    have hr' := h _ (List.mem_map_of_mem _ hr)
    rw [if_pos hid] at hr'
    have h2 : max 0 (r.Locked - p.Cost) ≤ r.Budget + (credit - p.Cost) := hr'.2
    have h0 : (0 : ℚ) ≤ max 0 (r.Locked - p.Cost) := le_max_left _ _
    linarith
  · intro h s hs
    obtain ⟨r, hr, rfl⟩ := List.mem_map.1 hs
    have hri := hinv r hr
    unfold LedgerInv at hri
    by_cases hid : r.ID = p.StrategyID
    · rw [if_pos hid]
      have hc := h r hr hid
      have h1 : (0 : ℚ) ≤ max 0 (r.Locked - p.Cost) := le_max_left _ _
      have h2 : max 0 (r.Locked - p.Cost) ≤ r.Budget + (credit - p.Cost) :=
        max_le (by linarith) (by linarith)
      exact ⟨h1, h2⟩
    · rw [if_neg hid]; exact hri

/-- C1 (amended). From a store in which every strategy satisfies
`0 ≤ locked ≤ budget`: `LockFunds` and `UnlockFunds` with a non-negative amount
keep it; `ResolvePosition` with a non-negative payout keeps it exactly when the
cost of the position is at most the budget of its strategy plus the payout
credited (the payout if won, nothing if lost), which is the case whenever the
cost is at most `locked`. Under the invariant `Available` is non-negative. -/
theorem ledger_invariant_preserved (db : DB) (hinv : ∀ s ∈ db.strategies, LedgerInv s) :
    (∀ (id : String) (amount : ℚ), 0 ≤ amount →
        ∀ s ∈ (LockFunds db id amount).1.strategies, LedgerInv s) ∧
    (∀ (id : String) (amount : ℚ), 0 ≤ amount →
        ∀ s ∈ (UnlockFunds db id amount).strategies, LedgerInv s) ∧
    (∀ (posID : Int) (won : Bool) (payout : ℚ) (p : Position),
        GetPosition db posID = some p → 0 ≤ payout →
        ((∀ s ∈ (ResolvePosition db posID won payout).1.strategies, LedgerInv s) ↔
          ∀ s ∈ db.strategies, s.ID = p.StrategyID →
            p.Cost ≤ s.Budget + (if won then payout else 0))) ∧
    (∀ (posID : Int) (won : Bool) (payout : ℚ) (p : Position),
        GetPosition db posID = some p → 0 ≤ payout →
        (∀ s ∈ db.strategies, s.ID = p.StrategyID → p.Cost ≤ s.Locked) →
        ∀ s ∈ (ResolvePosition db posID won payout).1.strategies, LedgerInv s) ∧
    (∀ s : Strategy, LedgerInv s → 0 ≤ s.Available) := by
  refine ⟨fun id amount h => LockFunds_inv db hinv id amount h,
    fun id amount h => UnlockFunds_inv db hinv id amount h,
    fun posID won payout p hp hpay => ResolvePosition_inv_iff db hinv posID won payout p hp hpay,
    ?_, ?_⟩
  · intro posID won payout p hp hpay hcost
    refine (ResolvePosition_inv_iff db hinv posID won payout p hp hpay).2 ?_
    intro s hs hid
    have h1 := hcost s hs hid
    have h2 := (hinv s hs).2
    have h3 := credit_nonneg won payout hpay
    linarith
  · intro s hs
    unfold Strategy.Available
    linarith [hs.2]

/-- C1, witness: the sample store satisfies the invariant, and so do the stores
reached from it by a reservation of 20, a release of 50 and the settlement of
its position. -/
theorem ledger_invariant_preserved_witness :
    (∀ s ∈ sampleDB.strategies, LedgerInv s) ∧
    (∀ s ∈ (LockFunds sampleDB "simple" 20).1.strategies, LedgerInv s) ∧
    (∀ s ∈ (UnlockFunds sampleDB "simple" 50).strategies, LedgerInv s) ∧
    (∀ s ∈ (ResolvePosition sampleDB 1 true 25).1.strategies, LedgerInv s) :=
  have hinv : ∀ s ∈ sampleDB.strategies, LedgerInv s := by decide!
  have h := ledger_invariant_preserved sampleDB hinv
  ⟨hinv, h.1 "simple" 20 (by norm_num), h.2.1 "simple" 50 (by norm_num),
    h.2.2.2.1 1 true 25 samplePosition (by decide) (by norm_num) (by decide!)⟩

/-- C1, counterexample: in a store that satisfies `0 ≤ locked ≤ budget`
(budget 5, locked 0), settling a lost position of cost 10 with payout 0 leaves
budget −5 and locked 0, so `locked ≤ budget` fails and `Available` is −5. -/
theorem ledger_invariant_counterexample :
    (∀ s ∈ thinDB.strategies, LedgerInv s) ∧
    GetPosition thinDB 1 = some samplePosition ∧ (0 : ℚ) ≤ samplePosition.Cost ∧
    (ResolvePosition thinDB 1 false 0).1.strategies =
      [{ thinStrategy with Budget := -5, Locked := 0, PnL := -10, Losses := 1 }] ∧
    ¬ (∀ s ∈ (ResolvePosition thinDB 1 false 0).1.strategies, LedgerInv s) ∧
    (∃ s ∈ (ResolvePosition thinDB 1 false 0).1.strategies, s.Available = -5) := by
  refine ⟨by decide!, by decide, by decide!, by decide!, by decide!, by decide!⟩

/-- C2, witness: on the sample store (budget 100, locked 30) a reservation of 20
succeeds and one of 80 fails. -/
theorem LockFunds_spec_witness :
    PrimaryKey sampleDB ∧
    (LockFunds sampleDB "simple" 20).2 = none ∧
    GetStrategy (LockFunds sampleDB "simple" 20).1 "simple"
      = some { sampleStrategy with Locked := 50 } ∧
    (LockFunds sampleDB "simple" 80).2 ≠ none ∧
    (LockFunds sampleDB "simple" 80).1 = sampleDB :=
  have h20 := LockFunds_spec sampleDB (by decide) "simple" 20
  have h80 := LockFunds_spec sampleDB (by decide) "simple" 80
  have ok20 : (LockFunds sampleDB "simple" 20).2 = none :=
    h20.1.2 ⟨sampleStrategy, by decide, by decide!⟩
  have no80 : (LockFunds sampleDB "simple" 80).2 ≠ none := by decide!
  ⟨by decide, ok20, by
      obtain ⟨s, hs, hs'⟩ := h20.2.1 ok20
      have : s = sampleStrategy := by
        have h0 : GetStrategy sampleDB "simple" = some sampleStrategy := by decide
        rw [h0] at hs; exact (Option.some.inj hs).symm
      rw [hs', this]
      simp [sampleStrategy]; norm_num,
    no80, (h80.2.2 no80).2⟩

/-- C3, witness: on the sample store 70 are available; reservations of 40 and 35
do not both succeed. -/
theorem LockFunds_never_both_succeed_witness :
    PrimaryKey sampleDB ∧
    (∀ s, GetStrategy sampleDB "simple" = some s → (40 : ℚ) + 35 > s.Budget - s.Locked) ∧
    ¬ ((LockFunds sampleDB "simple" 40).2 = none ∧
        (LockFunds (LockFunds sampleDB "simple" 40).1 "simple" 35).2 = none) ∧
    ¬ ((LockFunds sampleDB "simple" 35).2 = none ∧
        (LockFunds (LockFunds sampleDB "simple" 35).1 "simple" 40).2 = none) :=
  have hsum : ∀ s, GetStrategy sampleDB "simple" = some s →
      (40 : ℚ) + 35 > s.Budget - s.Locked := by
    intro s hs
    have h0 : GetStrategy sampleDB "simple" = some sampleStrategy := by decide
    rw [h0] at hs
    rw [← Option.some.inj hs]
    simp [sampleStrategy]; norm_num
  ⟨by decide, hsum, LockFunds_never_both_succeed sampleDB (by decide) "simple" 40 35 hsum⟩

/-- C5, witness: settling the sample position (cost 10, strategy locked 30) as
won with payout 25. -/
theorem ResolvePosition_spec_witness :
    GetPosition sampleDB 1 = some samplePosition ∧
    GetStrategy sampleDB samplePosition.StrategyID = some sampleStrategy ∧
    sampleStrategy.Locked ≥ samplePosition.Cost ∧
    (ResolvePosition sampleDB 1 true 25).2 = none ∧
    ∃ s' p',
      GetStrategy (ResolvePosition sampleDB 1 true 25).1 samplePosition.StrategyID = some s' ∧
      GetPosition (ResolvePosition sampleDB 1 true 25).1 1 = some p' ∧
      s'.Locked = sampleStrategy.Locked - samplePosition.Cost ∧
      s'.PnL = sampleStrategy.PnL + (if true then 25 - samplePosition.Cost
        else -samplePosition.Cost) ∧
      s'.Wins = sampleStrategy.Wins + (if true then 1 else 0) ∧
      s'.Losses = sampleStrategy.Losses + (if true then 0 else 1) ∧
      p'.Status = (if true then "WON" else "LOST") :=
  ⟨by decide, by decide, by decide!,
    ResolvePosition_spec sampleDB 1 true 25 samplePosition sampleStrategy (by decide)
      (by decide) (by decide!)⟩

/-! ## Position tracker -/

theorem resolveStep_eq {σ : Type} (cb : σ → String → Bool → ℚ → σ)
    (gm : String → Except String Market) (now : Int) (acc : List String × σ)
    (pos : TrackedPosition) :
    resolveStep (some cb) gm now acc pos =
      match verdict gm now pos with
      | .keep => acc
      | .expire => (acc.1 ++ [pos.ID], acc.2)
      | .settle won payout => (acc.1 ++ [pos.ID], cb acc.2 pos.ID won payout) := by
  unfold resolveStep verdict
  cases h : CheckResolution gm pos.ConditionID with
  | error e => rfl
  | ok r =>
    cases r with
    | none =>
      dsimp only
      split <;> rfl
    | some res => rfl

theorem foldl_resolveStep {σ : Type} (cb : σ → String → Bool → ℚ → σ)
    (gm : String → Except String Market) (now : Int) (pending : List TrackedPosition)
    (tr : List String) (st : σ) :
    pending.foldl (resolveStep (some cb) gm now) (tr, st) =
      (tr ++ removedIDs gm now pending, replay cb (settlements gm now pending) st) := by
  induction pending generalizing tr st with
  | nil => simp [removedIDs, settlements, replay]
  | cons pos rest ih =>
    rw [List.foldl_cons, resolveStep_eq]
    cases hv : verdict gm now pos with
    | keep =>
      simp only
      rw [ih]
      simp [removedIDs, settlements, replay, hv]
    | expire =>
      simp only
      rw [ih]
      simp [removedIDs, settlements, replay, hv]
    | settle won payout =>
      simp only
      rw [ih]
      simp [removedIDs, settlements, replay, hv]

theorem foldl_mapDelete (tr : List String) (pending : List TrackedPosition) :
    tr.foldl mapDelete pending = pending.filter (fun p => decide (p.ID ∉ tr)) := by
  induction tr generalizing pending with
  | nil => simp
  | cons id rest ih =>
    rw [List.foldl_cons, ih]
    unfold mapDelete
    rw [List.filter_filter]
    congr 1
    funext p
    by_cases h1 : p.ID = id <;> by_cases h2 : p.ID ∈ rest <;> simp [h1, h2]

theorem CheckResolutions_eq {σ : Type} (cb : σ → String → Bool → ℚ → σ)
    (gm : String → Except String Market) (now : Int) (pending : List TrackedPosition)
    (st : σ) :
    CheckResolutions (some cb) gm now pending st =
      (pending.filter (fun p => decide (p.ID ∉ removedIDs gm now pending)),
        replay cb (settlements gm now pending) st) := by
  unfold CheckResolutions
  split
  · rename_i h
    have : pending = [] := List.length_eq_zero.1 h
    subst this
    rfl
  · dsimp only
    rw [foldl_resolveStep, foldl_mapDelete]
    simp

theorem mem_removedIDs (gm : String → Except String Market) (now : Int)
    (pending : List TrackedPosition) (id : String) :
    id ∈ removedIDs gm now pending ↔
      ∃ q ∈ pending, verdict gm now q ≠ .keep ∧ q.ID = id := by
  unfold removedIDs
  simp only [List.mem_map, List.mem_filter, decide_eq_true_eq]
  constructor
  · rintro ⟨q, ⟨hq, hv⟩, rfl⟩; exact ⟨q, hq, hv, rfl⟩
  · rintro ⟨q, hq, hv, rfl⟩; exact ⟨q, ⟨hq, hv⟩, rfl⟩

theorem mem_settlements (gm : String → Except String Market) (now : Int)
    (pending : List TrackedPosition) (e : Settlement) :
    e ∈ settlements gm now pending ↔
      ∃ q ∈ pending, verdict gm now q = .settle e.won e.payout ∧ q.ID = e.posID := by
  unfold settlements
  simp only [List.mem_filterMap]
  constructor
  · rintro ⟨q, hq, h⟩
    cases hv : verdict gm now q with
    | keep => rw [hv] at h; cases h
    | expire => rw [hv] at h; cases h
    | settle won payout =>
      rw [hv] at h
      simp only [Option.some.injEq] at h
      subst h
      exact ⟨q, hq, hv, rfl⟩
  · rintro ⟨q, hq, hv, hid⟩
    refine ⟨q, hq, ?_⟩
    rw [hv, hid]

theorem settlements_ids_sublist (gm : String → Except String Market) (now : Int)
    (pending : List TrackedPosition) :
    List.Sublist ((settlements gm now pending).map (fun e => e.posID))
      (pending.map (fun p => p.ID)) := by
  induction pending with
  | nil => simp [settlements]
  | cons pos rest ih =>
    unfold settlements at ih ⊢
    rw [List.filterMap_cons]
    cases hv : verdict gm now pos with
    | keep => exact List.Sublist.cons _ ih
    | expire => exact List.Sublist.cons _ ih
    | settle won payout => exact List.Sublist.cons₂ _ ih

theorem key_eq_of_mem {pending : List TrackedPosition} (hkeys : KeysDistinct pending)
    {p q : TrackedPosition} (hp : p ∈ pending) (hq : q ∈ pending) (hid : p.ID = q.ID) :
    p = q :=
  List.inj_on_of_nodup_map hkeys hp hq hid

theorem KeysDistinct_filter {pending : List TrackedPosition} (hkeys : KeysDistinct pending)
    (f : TrackedPosition → Bool) : KeysDistinct (pending.filter f) :=
  List.Nodup.sublist (List.Sublist.map _ (List.filter_sublist pending)) hkeys

theorem replay_record (log acc : List Settlement) : replay record log acc = acc ++ log := by
  unfold replay
  induction log generalizing acc with
  | nil => simp
  | cons e rest ih =>
    rw [List.foldl_cons, ih]
    simp [record]

theorem replay_append {σ : Type} (cb : σ → String → Bool → ℚ → σ) (l1 l2 : List Settlement)
    (st : σ) : replay cb (l1 ++ l2) st = replay cb l2 (replay cb l1 st) := by
  unfold replay
  rw [List.foldl_append]

theorem runPolls_fst {σ : Type} (cb : σ → String → Bool → ℚ → σ)
    (polls : List ((String → Except String Market) × Int)) (pending : List TrackedPosition)
    (st : σ) (log : List Settlement) :
    (runPolls (some cb) polls pending st).1 = (runPolls (some record) polls pending log).1 := by
  induction polls generalizing pending st log with
  | nil => rfl
  | cons poll rest ih =>
    unfold runPolls
    dsimp only
    rw [CheckResolutions_eq, CheckResolutions_eq]
    exact ih _ _ _

theorem runPolls_record (polls : List ((String → Except String Market) × Int))
    (pending : List TrackedPosition) (log : List Settlement) :
    (runPolls (some record) polls pending log).2 =
      log ++ (runPolls (some record) polls pending []).2 := by
  induction polls generalizing pending log with
  | nil => simp [runPolls]
  | cons poll rest ih =>
    unfold runPolls
    dsimp only
    rw [CheckResolutions_eq, CheckResolutions_eq]
    dsimp only
    rw [ih, ih _ (replay record _ [])]
    rw [replay_record, replay_record]
    simp

theorem runPolls_replay {σ : Type} (cb : σ → String → Bool → ℚ → σ)
    (polls : List ((String → Except String Market) × Int)) (pending : List TrackedPosition)
    (st : σ) :
    (runPolls (some cb) polls pending st).2 =
      replay cb (runPolls (some record) polls pending []).2 st := by
  induction polls generalizing pending st with
  | nil => simp [runPolls, replay]
  | cons poll rest ih =>
    unfold runPolls
    dsimp only
    rw [CheckResolutions_eq, CheckResolutions_eq]
    dsimp only
    rw [ih, replay_record, List.nil_append,
      runPolls_record rest _ (settlements poll.1 poll.2 pending), replay_append]

theorem runPolls_log (polls : List ((String → Except String Market) × Int))
    (pending : List TrackedPosition) (hkeys : KeysDistinct pending) :
    ((runPolls (some record) polls pending []).2.map (fun e => e.posID)).Nodup ∧
    ∀ e ∈ (runPolls (some record) polls pending []).2,
      e.posID ∈ pending.map (fun p => p.ID) := by
  induction polls generalizing pending with
  | nil => simp [runPolls]
  | cons poll rest ih =>
    unfold runPolls
    dsimp only
    rw [CheckResolutions_eq]
    dsimp only
    rw [runPolls_record, replay_record, List.nil_append]
    have hk' := KeysDistinct_filter hkeys
      (fun p => decide (p.ID ∉ removedIDs poll.1 poll.2 pending))
    obtain ⟨hnd, hsub⟩ := ih _ hk'
    have hS : ((settlements poll.1 poll.2 pending).map (fun e => e.posID)).Nodup :=
      List.Nodup.sublist (settlements_ids_sublist poll.1 poll.2 pending) hkeys
    constructor
    · rw [List.map_append]
      refine List.Nodup.append hS hnd ?_
      intro id h1 h2
      obtain ⟨e1, he1, rfl⟩ := List.mem_map.1 h1
      obtain ⟨e2, he2, hid⟩ := List.mem_map.1 h2
      have h3 := hsub e2 he2
      obtain ⟨q, hq, hqid⟩ := List.mem_map.1 h3
      have hq' := (List.mem_filter.1 hq).2
      simp only [decide_eq_true_eq] at hq'
      apply hq'
      obtain ⟨r, hr, hv, hrid⟩ := (mem_settlements _ _ _ _).1 he1
      refine (mem_removedIDs _ _ _ _).2 ⟨r, hr, ?_, ?_⟩
      · rw [hv]; intro hc; cases hc
      · rw [hrid, hqid, hid]
    · intro e he
      rcases List.mem_append.1 he with h | h
      · exact (settlements_ids_sublist poll.1 poll.2 pending).subset
          (List.mem_map_of_mem _ h)
      · obtain ⟨q, hq, hqid⟩ := List.mem_map.1 (hsub e h)
        exact List.mem_map.2 ⟨q, (List.mem_filter.1 hq).1, hqid⟩

/-- C9. Over any sequence of polls from a tracked set the resolution callback is
called at most once per position id; a position a poll settles is not in the
tracked set afterwards; polls never call back for an id that is not tracked; and
whatever the callback does to the ledger is the replay of those recorded calls,
so a position already settled has no further effect. -/
theorem settlement_at_most_once (polls : List ((String → Except String Market) × Int))
    (pending : List TrackedPosition) (hkeys : KeysDistinct pending) :
    ((runPolls (some record) polls pending []).2.map (fun e => e.posID)).Nodup ∧
    (∀ (gm : String → Except String Market) (now : Int),
      ∀ e ∈ (CheckResolutions (some record) gm now pending []).2,
      ∀ q ∈ (CheckResolutions (some record) gm now pending []).1, q.ID ≠ e.posID) ∧
    (∀ id, id ∉ pending.map (fun p => p.ID) →
      ∀ e ∈ (runPolls (some record) polls pending []).2, e.posID ≠ id) ∧
    (∀ (σ : Type) (cb : σ → String → Bool → ℚ → σ) (st : σ),
      runPolls (some cb) polls pending st =
        ((runPolls (some record) polls pending []).1,
          replay cb (runPolls (some record) polls pending []).2 st)) := by
  obtain ⟨hnd, hsub⟩ := runPolls_log polls pending hkeys
  refine ⟨hnd, ?_, ?_, ?_⟩
  · intro gm now e he q hq hid
    rw [CheckResolutions_eq] at he hq
    dsimp only at he hq
    rw [replay_record, List.nil_append] at he
    have hq' := (List.mem_filter.1 hq).2
    simp only [decide_eq_true_eq] at hq'
    apply hq'
    obtain ⟨r, hr, hv, hrid⟩ := (mem_settlements _ _ _ _).1 he
    refine (mem_removedIDs _ _ _ _).2 ⟨r, hr, ?_, ?_⟩
    · rw [hv]; intro hc; cases hc
    · rw [hrid, hid]
  · intro id hid e he hc
    exact hid (hc ▸ hsub e he)
  · intro σ cb st
    apply Prod.ext
    · exact runPolls_fst cb polls pending st []
    · exact runPolls_replay cb polls pending st

theorem verdict_of_resolved (gm : String → Except String Market) (now : Int)
    (pos : TrackedPosition) (r : Resolution)
    (hres : CheckResolution gm pos.ConditionID = .ok (some r)) :
    verdict gm now pos =
      .settle (decide (r.Winner = pos.Side))
        (if decide (r.Winner = pos.Side) then pos.Shares else 0) := by
  unfold verdict
  rw [hres]

theorem verdict_of_unresolved (gm : String → Except String Market) (now : Int)
    (pos : TrackedPosition) (hres : CheckResolution gm pos.ConditionID = .ok none) :
    verdict gm now pos = if now > pos.ExpiresAt + 30 * Minute then .expire else .keep := by
  unfold verdict
  rw [hres]

theorem statsRow_ID (id : String) (won : Bool) (pnl : ℚ) (s : Strategy) :
    (if s.ID = id then
      { s with PnL := s.PnL + pnl, Wins := s.Wins + (if won then 1 else 0),
               Losses := s.Losses + (if won then 0 else 1) }
    else s).ID = s.ID := by
  split <;> rfl

theorem GetStrategy_UpdateStrategyStats (db : DB) (id k : String) (won : Bool) (pnl : ℚ) :
    GetStrategy (UpdateStrategyStats db id won pnl) k =
      (GetStrategy db k).map (fun s => if s.ID = id then
        { s with PnL := s.PnL + pnl, Wins := s.Wins + (if won then 1 else 0),
                 Losses := s.Losses + (if won then 0 else 1) }
      else s) :=
  find?_map_key (fun s : Strategy => s.ID) _ (statsRow_ID id won pnl) k db.strategies

theorem GetStrategy_execUpdateStatus (db : DB) (id : Int) (status : String) (payout : ℚ)
    (k : String) : GetStrategy (execUpdateStatus db id status payout) k = GetStrategy db k :=
  rfl

theorem UpdatePositionStatus_valid (db : DB) (id : Int) (status : String) (payout : ℚ)
    (hstatus : status = StatusFilled ∨ status = StatusWon ∨ status = StatusLost ∨
      status = StatusRedeemed) :
    UpdatePositionStatus db id status payout = (execUpdateStatus db id status payout, none) := by
  rcases hstatus with h | h | h | h <;> subst h <;> rfl

theorem UpdatePositionStatus_invalid (db : DB) (id : Int) (status : String) (payout : ℚ)
    (h1 : status ≠ StatusFilled) (h2 : status ≠ StatusWon) (h3 : status ≠ StatusLost)
    (h4 : status ≠ StatusRedeemed) :
    (UpdatePositionStatus db id status payout).1 = db ∧
    (UpdatePositionStatus db id status payout).2 ≠ none := by
  have h : UpdatePositionStatus db id status payout
      = (db, some "syntax error") := by
    simp [UpdatePositionStatus, h1, h2, h3, h4]
  rw [h]
  exact ⟨rfl, by simp⟩

theorem UpdatePositionStatus_settled (db : DB) (id : Int) (won : Bool) (payout : ℚ) :
    UpdatePositionStatus db id (if won then StatusWon else StatusLost) payout =
      (execUpdateStatus db id (if won then StatusWon else StatusLost) payout, none) := by
  cases won <;> rfl

theorem onPositionResolved_ok (db : DB) (posID : String) (won : Bool) (payout : ℚ)
    (p : Position) (hp : GetPosition db (Sscanf_d posID) = some p) :
    onPositionResolved noResolveFaults db posID won payout =
      UpdateStrategyStats
        (UnlockFunds
          (execUpdateStatus db (Sscanf_d posID) (if won then StatusWon else StatusLost) payout)
          p.StrategyID p.Cost) p.StrategyID won (payout - p.Cost) := by
  unfold onPositionResolved
  simp only [noResolveFaults, hp, Bool.false_eq_true, if_false, UpdatePositionStatus_settled]

theorem onPositionResolved_strategy (db : DB) (posID : String) (won : Bool) (payout : ℚ)
    (p : Position) (s : Strategy)
    (hp : GetPosition db (Sscanf_d posID) = some p)
    (hs : GetStrategy db p.StrategyID = some s) :
    GetStrategy (onPositionResolved noResolveFaults db posID won payout) p.StrategyID =
      some { s with
        Locked := max 0 (s.Locked - p.Cost)
        PnL := s.PnL + (payout - p.Cost)
        Wins := s.Wins + (if won then 1 else 0)
        Losses := s.Losses + (if won then 0 else 1) } := by
  obtain ⟨-, hsid⟩ := find?_key_mem (fun s : Strategy => s.ID) p.StrategyID db.strategies s hs
  have hsid' : s.ID = p.StrategyID := hsid
  rw [onPositionResolved_ok db posID won payout p hp]
  rw [GetStrategy_UpdateStrategyStats, GetStrategy_UnlockFunds,
    GetStrategy_execUpdateStatus, hs]
  simp [hsid', unlockSet]

/-- C8 (amended). For every tracked position whose market resolves,
`CheckResolutions` calls back with `won` the equality of winner and side and
with payout = shares if won and 0 otherwise, and every call it makes has that
shape. On a store holding the position and its strategy, `onPositionResolved`
(all store calls succeeding) then sets `locked` to `max 0 (locked − cost)`, which
is `locked − cost` when `locked ≥ cost`, adds `payout − cost` to the P&L and
bumps wins if won and losses otherwise. For cost 10, 20 shares, equal side and
winner and `locked ≥ 10`: payout 20, P&L +10, wins +1, locked −10. -/
theorem resolution_settles (gm : String → Except String Market) (now : Int)
    (pending : List TrackedPosition) (tp : TrackedPosition) (r : Resolution)
    (htp : tp ∈ pending)
    (hres : CheckResolution gm tp.ConditionID = .ok (some r)) :
    ({ posID := tp.ID, won := decide (r.Winner = tp.Side),
       payout := if decide (r.Winner = tp.Side) then tp.Shares else 0 } : Settlement)
      ∈ (CheckResolutions (some record) gm now pending []).2 ∧
    (∀ e ∈ (CheckResolutions (some record) gm now pending []).2,
      ∃ q ∈ pending, q.ID = e.posID ∧ e.payout = if e.won then q.Shares else 0) ∧
    (∀ (db : DB) (won : Bool) (payout : ℚ) (p : Position) (s : Strategy),
      GetPosition db (Sscanf_d tp.ID) = some p →
      GetStrategy db p.StrategyID = some s →
      GetStrategy (onPositionResolved noResolveFaults db tp.ID won payout) p.StrategyID =
        some { s with
          Locked := max 0 (s.Locked - p.Cost)
          PnL := s.PnL + (payout - p.Cost)
          Wins := s.Wins + (if won then 1 else 0)
          Losses := s.Losses + (if won then 0 else 1) } ∧
      (p.Cost ≤ s.Locked → max 0 (s.Locked - p.Cost) = s.Locked - p.Cost)) ∧
    (∀ (db : DB) (p : Position) (s : Strategy),
      tp.Shares = 20 → r.Winner = tp.Side → p.Cost = 10 → 10 ≤ s.Locked →
      GetPosition db (Sscanf_d tp.ID) = some p →
      GetStrategy db p.StrategyID = some s →
      (if decide (r.Winner = tp.Side) then tp.Shares else 0) = 20 ∧
      GetStrategy (onPositionResolved noResolveFaults db tp.ID true 20) p.StrategyID =
        some { s with Locked := s.Locked - 10, PnL := s.PnL + 10, Wins := s.Wins + 1 }) := by
  have hlog : (CheckResolutions (some record) gm now pending []).2 =
      settlements gm now pending := by
    rw [CheckResolutions_eq]
    dsimp only
    rw [replay_record, List.nil_append]
  refine ⟨?_, ?_, ?_, ?_⟩
  · rw [hlog]
    exact (mem_settlements gm now pending _).2
      ⟨tp, htp, verdict_of_resolved gm now tp r hres, rfl⟩
  · intro e he
    rw [hlog] at he
    obtain ⟨q, hq, hv, hid⟩ := (mem_settlements gm now pending e).1 he
    refine ⟨q, hq, hid, ?_⟩
    unfold verdict at hv
    cases hc : CheckResolution gm q.ConditionID with
    | error err => rw [hc] at hv; cases hv
    | ok o =>
      cases o with
      | none =>
        rw [hc] at hv
        dsimp only at hv
        split at hv <;> cases hv
      | some res =>
        rw [hc] at hv
        simp only [Verdict.settle.injEq] at hv
        rw [← hv.2, ← hv.1]
  · intro db won payout p s hp hs
    refine ⟨onPositionResolved_strategy db tp.ID won payout p s hp hs, ?_⟩
    intro hle
    exact max_eq_right (by linarith)
  · intro db p s hsh hw hc hl hp hs
    refine ⟨by simp [hw, hsh], ?_⟩
    rw [onPositionResolved_strategy db tp.ID true 20 p s hp hs, hc]
    have hmax : max 0 (s.Locked - 10) = s.Locked - 10 := max_eq_right (by linarith)
    rw [hmax]
    simp
    norm_num

/-- C8, witness: the sample position (cost 10, 20 shares, side "up") tracked
over the sample store (locked 30) when its market resolves "up". -/
theorem resolution_settles_witness :
    lowerBet ∈ [lowerBet, otherBet] ∧
    CheckResolution resolvedClient lowerBet.ConditionID
      = .ok (some { ConditionID := "0xc0", Winner := "up" }) ∧
    ({ posID := "1", won := true, payout := 20 } : Settlement)
      ∈ (CheckResolutions (some record) resolvedClient 0 [lowerBet, otherBet] []).2 ∧
    GetStrategy (onPositionResolved noResolveFaults sampleDB "1" true 20) "simple"
      = some { sampleStrategy with Locked := 20, PnL := 10, Wins := 1 } :=
  have h := resolution_settles resolvedClient 0 [lowerBet, otherBet] lowerBet
    { ConditionID := "0xc0", Winner := "up" } (by decide) (by decide!)
  ⟨by decide, by decide!, h.1, by
    have h4 := (h.2.2.2 sampleDB samplePosition sampleStrategy (by decide!) (by decide)
      (by decide!) (by decide!) (by decide!) (by decide)).2
    rw [show lowerBet.ID = "1" from rfl, show samplePosition.StrategyID = "simple" from rfl] at h4
    rw [h4]
    decide!⟩

theorem settlements_filter_ne (gm : String → Except String Market) (now : Int)
    (pending : List TrackedPosition) (pos : TrackedPosition)
    (hv : ∀ won payout, verdict gm now pos ≠ .settle won payout) :
    settlements gm now (pending.filter (fun q => decide (q ≠ pos))) =
      settlements gm now pending := by
  induction pending with
  | nil => rfl
  | cons q rest ih =>
    unfold settlements at ih ⊢
    by_cases hq : q = pos
    · subst hq
      have hnone : (match verdict gm now q with
          | .settle won payout => some ({ posID := q.ID, won := won, payout := payout } : Settlement)
          | _ => none) = none := by
        cases hvq : verdict gm now q with
        | keep => rfl
        | expire => rfl
        | settle won payout => exact absurd hvq (hv won payout)
      rw [List.filter_cons_of_neg (by simp), List.filterMap_cons, hnone]
      exact ih
    · rw [List.filter_cons_of_pos (by simpa using hq), List.filterMap_cons, List.filterMap_cons,
        ih]

/-- C10. A tracked position whose market is still unresolved never triggers the
callback, and the state the callbacks leave is the one the poll would leave
without that position; polled alone it leaves the store of the engine
untouched. If the poll is taken after `ExpiresAt` + 30 minutes the position is
gone from the tracked set, otherwise it is still there. -/
theorem unresolved_position_expiry (gm : String → Except String Market) (now : Int)
    (pending : List TrackedPosition) (pos : TrackedPosition)
    (hmem : pos ∈ pending) (hkeys : KeysDistinct pending)
    (hunres : CheckResolution gm pos.ConditionID = .ok none) :
    (∀ e ∈ (CheckResolutions (some record) gm now pending []).2, e.posID ≠ pos.ID) ∧
    (∀ (σ : Type) (cb : σ → String → Bool → ℚ → σ) (st : σ),
      (CheckResolutions (some cb) gm now pending st).2 =
        (CheckResolutions (some cb) gm now (pending.filter (fun q => decide (q ≠ pos))) st).2) ∧
    (∀ (faults : String → ResolveFaults) (e : Engine), e.tracker = some [pos] →
      (checkResolutions faults gm now e).db = e.db) ∧
    (now > pos.ExpiresAt + 30 * Minute →
      ∀ (σ : Type) (cb : σ → String → Bool → ℚ → σ) (st : σ),
        ∀ q ∈ (CheckResolutions (some cb) gm now pending st).1, q.ID ≠ pos.ID) ∧
    (now ≤ pos.ExpiresAt + 30 * Minute →
      ∀ (σ : Type) (cb : σ → String → Bool → ℚ → σ) (st : σ),
        pos ∈ (CheckResolutions (some cb) gm now pending st).1) := by
  have hv := verdict_of_unresolved gm now pos hunres
  have hns : ∀ won payout, verdict gm now pos ≠ .settle won payout := by
    intro won payout hc
    rw [hv] at hc
    split at hc <;> cases hc
  refine ⟨?_, ?_, ?_, ?_, ?_⟩
  · intro e he hid
    rw [CheckResolutions_eq] at he
    dsimp only at he
    rw [replay_record, List.nil_append] at he
    obtain ⟨q, hq, hvq, hqid⟩ := (mem_settlements gm now pending e).1 he
    have : q = pos := key_eq_of_mem hkeys hq hmem (hqid.trans hid)
    subst this
    exact hns _ _ hvq
  · intro σ cb st
    rw [CheckResolutions_eq, CheckResolutions_eq]
    dsimp only
    rw [settlements_filter_ne gm now pending pos hns]
  · intro faults e he
    unfold checkResolutions
    rw [he]
    dsimp only
    rw [CheckResolutions_eq]
    dsimp only
    have : settlements gm now [pos] = [] := by
      unfold settlements
      rw [List.filterMap_cons]
      cases hvq : verdict gm now pos with
      | keep => rfl
      | expire => rfl
      | settle won payout => exact absurd hvq (hns won payout)
    rw [this]
    rfl
  · intro hexp σ cb st q hq hid
    rw [CheckResolutions_eq] at hq
    have hq' := (List.mem_filter.1 hq).2
    simp only [decide_eq_true_eq] at hq'
    apply hq'
    refine (mem_removedIDs gm now pending q.ID).2 ⟨pos, hmem, ?_, hid.symm⟩
    rw [hv, if_pos hexp]
    intro hc; cases hc
  · intro hnot σ cb st
    rw [CheckResolutions_eq]
    refine List.mem_filter.2 ⟨hmem, ?_⟩
    simp only [decide_eq_true_eq]
    intro hin
    obtain ⟨q, hq, hvq, hqid⟩ := (mem_removedIDs gm now pending pos.ID).1 hin
    have : q = pos := key_eq_of_mem hkeys hq hmem hqid
    subst this
    apply hvq
    rw [hv, if_neg (not_lt.2 hnot)]

/-- C10, witness: `lowerBet` expires at 900 s; with its market still open it is
dropped by a poll at 2701 s and kept by a poll at 2700 s, and in both polls
nothing is settled. -/
theorem unresolved_position_expiry_witness :
    lowerBet ∈ [lowerBet, otherBet] ∧ KeysDistinct [lowerBet, otherBet] ∧
    CheckResolution openClient lowerBet.ConditionID = .ok none ∧
    (2701 * 1000000000 : Int) > lowerBet.ExpiresAt + 30 * Minute ∧
    (2700 * 1000000000 : Int) ≤ lowerBet.ExpiresAt + 30 * Minute ∧
    (∀ q ∈ (CheckResolutions (some record) openClient (2701 * 1000000000)
        [lowerBet, otherBet] []).1, q.ID ≠ lowerBet.ID) ∧
    lowerBet ∈ (CheckResolutions (some record) openClient (2700 * 1000000000)
        [lowerBet, otherBet] []).1 ∧
    (checkResolutions (fun _ => noResolveFaults) openClient (2701 * 1000000000)
        { db := sampleDB, polyClient := true, tracker := some [lowerBet] }).db = sampleDB :=
  have hlate := unresolved_position_expiry openClient (2701 * 1000000000)
    [lowerBet, otherBet] lowerBet (by decide) (by decide) (by decide!)
  have hearly := unresolved_position_expiry openClient (2700 * 1000000000)
    [lowerBet, otherBet] lowerBet (by decide) (by decide) (by decide!)
  ⟨by decide, by decide, by decide!, by decide!, by decide!,
    hlate.2.2.2.1 (by decide!) (List Settlement) record [],
    hearly.2.2.2.2 (by decide!) (List Settlement) record [],
    hlate.2.2.1 (fun _ => noResolveFaults)
      { db := sampleDB, polyClient := true, tracker := some [lowerBet] } rfl⟩

/-- C9, witness: two polls over two tracked positions, the market of the first
resolved in both; the callback is recorded once, for position "1", and after the
first poll that position is no longer tracked. -/
theorem settlement_at_most_once_witness :
    KeysDistinct [lowerBet, otherBet] ∧
    (runPolls (some record) [(resolvedClient, 0), (resolvedClient, 30 * 1000000000)]
        [lowerBet, otherBet] []).2 = [{ posID := "1", won := true, payout := 20 }] ∧
    (CheckResolutions (some record) resolvedClient 0 [lowerBet, otherBet] []).1 = [otherBet] ∧
    ((runPolls (some record) [(resolvedClient, 0), (resolvedClient, 30 * 1000000000)]
        [lowerBet, otherBet] []).2.map (fun e => e.posID)).Nodup ∧
    runPolls (some (onPositionResolved noResolveFaults))
        [(resolvedClient, 0), (resolvedClient, 30 * 1000000000)] [lowerBet, otherBet] sampleDB
      = ([otherBet], onPositionResolved noResolveFaults sampleDB "1" true 20) :=
  have h := settlement_at_most_once
    [(resolvedClient, 0), (resolvedClient, 30 * 1000000000)] [lowerBet, otherBet] (by decide)
  have hlog : (runPolls (some record) [(resolvedClient, 0), (resolvedClient, 30 * 1000000000)]
      [lowerBet, otherBet] []).2 = [{ posID := "1", won := true, payout := 20 }] := by decide!
  have htr : (runPolls (some record) [(resolvedClient, 0), (resolvedClient, 30 * 1000000000)]
      [lowerBet, otherBet] []).1 = [otherBet] := by decide!
  ⟨by decide, hlog, by decide!, h.1, by
    rw [h.2.2.2 DB (onPositionResolved noResolveFaults) sampleDB, hlog, htr]
    rfl⟩

/-- C6. `onPositionResolved` on the sample store (budget 100, locked 30, position 1
of cost 10), called for a win with payout 20. When `UpdateStrategyStats` fails
the position is already WON and `locked` already 20 while P&L and wins are
untouched; when `UnlockFunds` fails the status, P&L and wins are applied while
`locked` stays 30. Only a failure of `UpdatePositionStatus` leaves the store as
it was, and with no failure all four effects are applied. -/
theorem onPositionResolved_not_atomic :
    onPositionResolved
        { getPosition := false, updatePositionStatus := false, unlockFunds := false,
          updateStrategyStats := true } sampleDB "1" true 20
      = { strategies := [{ sampleStrategy with Locked := 20 }],
          positions := [{ samplePosition with Status := "WON", Payout := 20 }],
          lastPosID := 1 } ∧
    onPositionResolved
        { getPosition := false, updatePositionStatus := false, unlockFunds := true,
          updateStrategyStats := false } sampleDB "1" true 20
      = { strategies := [{ sampleStrategy with Locked := 30, PnL := 10, Wins := 1 }],
          positions := [{ samplePosition with Status := "WON", Payout := 20 }],
          lastPosID := 1 } ∧
    onPositionResolved
        { getPosition := false, updatePositionStatus := true, unlockFunds := false,
          updateStrategyStats := false } sampleDB "1" true 20
      = sampleDB ∧
    onPositionResolved noResolveFaults sampleDB "1" true 20
      = { strategies := [{ sampleStrategy with Locked := 20, PnL := 10, Wins := 1 }],
          positions := [{ samplePosition with Status := "WON", Payout := 20 }],
          lastPosID := 1 } := by
  refine ⟨by decide!, by decide!, by decide!, by decide!⟩

/-- C7. A bet on "UP" placed through `placeBet` on a market whose outcomes are
labelled "Up" and "Down" buys the up token and is tracked with side "UP"; when
that very token wins, `CheckResolution` reports the winner "Up" and
`CheckResolutions` calls back with `won = false` and payout 0. -/
theorem CheckResolutions_up_bet_reported_lost :
    (parseMarket (some sampleQuestion) openMarket).map (fun m => (m.UpTokenID, m.DownTokenID))
      = some ("tok-up", "tok-down") ∧
    (placeBet fillEnv liveEngine "simple" (parseMarket (some sampleQuestion) openMarket)
        upSignal 10).1.tracker = some [upBet] ∧
    upBet.TokenID = "tok-up" ∧
    (closedMarketUp.Tokens.find? (fun t => t.Winner)).map (fun t => t.TokenID)
      = some "tok-up" ∧
    CheckResolution (fun _ => .ok closedMarketUp) upBet.ConditionID
      = .ok (some { ConditionID := "0xc0", Winner := "Up" }) ∧
    CheckResolutions (some record) (fun _ => .ok closedMarketUp) 0 [upBet] []
      = ([], [{ posID := "2", won := false, payout := 0 }]) := by
  refine ⟨by decide!, by decide!, by decide, by decide!, by decide!, by decide!⟩

/-- C8, counterexample: the tracked position of cost 10 and 20 shares resolves
as won with payout 20 while its strategy has only 5 locked; `locked` ends at 0,
a decrease of 5 and not of the cost 10. -/
theorem resolution_locked_floor_counterexample :
    (CheckResolutions (some record) resolvedClient 0 [lowerBet] []).2
      = [{ posID := "1", won := true, payout := 20 }] ∧
    (checkResolutions (fun _ => noResolveFaults) resolvedClient 0
        { db := lowLockedDB, polyClient := true, tracker := some [lowerBet] }).db.strategies
      = [{ lowLockedStrategy with Locked := 0, PnL := 10, Wins := 1 }] ∧
    (0 : ℚ) ≠ lowLockedStrategy.Locked - samplePosition.Cost := by
  refine ⟨by decide!, by decide!, by decide!⟩

/-! ## Terminal positions -/

theorem GetPosition_execUpdateStatus (db : DB) (id : Int) (status : String) (payout : ℚ)
    (k : Int) :
    GetPosition (execUpdateStatus db id status payout) k =
      (GetPosition db k).map
        (fun p => if p.ID = id then { p with Status := status, Payout := payout } else p) :=
  find?_map_key (fun q : Position => q.ID) _ (resolvePos_ID id status payout) k db.positions

theorem GetPosition_map_other (db : DB) (id k : Int) (status : String) (payout : ℚ)
    (hk : k ≠ id) :
    (GetPosition db k).map
        (fun p => if p.ID = id then { p with Status := status, Payout := payout } else p)
      = GetPosition db k := by
  cases h : GetPosition db k with
  | none => rfl
  | some p =>
    obtain ⟨-, hid⟩ := find?_key_mem (fun q : Position => q.ID) k db.positions p h
    have hid' : p.ID = k := hid
    have hne : p.ID ≠ id := by rw [hid']; exact hk
    simp [hne]

/-- C11 (amended). The store has no guard on the current status. Called for
position `id` with one of the statuses FILLED, WON, LOST, REDEEMED,
`UpdatePositionStatus` overwrites its status and payout whatever they were, and
so does `ResolvePosition`; with any other status `UpdatePositionStatus` returns
an error and changes nothing. Both leave every position with another id as it
was, `UpdatePositionStatus` leaves every strategy as it was, and
`ResolvePosition` leaves every strategy other than the owner as it was. -/
theorem terminal_position_frame (db : DB) (id : Int) :
    (∀ (status : String) (payout : ℚ) (k : Int), k ≠ id →
      GetPosition (UpdatePositionStatus db id status payout).1 k = GetPosition db k) ∧
    (∀ (status : String) (payout : ℚ),
      (UpdatePositionStatus db id status payout).1.strategies = db.strategies) ∧
    (∀ (won : Bool) (payout : ℚ) (k : Int), k ≠ id →
      GetPosition (ResolvePosition db id won payout).1 k = GetPosition db k) ∧
    (∀ (won : Bool) (payout : ℚ) (p : Position) (sid : String),
      GetPosition db id = some p → sid ≠ p.StrategyID →
      GetStrategy (ResolvePosition db id won payout).1 sid = GetStrategy db sid) ∧
    (∀ (status : String) (payout : ℚ) (p : Position), GetPosition db id = some p →
      status = StatusFilled ∨ status = StatusWon ∨ status = StatusLost ∨
        status = StatusRedeemed →
      (UpdatePositionStatus db id status payout).2 = none ∧
      GetPosition (UpdatePositionStatus db id status payout).1 id
        = some { p with Status := status, Payout := payout }) ∧
    (∀ (status : String) (payout : ℚ),
      status ≠ StatusFilled → status ≠ StatusWon → status ≠ StatusLost →
        status ≠ StatusRedeemed →
      (UpdatePositionStatus db id status payout).1 = db ∧
      (UpdatePositionStatus db id status payout).2 ≠ none) ∧
    (∀ (won : Bool) (payout : ℚ) (p : Position), GetPosition db id = some p →
      GetPosition (ResolvePosition db id won payout).1 id
        = some { p with Status := if won then StatusWon else StatusLost, Payout := payout }) := by
  have hexec : ∀ (status : String) (payout : ℚ),
      (UpdatePositionStatus db id status payout).1 = db ∨
      (UpdatePositionStatus db id status payout).1 = execUpdateStatus db id status payout := by
    intro status payout
    by_cases hv : status = StatusFilled ∨ status = StatusWon ∨ status = StatusLost ∨
      status = StatusRedeemed
    · right; rw [UpdatePositionStatus_valid db id status payout hv]
    · left
      simp only [not_or] at hv
      exact (UpdatePositionStatus_invalid db id status payout hv.1 hv.2.1 hv.2.2.1 hv.2.2.2).1
  refine ⟨?_, ?_, ?_, ?_, ?_, ?_, ?_⟩
  · intro status payout k hk
    rcases hexec status payout with h | h
    · rw [h]
    · rw [h, GetPosition_execUpdateStatus]
      exact GetPosition_map_other db id k status payout hk
  · intro status payout
    rcases hexec status payout with h | h
    · rw [h]
    · rw [h]; rfl
  · intro won payout k hk
    cases hp : GetPosition db id with
    | none =>
      have : ResolvePosition db id won payout = (db, some "sql: no rows in result set") := by
        unfold GetPosition at hp
        unfold ResolvePosition
        rw [hp]
      rw [this]
    | some p =>
      rw [ResolvePosition_of_row db id won payout p hp]
      show GetPosition (execUpdateStatus db id _ payout) k = GetPosition db k
      rw [GetPosition_execUpdateStatus]
      exact GetPosition_map_other db id k _ payout hk
  · intro won payout p sid hp hsid
    rw [GetStrategy_ResolvePosition db id won payout p hp]
    cases h : GetStrategy db sid with
    | none => rfl
    | some s =>
      obtain ⟨-, hid⟩ := find?_key_mem (fun s : Strategy => s.ID) sid db.strategies s h
      have hid' : s.ID = sid := hid
      have hne : s.ID ≠ p.StrategyID := by rw [hid']; exact hsid
      simp [hne]
  · intro status payout p hp hv
    obtain ⟨-, hid⟩ := find?_key_mem (fun q : Position => q.ID) id db.positions p hp
    have hid' : p.ID = id := hid
    rw [UpdatePositionStatus_valid db id status payout hv]
    refine ⟨rfl, ?_⟩
    show GetPosition (execUpdateStatus db id status payout) id = _
    rw [GetPosition_execUpdateStatus, hp]
    simp [hid']
  · intro status payout h1 h2 h3 h4
    exact UpdatePositionStatus_invalid db id status payout h1 h2 h3 h4
  · intro won payout p hp
    exact GetPosition_ResolvePosition db id won payout p hp

/-- C11, counterexample: position 1 is WON with payout 20. `UpdatePositionStatus`
turns it into LOST with payout 0 and reports no error, and a second
`ResolvePosition` applies the ledger update once more (locked 20 to 10, budget
100 to 110, P&L 10 to 20, wins 1 to 2). -/
theorem terminal_position_counterexample :
    GetPosition settledDB 1 = some wonPosition ∧ wonPosition.Status = "WON" ∧
    (UpdatePositionStatus settledDB 1 "LOST" 0).2 = none ∧
    GetPosition (UpdatePositionStatus settledDB 1 "LOST" 0).1 1
      = some { wonPosition with Status := "LOST", Payout := 0 } ∧
    (ResolvePosition settledDB 1 true 20).1.strategies
      = [{ sampleStrategy with Locked := 10, Budget := 110, PnL := 20, Wins := 2 }] ∧
    (ResolvePosition settledDB 1 true 20).1.strategies ≠ settledDB.strategies := by
  refine ⟨by decide, by decide, by decide, by decide!, by decide!, by decide!⟩

/-! ## Strategies -/

/-- C18. The bet size is `5 + 5·((c − 0.5)·5)`, that is `25·c − 7.5`. At 60%
confidence it is 7.5 and at 80% it is 12.5, where the comment inside the
function announces 5 and 10; only the 15 at 90% agrees with the comment. The
stake is 5 at 50%, not at 60%. -/
theorem calculateBetSize_formula (e : EnsembleStrategy) (c : ℚ) :
    e.calculateBetSize c = 5 + 5 * ((c - 0.5) * 5) ∧
    e.calculateBetSize c = 25 * c - 7.5 ∧
    e.calculateBetSize 0.6 = 7.5 ∧
    e.calculateBetSize 0.6 ≠ 5 ∧
    e.calculateBetSize 0.8 = 12.5 ∧
    e.calculateBetSize 0.8 ≠ 10 ∧
    e.calculateBetSize 0.9 = 15 ∧
    e.calculateBetSize 0.5 = 5 := by
  unfold EnsembleStrategy.calculateBetSize
  refine ⟨?_, ?_, ?_, ?_, ?_, ?_, ?_, ?_⟩ <;> norm_num
  ring

theorem SimpleStrategy_Decide_some (m : MarketInfo) (ph : PriceHistory) :
    NewSimpleStrategy.Decide m (some ph) =
      if ph.Prices.length < 5 then none
      else if |(ph.Current - ph.Open) / ph.Open * 100| < 0.02 then none
      else some
        { Side := if (ph.Current - ph.Open) / ph.Open * 100 > 0 then "UP" else "DOWN"
          Confidence := min (0.5 + |(ph.Current - ph.Open) / ph.Open * 100| * 5) 0.8
          Amount := 5
          Reason := "" } := by
  unfold SimpleStrategy.Decide NewSimpleStrategy
  norm_num

/-- C19. With `Open > 0`, the simple follower gives no signal exactly when the
history is absent, has fewer than 5 samples, or the move from open to current
is below 0.02 percent in absolute value. -/
theorem SimpleStrategy_abstains_iff (m : MarketInfo) (prices : Option PriceHistory)
    (hOpen : ∀ ph, prices = some ph → 0 < ph.Open) :
    NewSimpleStrategy.Decide m prices = none ↔
      prices = none ∨
      ∃ ph, prices = some ph ∧
        (ph.Prices.length < 5 ∨ |(ph.Current - ph.Open) / ph.Open * 100| < 0.02) := by
  cases prices with
  | none => simp [SimpleStrategy.Decide]
  | some ph =>
    rw [SimpleStrategy_Decide_some]
    constructor
    · intro h
      right
      refine ⟨ph, rfl, ?_⟩
      by_cases h1 : ph.Prices.length < 5
      · exact Or.inl h1
      · rw [if_neg h1] at h
        by_cases h2 : |(ph.Current - ph.Open) / ph.Open * 100| < 0.02
        · exact Or.inr h2
        · rw [if_neg h2] at h; cases h
    · rintro (h | ⟨q, hq, h⟩)
      · cases h
      · cases hq
        rcases h with h1 | h2
        · rw [if_pos h1]
        · by_cases h1 : ph.Prices.length < 5
          · rw [if_pos h1]
          · rw [if_neg h1, if_pos h2]

/-- C19, witness: five samples from 100 to 100.01 (a move of 0.01 percent) give
no signal; five samples from 100 to 100.03 give one. -/
theorem SimpleStrategy_abstains_iff_witness :
    (∀ ph, some flatHistory = some ph → 0 < ph.Open) ∧
    NewSimpleStrategy.Decide (marketWith 0 0) (some flatHistory) = none ∧
    NewSimpleStrategy.Decide (marketWith 0 0) (some risingHistory) ≠ none :=
  have hflat : ∀ ph, some flatHistory = some ph → 0 < ph.Open := by
    intro ph h; cases h; decide!
  have hrise : ∀ ph, some risingHistory = some ph → 0 < ph.Open := by
    intro ph h; cases h; decide!
  ⟨hflat,
    (SimpleStrategy_abstains_iff (marketWith 0 0) (some flatHistory) hflat).2
      (Or.inr ⟨flatHistory, rfl, Or.inr (by decide!)⟩),
    fun h => by
      rcases (SimpleStrategy_abstains_iff (marketWith 0 0) (some risingHistory) hrise).1 h
        with h0 | ⟨ph, hph, h1 | h2⟩
      · cases h0
      · cases hph; revert h1; decide
      · cases hph; revert h2; decide!⟩

theorem change_pos_iff (o c : ℚ) (ho : 0 < o) : (c - o) / o * 100 > 0 ↔ c > o := by
  constructor
  · intro h
    by_contra hc
    have h1 : c - o ≤ 0 := by linarith
    have h2 : (c - o) / o ≤ 0 := div_nonpos_of_nonpos_of_nonneg h1 ho.le
    linarith
  · intro h
    have h1 : 0 < c - o := by linarith
    have h2 : 0 < (c - o) / o := div_pos h1 ho
    linarith

/-- C20. For a positive open price, a signal of the simple follower sides UP if
`Current > Open` and DOWN if `Current < Open` (the two are never equal then), its
confidence is `min (0.5 + |change|·5) 0.8`, and its amount is 5. With at least
five samples, open 100 and current 100.03 the signal is UP with confidence
0.65. -/
theorem SimpleStrategy_signal (m : MarketInfo) (ph : PriceHistory) (sig : Signal)
    (hOpen : 0 < ph.Open) (h : NewSimpleStrategy.Decide m (some ph) = some sig) :
    (ph.Current > ph.Open → sig.Side = "UP") ∧
    (ph.Current < ph.Open → sig.Side = "DOWN") ∧
    ph.Current ≠ ph.Open ∧
    sig.Confidence = min (0.5 + |(ph.Current - ph.Open) / ph.Open * 100| * 5) 0.8 ∧
    sig.Amount = 5 ∧
    (∀ q : PriceHistory, 5 ≤ q.Prices.length → q.Open = 100 → q.Current = 100.03 →
      ∃ s, NewSimpleStrategy.Decide m (some q) = some s ∧ s.Side = "UP" ∧
        s.Confidence = 0.65 ∧ s.Amount = 5) := by
  rw [SimpleStrategy_Decide_some] at h
  by_cases h1 : ph.Prices.length < 5
  · rw [if_pos h1] at h; cases h
  rw [if_neg h1] at h
  by_cases h2 : |(ph.Current - ph.Open) / ph.Open * 100| < 0.02
  · rw [if_pos h2] at h; cases h
  rw [if_neg h2] at h
  simp only [Option.some.injEq] at h
  subst h
  have hiff := change_pos_iff ph.Open ph.Current hOpen
  refine ⟨?_, ?_, ?_, rfl, rfl, ?_⟩
  · intro hgt
    show (if _ then "UP" else "DOWN") = "UP"
    rw [if_pos (hiff.2 hgt)]
  · intro hlt
    show (if _ then "UP" else "DOWN") = "DOWN"
    rw [if_neg (fun hc => absurd (hiff.1 hc) (not_lt.2 hlt.le))]
  · intro heq
    apply h2
    rw [heq]
    norm_num
  · intro q hlen ho hc
    rw [SimpleStrategy_Decide_some, if_neg (not_lt.2 hlen), ho, hc]
    norm_num [abs_of_pos]

/-- C20, witness: the five samples from 100 to 100.03. -/
theorem SimpleStrategy_signal_witness :
    0 < risingHistory.Open ∧
    NewSimpleStrategy.Decide (marketWith 0 0) (some risingHistory)
      = some { Side := "UP", Confidence := 0.65, Amount := 5, Reason := "" } ∧
    risingHistory.Current > risingHistory.Open ∧
    ({ Side := "UP", Confidence := 0.65, Amount := 5, Reason := "" } : Signal).Side = "UP" :=
  have hd : NewSimpleStrategy.Decide (marketWith 0 0) (some risingHistory)
      = some { Side := "UP", Confidence := 0.65, Amount := 5, Reason := "" } := by decide!
  have hgt : risingHistory.Current > risingHistory.Open := by decide!
  ⟨by decide!, hd, hgt,
    (SimpleStrategy_signal (marketWith 0 0) risingHistory _ (by decide!) hd).1 hgt⟩

/-! ## Price aggregator -/

theorem push_drop_window {α : Type} (l : List α) (x : α) :
    (if (l.drop (l.length - 120) ++ [x]).length > 120
      then (l.drop (l.length - 120) ++ [x]).drop 1
      else l.drop (l.length - 120) ++ [x])
      = (l ++ [x]).drop ((l ++ [x]).length - 120) := by
  by_cases h : l.length < 120
  · have h0 : l.length - 120 = 0 := by omega
    have h1 : (l ++ [x]).length - 120 = 0 := by
      rw [List.length_append, List.length_singleton]; omega
    rw [h0, h1, List.drop_zero, List.drop_zero, if_neg]
    rw [List.length_append, List.length_singleton]; omega
  · have hlen : (l.drop (l.length - 120) ++ [x]).length = 121 := by
      rw [List.length_append, List.length_drop, List.length_singleton]; omega
    have hk : (l.drop (l.length - 120)).length = 120 := by
      rw [List.length_drop]; omega
    rw [if_pos (by rw [hlen]; decide)]
    have h1 : (l ++ [x]).length - 120 = 1 + (l.length - 120) := by
      rw [List.length_append, List.length_singleton]; omega
    rw [h1, List.drop_append_of_le_length (by rw [hk]; decide), List.drop_drop,
      List.drop_append_of_le_length (by omega), Nat.add_comm]

theorem ingest_snoc (st : PriceState) (ticks : List Tick) (t : Tick) :
    ingest st (ticks ++ [t]) = updatePrice (ingest st ticks) t.asset t.price t.time := by
  unfold ingest
  rw [List.foldl_append]
  rfl

theorem pointsOf_snoc (asset : String) (ticks : List Tick) (t : Tick) :
    pointsOf asset (ticks ++ [t]) =
      if t.asset = asset then pointsOf asset ticks ++ [{ Price := t.price, Time := t.time }]
      else pointsOf asset ticks := by
  unfold pointsOf
  rw [List.filter_append]
  by_cases h : t.asset = asset
  · simp [h]
  · simp [h]

theorem priceHist_ingest (asset : String) (ticks : List Tick) :
    (ingest newPriceState ticks).priceHist asset =
      (pointsOf asset ticks).drop ((pointsOf asset ticks).length - 120) := by
  induction ticks using List.reverseRecOn with
  | nil => rfl
  | append_singleton ticks t ih =>
    rw [ingest_snoc, pointsOf_snoc]
    unfold updatePrice
    dsimp only
    by_cases h : t.asset = asset
    · rw [if_pos h]
      subst h
      rw [Function.update_same, ih]
      exact push_drop_window (pointsOf t.asset ticks) _
    · rw [if_neg h, Function.update_noteq (Ne.symm h), ih]

theorem pricesOf_eq_map (asset : String) (ticks : List Tick) :
    pricesOf asset ticks = (pointsOf asset ticks).map (fun p => p.Price) := by
  unfold pricesOf pointsOf
  rw [List.map_map]
  rfl

theorem retained_prices (asset : String) (ticks : List Tick) :
    ((ingest newPriceState ticks).priceHist asset).map (fun p => p.Price) =
      (pricesOf asset ticks).drop ((pricesOf asset ticks).length - 120) := by
  rw [priceHist_ingest, pricesOf_eq_map, List.map_drop, List.length_map]

theorem price_window_len (asset : String) (ticks : List Tick) :
    ((ingest newPriceState ticks).priceHist asset).length
      = min (pricesOf asset ticks).length 120 := by
  have := congrArg List.length (retained_prices asset ticks)
  rw [List.length_map, List.length_drop] at this
  rw [this]
  omega

theorem getPriceHistory_eq (st : PriceState) (asset : String) :
    getPriceHistory st asset =
      if (st.priceHist asset).length = 0 then none
      else some
        { Prices := (st.priceHist asset).map (fun p => p.Price)
          Times := []
          Current := ((st.priceHist asset).map (fun p => p.Price)).getLastD 0
          Open := ((st.priceHist asset).map (fun p => p.Price)).headD 0
          High := ((st.priceHist asset).map (fun p => p.Price)).foldl
            (fun hi p => if p > hi then p else hi)
            (((st.priceHist asset).map (fun p => p.Price)).headD 0)
          Low := ((st.priceHist asset).map (fun p => p.Price)).foldl
            (fun lo p => if p < lo then p else lo)
            (((st.priceHist asset).map (fun p => p.Price)).headD 0) } :=
  rfl

/-- C12. After any sequence of ticks the history kept for an asset is the last
`min n 120` of the `n` prices ingested for it, in ingestion order, never more
than 120; after 130 prices these are the 120 most recent and `Open` of the
snapshot is the price at index 10, the 11th-oldest. -/
theorem price_window_bound (asset : String) (ticks : List Tick) :
    ((ingest newPriceState ticks).priceHist asset).map (fun p => p.Price) =
        (pricesOf asset ticks).drop ((pricesOf asset ticks).length - 120) ∧
    ((ingest newPriceState ticks).priceHist asset).length
        = min (pricesOf asset ticks).length 120 ∧
    ((ingest newPriceState ticks).priceHist asset).length ≤ 120 ∧
    ((pricesOf asset ticks).length = 130 →
      ∃ ph, getPriceHistory (ingest newPriceState ticks) asset = some ph ∧
        ph.Prices = (pricesOf asset ticks).drop 10 ∧
        ph.Prices.length = 120 ∧
        some ph.Open = (pricesOf asset ticks)[10]?) := by
  have hret := retained_prices asset ticks
  have hlen : ((ingest newPriceState ticks).priceHist asset).length
      = min (pricesOf asset ticks).length 120 := by
    have := congrArg List.length hret
    rw [List.length_map, List.length_drop] at this
    rw [this]
    omega
  refine ⟨hret, hlen, by rw [hlen]; exact min_le_right _ _, ?_⟩
  intro h130
  rw [getPriceHistory_eq, if_neg (by rw [hlen, h130]; decide)]
  refine ⟨_, rfl, ?_, ?_, ?_⟩
  · show List.map _ _ = _
    rw [hret, h130]
  · show (List.map _ _).length = 120
    rw [List.length_map, hlen, h130]
    rfl
  · show some ((List.map _ _).headD 0) = _
    rw [hret, h130]
    have hd : (130 : Nat) - 120 = 10 := rfl
    rw [hd]
    cases hc : List.drop 10 (pricesOf asset ticks) with
    | nil =>
      have := congrArg List.length hc
      rw [List.length_drop, h130] at this
      cases this
    | cons a rest =>
      have h1 : (pricesOf asset ticks)[10]? = (List.drop 10 (pricesOf asset ticks))[0]? := by
        rw [List.getElem?_drop]
      rw [h1, hc]
      simp

/-- Example: 130 ticks with prices 1, 2, …, 130. The snapshot keeps 120 prices,
opens at 11 and is current at 130. -/
theorem price_window_ramp :
    (getPriceHistory (ingest newPriceState (rampTicks 1 130)) "BTC").map
        (fun p => (p.Prices.length, p.Open, p.Current, p.High, p.Low))
      = some (120, 11, 130, 130, 11) := by
  decide!

theorem foldl_hi_ge (l : List ℚ) (init : ℚ) :
    init ≤ l.foldl (fun hi p => if p > hi then p else hi) init ∧
    (∀ p ∈ l, p ≤ l.foldl (fun hi p => if p > hi then p else hi) init) ∧
    (l.foldl (fun hi p => if p > hi then p else hi) init = init ∨
      l.foldl (fun hi p => if p > hi then p else hi) init ∈ l) := by
  induction l generalizing init with
  | nil => simp
  | cons a t ih =>
    rw [List.foldl_cons]
    by_cases ha : a > init
    · rw [if_pos ha]
      obtain ⟨h1, h2, h3⟩ := ih a
      refine ⟨le_trans ha.le h1, ?_, Or.inr ?_⟩
      · intro p hp
        rcases List.mem_cons.1 hp with rfl | hp
        · exact h1
        · exact h2 p hp
      · rcases h3 with h3 | h3
        · rw [h3]; exact List.mem_cons_self _ _
        · exact List.mem_cons_of_mem _ h3
    · rw [if_neg ha]
      obtain ⟨h1, h2, h3⟩ := ih init
      refine ⟨h1, ?_, ?_⟩
      · intro p hp
        rcases List.mem_cons.1 hp with rfl | hp
        · exact le_trans (not_lt.1 ha) h1
        · exact h2 p hp
      · rcases h3 with h3 | h3
        · exact Or.inl h3
        · exact Or.inr (List.mem_cons_of_mem _ h3)

theorem foldl_lo_le (l : List ℚ) (init : ℚ) :
    l.foldl (fun lo p => if p < lo then p else lo) init ≤ init ∧
    (∀ p ∈ l, l.foldl (fun lo p => if p < lo then p else lo) init ≤ p) ∧
    (l.foldl (fun lo p => if p < lo then p else lo) init = init ∨
      l.foldl (fun lo p => if p < lo then p else lo) init ∈ l) := by
  induction l generalizing init with
  | nil => simp
  | cons a t ih =>
    rw [List.foldl_cons]
    by_cases ha : a < init
    · rw [if_pos ha]
      obtain ⟨h1, h2, h3⟩ := ih a
      refine ⟨le_trans h1 ha.le, ?_, Or.inr ?_⟩
      · intro p hp
        rcases List.mem_cons.1 hp with rfl | hp
        · exact h1
        · exact h2 p hp
      · rcases h3 with h3 | h3
        · rw [h3]; exact List.mem_cons_self _ _
        · exact List.mem_cons_of_mem _ h3
    · rw [if_neg ha]
      obtain ⟨h1, h2, h3⟩ := ih init
      refine ⟨h1, ?_, ?_⟩
      · intro p hp
        rcases List.mem_cons.1 hp with rfl | hp
        · exact le_trans h1 (not_lt.1 ha)
        · exact h2 p hp
      · rcases h3 with h3 | h3
        · exact Or.inl h3
        · exact Or.inr (List.mem_cons_of_mem _ h3)

theorem snapshot_fields (st : PriceState) (asset : String) (ph : PriceHistory)
    (h : getPriceHistory st asset = some ph) :
    ph.Prices = (st.priceHist asset).map (fun p => p.Price) ∧
    ph.Prices ≠ [] ∧
    some ph.Open = ph.Prices.head? ∧
    some ph.Current = ph.Prices.getLast? ∧
    ph.High ∈ ph.Prices ∧ (∀ p ∈ ph.Prices, p ≤ ph.High) ∧
    ph.Low ∈ ph.Prices ∧ (∀ p ∈ ph.Prices, ph.Low ≤ p) := by
  rw [getPriceHistory_eq] at h
  by_cases h0 : (st.priceHist asset).length = 0
  · rw [if_pos h0] at h; cases h
  rw [if_neg h0] at h
  simp only [Option.some.injEq] at h
  subst h
  dsimp only
  generalize hl : (st.priceHist asset).map (fun p => p.Price) = l
  have hne : l ≠ [] := by
    intro hc
    apply h0
    have := congrArg List.length hl
    rw [List.length_map, hc] at this
    exact this
  cases l with
  | nil => exact absurd rfl hne
  | cons a t =>
    obtain ⟨g1, g2, g3⟩ := foldl_hi_ge (a :: t) a
    obtain ⟨l1, l2, l3⟩ := foldl_lo_le (a :: t) a
    refine ⟨rfl, hne, rfl, ?_, ?_, g2, ?_, l2⟩
    · rw [List.getLast?_eq_getLast _ hne, List.getLastD_eq_getLast?,
        List.getLast?_eq_getLast _ hne]
      rfl
    · rcases g3 with g3 | g3
      · rw [List.headD_cons, g3]; exact List.mem_cons_self _ _
      · exact g3
    · rcases l3 with l3 | l3
      · rw [List.headD_cons, l3]; exact List.mem_cons_self _ _
      · exact l3

/-- C13. The snapshot of an asset is absent exactly when no tick was ingested
for it. Otherwise its prices are the retained ones, `Open` is the first of them
and `Current` the last, `High` is one of them and at least each of them, `Low` is
one of them and at most each of them; so `Low ≤ Open, Current ≤ High`. -/
theorem getPriceHistory_snapshot (asset : String) (ticks : List Tick) :
    (getPriceHistory (ingest newPriceState ticks) asset = none ↔
      ∀ t ∈ ticks, t.asset ≠ asset) ∧
    ∀ ph, getPriceHistory (ingest newPriceState ticks) asset = some ph →
      ph.Prices = (pricesOf asset ticks).drop ((pricesOf asset ticks).length - 120) ∧
      some ph.Open = ph.Prices.head? ∧
      some ph.Current = ph.Prices.getLast? ∧
      ph.High ∈ ph.Prices ∧ (∀ p ∈ ph.Prices, p ≤ ph.High) ∧
      ph.Low ∈ ph.Prices ∧ (∀ p ∈ ph.Prices, ph.Low ≤ p) ∧
      ph.Low ≤ ph.Open ∧ ph.Open ≤ ph.High ∧ ph.Low ≤ ph.Current ∧ ph.Current ≤ ph.High := by
  constructor
  · rw [getPriceHistory_eq]
    have hlen := (price_window_len asset ticks)
    constructor
    · intro h t ht hta
      by_cases h0 : ((ingest newPriceState ticks).priceHist asset).length = 0
      · rw [hlen] at h0
        have hp : t.price ∈ pricesOf asset ticks := by
          unfold pricesOf
          exact List.mem_map.2 ⟨t, List.mem_filter.2 ⟨ht, by simpa using hta⟩, rfl⟩
        have : 0 < (pricesOf asset ticks).length := List.length_pos_of_mem hp
        omega
      · rw [if_neg h0] at h; cases h
    · intro h
      have : pricesOf asset ticks = [] := by
        unfold pricesOf
        rw [List.map_eq_nil_iff, List.filter_eq_nil_iff]
        intro t ht
        simpa using h t ht
      rw [if_pos]
      rw [hlen, this]
      rfl
  · intro ph h
    obtain ⟨h1, hne, h2, h3, h4, h5, h6, h7⟩ :=
      snapshot_fields (ingest newPriceState ticks) asset ph h
    have hO : ph.Open ∈ ph.Prices := List.mem_of_mem_head? h2.symm
    have hC : ph.Current ∈ ph.Prices := List.mem_of_mem_getLast? h3.symm
    refine ⟨by rw [h1]; exact retained_prices asset ticks, h2, h3, h4, h5, h6, h7,
      h7 _ hO, h5 _ hO, h7 _ hC, h5 _ hC⟩

/-! ## Ensemble voter -/

theorem tally_counts (signals : List SubSignal) (t : Tally) :
    (signals.foldl tallyStep t).upVotes =
        t.upVotes + (signals.filter (fun s => decide (s.side = "UP"))).length ∧
    (signals.foldl tallyStep t).downVotes =
        t.downVotes + (signals.filter (fun s => decide (s.side = "DOWN"))).length ∧
    (signals.foldl tallyStep t).totalConf =
        t.totalConf +
          ((signals.filter (fun s => decide (s.side = "UP") || decide (s.side = "DOWN"))).map
            (fun s => s.conf)).sum := by
  induction signals generalizing t with
  | nil => simp
  | cons s rest ih =>
    rw [List.foldl_cons]
    obtain ⟨h1, h2, h3⟩ := ih (tallyStep t s)
    rw [h1, h2, h3]
    unfold tallyStep
    by_cases hu : s.side = "UP"
    · have hd : s.side ≠ "DOWN" := by rw [hu]; decide
      simp [hu, List.filter_cons]
      refine ⟨by omega, by ring⟩
    · by_cases hd : s.side = "DOWN"
      · simp [hd, List.filter_cons]
        refine ⟨by omega, by ring⟩
      · simp [hu, hd, List.filter_cons]

theorem decideFrom_none_of_few_votes (e : EnsembleStrategy) (signals : List SubSignal)
    (hup : (signals.filter (fun s => decide (s.side = "UP"))).length < e.minSignals)
    (hdown : (signals.filter (fun s => decide (s.side = "DOWN"))).length < e.minSignals) :
    e.decideFrom signals = none := by
  obtain ⟨h1, h2, -⟩ := tally_counts signals { upVotes := 0, downVotes := 0, totalConf := 0 }
  unfold EnsembleStrategy.decideFrom
  dsimp only
  rw [h1, h2]
  simp only [Nat.zero_add]
  rw [if_neg (by omega), if_neg (by omega)]

/-- C16. The ensemble voter gives no signal when the history has fewer than 10
samples, or when fewer than 3 of its four sub-signals vote UP and fewer than 3
vote DOWN; the same holds for any list of sub-signals, whatever their
confidences. -/
theorem ensemble_abstains (m : MarketInfo) (ph : PriceHistory)
    (h : ph.Prices.length < 10 ∨
      (((NewEnsembleStrategy.subSignals m ph).filter
          (fun s => decide (s.side = "UP"))).length < 3 ∧
        ((NewEnsembleStrategy.subSignals m ph).filter
          (fun s => decide (s.side = "DOWN"))).length < 3)) :
    NewEnsembleStrategy.Decide m ph = none ∧
    (NewEnsembleStrategy.subSignals m ph).length = 4 ∧
    ∀ signals : List SubSignal,
      (signals.filter (fun s => decide (s.side = "UP"))).length < 3 →
      (signals.filter (fun s => decide (s.side = "DOWN"))).length < 3 →
      NewEnsembleStrategy.decideFrom signals = none := by
  refine ⟨?_, rfl, fun signals hu hd =>
    decideFrom_none_of_few_votes NewEnsembleStrategy signals hu hd⟩
  unfold EnsembleStrategy.Decide
  by_cases hlen : ph.Prices.length < 10
  · rw [if_pos hlen]
  · rw [if_neg hlen]
    rcases h with h | ⟨hu, hd⟩
    · exact absurd h hlen
    · exact decideFrom_none_of_few_votes NewEnsembleStrategy _ hu hd

/-- C16, witness: on `calmHistory` two sub-signals vote UP and one DOWN, and on
the five samples of `risingHistory` the history is too short; no signal in
either case. -/
theorem ensemble_abstains_witness :
    (NewEnsembleStrategy.subSignals (marketWith 0.5 0.5) calmHistory).map (fun s => s.side)
      = ["UP", "UP", "DOWN", ""] ∧
    NewEnsembleStrategy.Decide (marketWith 0.5 0.5) calmHistory = none ∧
    risingHistory.Prices.length < 10 ∧
    NewEnsembleStrategy.Decide (marketWith 0.9 0.1) risingHistory = none :=
  ⟨by decide!,
    (ensemble_abstains (marketWith 0.5 0.5) calmHistory
      (Or.inr ⟨by decide!, by decide!⟩)).1,
    by decide,
    (ensemble_abstains (marketWith 0.9 0.1) risingHistory (Or.inl (by decide))).1⟩

theorem decideFrom_confidence (e : EnsembleStrategy) (signals : List SubSignal) (sig : Signal)
    (h : e.decideFrom signals = some sig) :
    sig.Confidence =
      ((signals.filter (fun s => decide (s.side = "UP") || decide (s.side = "DOWN"))).map
          (fun s => s.conf)).sum /
        ((signals.filter (fun s => decide (s.side = sig.Side))).length : ℚ) := by
  obtain ⟨h1, h2, h3⟩ := tally_counts signals { upVotes := 0, downVotes := 0, totalConf := 0 }
  unfold EnsembleStrategy.decideFrom at h
  dsimp only at h
  rw [h1, h2, h3] at h
  simp only [Nat.zero_add, zero_add] at h
  by_cases hu : (signals.filter (fun s => decide (s.side = "UP"))).length ≥ e.minSignals
  · rw [if_pos hu] at h
    dsimp only at h
    split at h
    · cases h
    · simp only [Option.some.injEq] at h
      subst h
      rfl
  · rw [if_neg hu] at h
    by_cases hd : (signals.filter (fun s => decide (s.side = "DOWN"))).length ≥ e.minSignals
    · rw [if_pos hd] at h
      dsimp only at h
      split at h
      · cases h
      · simp only [Option.some.injEq] at h
        subst h
        rfl
    · rw [if_neg hd] at h
      cases h

/-- C14. On `spikeHistory` with up-probability 0.7, three sub-signals vote UP with
confidences 0.6, 0.8 and 0.7 and volatility votes DOWN with 0.84. `Decide` emits
UP with confidence 0.98, which is (0.6 + 0.8 + 0.84 + 0.7) / 3, while the mean of
the three agreeing confidences is 0.7. In general the confidence emitted is
the sum of the confidences of all voters, of either side, divided by the number
of votes of the winning side; with three UP votes of 0.7, 0.8, 0.6 it is
`(2.1 + c) / 3` when the fourth votes DOWN with confidence `c`, and 0.7 when the
fourth abstains. -/
theorem ensemble_confidence_counts_dissent :
    NewEnsembleStrategy.subSignals (marketWith 0.7 0.3) spikeHistory =
      [{ name := "momentum", side := "UP", conf := 0.6 },
       { name := "trend", side := "UP", conf := 0.8 },
       { name := "volatility", side := "DOWN", conf := 0.84 },
       { name := "market", side := "UP", conf := 0.7 }] ∧
    NewEnsembleStrategy.Decide (marketWith 0.7 0.3) spikeHistory =
      some { Side := "UP", Confidence := 0.98, Amount := 17, Reason := "" } ∧
    ((0.6 : ℚ) + 0.8 + 0.7) / 3 = 0.7 ∧ (0.98 : ℚ) ≠ 0.7 ∧
    (∀ (signals : List SubSignal) (sig : Signal),
      NewEnsembleStrategy.decideFrom signals = some sig →
      sig.Confidence =
        ((signals.filter (fun s => decide (s.side = "UP") || decide (s.side = "DOWN"))).map
            (fun s => s.conf)).sum /
          ((signals.filter (fun s => decide (s.side = sig.Side))).length : ℚ)) ∧
    (∀ c : ℚ, 0 ≤ c →
      (NewEnsembleStrategy.decideFrom
        [{ name := "momentum", side := "UP", conf := 0.7 },
         { name := "trend", side := "UP", conf := 0.8 },
         { name := "volatility", side := "UP", conf := 0.6 },
         { name := "market", side := "DOWN", conf := c }]).map
          (fun s => (s.Side, s.Confidence)) = some ("UP", (2.1 + c) / 3)) ∧
    (NewEnsembleStrategy.decideFrom
        [{ name := "momentum", side := "UP", conf := 0.7 },
         { name := "trend", side := "UP", conf := 0.8 },
         { name := "volatility", side := "UP", conf := 0.6 },
         { name := "market", side := "", conf := 0 }]).map
          (fun s => (s.Side, s.Confidence)) = some ("UP", 0.7) := by
  refine ⟨by decide!, by decide!, by norm_num, by norm_num,
    fun signals sig h => decideFrom_confidence NewEnsembleStrategy signals sig h, ?_,
    by decide!⟩
  intro c hc
  have ht : List.foldl tallyStep { upVotes := 0, downVotes := 0, totalConf := 0 }
      [{ name := "momentum", side := "UP", conf := 0.7 },
       { name := "trend", side := "UP", conf := 0.8 },
       { name := "volatility", side := "UP", conf := 0.6 },
       { name := "market", side := "DOWN", conf := c }]
      = { upVotes := 3, downVotes := 1, totalConf := 0 + 0.7 + 0.8 + 0.6 + c } := rfl
  have hnot : ¬ ((0 + 0.7 + 0.8 + 0.6 + c) / ((3 : Nat) : ℚ)
      < NewEnsembleStrategy.minConfidence) := by
    show ¬ ((0 + 0.7 + 0.8 + 0.6 + c) / ((3 : Nat) : ℚ) < 0.6)
    intro hlt
    rw [div_lt_iff₀ (by norm_num)] at hlt
    norm_num at hlt
    linarith
  unfold EnsembleStrategy.decideFrom
  dsimp only
  rw [ht]
  dsimp only
  rw [if_pos (by decide)]
  dsimp only
  rw [if_neg hnot]
  simp only [Option.map_some', Option.some.injEq, Prod.mk.injEq, true_and]
  norm_num

/-- C15. On `weakHistory` with up-probability 0.56, three sub-signals vote UP with
confidences 0.6, 0.4 and 0.56, whose mean 0.52 is below the minimum confidence
0.6, and volatility votes DOWN with 0.92. `Decide` nevertheless emits an UP
signal, with confidence (0.6 + 0.4 + 0.92 + 0.56) / 3 = 62/75. -/
theorem ensemble_emits_below_min_confidence :
    NewEnsembleStrategy.subSignals (marketWith 0.56 0.3) weakHistory =
      [{ name := "momentum", side := "UP", conf := 0.6 },
       { name := "trend", side := "UP", conf := 0.4 },
       { name := "volatility", side := "DOWN", conf := 0.92 },
       { name := "market", side := "UP", conf := 0.56 }] ∧
    ((0.6 : ℚ) + 0.4 + 0.56) / 3 = 0.52 ∧
    (0.52 : ℚ) < NewEnsembleStrategy.MinConfidence ∧
    NewEnsembleStrategy.Decide (marketWith 0.56 0.3) weakHistory =
      some { Side := "UP", Confidence := 62 / 75, Amount := 79 / 6, Reason := "" } := by
  refine ⟨by decide!, by norm_num, by decide!, by decide!⟩

theorem min_abs_range (x k : ℚ) (hk : 0 ≤ k) :
    0 ≤ min (|x| * k) 1.0 ∧ min (|x| * k) 1.0 ≤ 1 := by
  refine ⟨le_min (mul_nonneg (abs_nonneg x) hk) (by norm_num), ?_⟩
  exact le_trans (min_le_right _ _) (by norm_num)

/-- C17. On `dipHistory` (positive prices, `Low ≤ Current ≤ High`) with
probabilities 0.6 and 0.4, momentum votes DOWN with confidence 1 and the other
three vote UP with 1, 0.975 and 0.6; `Decide` emits UP with confidence
143/120, above 1. The simple follower and each of the four sub-signals do stay
within [0, 1]. -/
theorem ensemble_confidence_exceeds_one :
    (∀ p ∈ dipHistory.Prices, 0 < p) ∧
    dipHistory.Low ≤ dipHistory.Current ∧ dipHistory.Current ≤ dipHistory.High ∧
    NewEnsembleStrategy.subSignals (marketWith 0.6 0.4) dipHistory =
      [{ name := "momentum", side := "DOWN", conf := 1 },
       { name := "trend", side := "UP", conf := 1 },
       { name := "volatility", side := "UP", conf := 0.975 },
       { name := "market", side := "UP", conf := 0.6 }] ∧
    NewEnsembleStrategy.Decide (marketWith 0.6 0.4) dipHistory =
      some { Side := "UP", Confidence := 143 / 120, Amount := 535 / 24, Reason := "" } ∧
    (1 : ℚ) < 143 / 120 ∧
    (∀ (m : MarketInfo) (prices : Option PriceHistory) (sig : Signal),
      NewSimpleStrategy.Decide m prices = some sig →
      0 ≤ sig.Confidence ∧ sig.Confidence ≤ 1) ∧
    (∀ (e : EnsembleStrategy) (ph : PriceHistory),
      (0 ≤ (e.momentumSignal ph).conf ∧ (e.momentumSignal ph).conf ≤ 1) ∧
      (0 ≤ (e.trendSignal ph).conf ∧ (e.trendSignal ph).conf ≤ 1)) ∧
    (∀ (e : EnsembleStrategy) (ph : PriceHistory),
      ph.Low ≤ ph.Current → ph.Current ≤ ph.High →
      0 ≤ (e.volatilitySignal ph).conf ∧ (e.volatilitySignal ph).conf ≤ 1) ∧
    (∀ (e : EnsembleStrategy) (m : MarketInfo),
      0 ≤ m.UpProbability → m.UpProbability ≤ 1 →
      0 ≤ m.DownProbability → m.DownProbability ≤ 1 →
      0 ≤ (e.marketProbSignal m).conf ∧ (e.marketProbSignal m).conf ≤ 1) := by
  refine ⟨by decide!, by decide!, by decide!, by decide!, by decide!, by norm_num,
    ?_, ?_, ?_, ?_⟩
  · intro m prices sig h
    cases prices with
    | none => simp [SimpleStrategy.Decide] at h
    | some ph =>
      rw [SimpleStrategy_Decide_some] at h
      split at h
      · cases h
      · split at h
        · cases h
        · simp only [Option.some.injEq] at h
          subst h
          dsimp only
          constructor
          · refine le_min ?_ (by norm_num)
            have := abs_nonneg ((ph.Current - ph.Open) / ph.Open * 100)
            linarith
          · exact le_trans (min_le_right _ _) (by norm_num)
  · intro e ph
    constructor
    · unfold EnsembleStrategy.momentumSignal
      dsimp only
      split
      · exact ⟨le_refl _, by norm_num⟩
      · exact min_abs_range _ 10 (by norm_num)
    · unfold EnsembleStrategy.trendSignal
      exact min_abs_range _ 5 (by norm_num)
  · intro e ph hlo hhi
    unfold EnsembleStrategy.volatilitySignal
    dsimp only
    by_cases h0 : ph.High - ph.Low = 0
    · rw [if_pos h0]; exact ⟨le_refl _, by norm_num⟩
    · rw [if_neg h0]
      have hr : 0 < ph.High - ph.Low := by
        rcases lt_or_eq_of_le (by linarith : (0 : ℚ) ≤ ph.High - ph.Low) with h | h
        · exact h
        · exact absurd h.symm h0
      have hp0 : 0 ≤ (ph.Current - ph.Low) / (ph.High - ph.Low) :=
        div_nonneg (by linarith) hr.le
      have hp1 : (ph.Current - ph.Low) / (ph.High - ph.Low) ≤ 1 := by
        rw [div_le_one hr]; linarith
      split
      · exact ⟨hp0, hp1⟩
      · split
        · dsimp only; constructor <;> linarith
        · exact ⟨le_refl _, by norm_num⟩
  · intro e m hu0 hu1 hd0 hd1
    unfold EnsembleStrategy.marketProbSignal
    dsimp only
    split
    · exact ⟨hu0, hu1⟩
    · split
      · exact ⟨hd0, hd1⟩
      · exact ⟨le_refl _, by norm_num⟩

/-! ## Window alignment -/

/-- C23. For every instant `t` the first evaluation instant
`truncate(t, 5 min) + 5 min` is a multiple of 5 minutes, lies strictly after `t`
and is the earliest such multiple. The wait is the distance from `t` to that
instant, so the timer started at `t` fires on the boundary; it is positive and
at most 5 minutes, and a full 5 minutes only for a `t` that is itself on a
boundary. Both are functions of `t` alone. -/
theorem window_alignment (t : Int) :
    (5 * Minute) ∣ nextWindow t ∧
    t < nextWindow t ∧
    waitDur t = nextWindow t - t ∧
    t + waitDur t = nextWindow t ∧
    (5 * Minute) ∣ (t + waitDur t) ∧
    0 < waitDur t ∧ waitDur t ≤ 5 * Minute ∧
    (waitDur t = 5 * Minute ↔ (5 * Minute) ∣ t) ∧
    (∀ m : Int, (5 * Minute) ∣ m → t < m → nextWindow t ≤ m) := by
  have hd : (5 : Int) * Minute = 300000000000 := by unfold Minute; norm_num
  unfold waitDur nextWindow Truncate
  rw [hd, if_neg (by norm_num)]
  refine ⟨by omega, by omega, rfl, by omega, by omega, by omega, by omega, by omega, ?_⟩
  intro m hm hlt
  omega

/-! ## Lifecycle -/

/-- C27. `Start`, `Stop`, `Start` leaves the engine running with both stop
channels already closed, since `New` is the only place that makes them; the
next `Stop` closes a closed channel and panics. `Stop` on an engine that is not
running changes nothing, and a `Stop` right after a `Stop` that returned changes
nothing. -/
theorem stop_after_restart_panics :
    runCalls [.start false, .stop, .start false] newLifecycle
      = .ok { running := true, stopChClosed := true, feedStopChClosed := true } ∧
    Lifecycle.Stop { running := true, stopChClosed := true, feedStopChClosed := true }
      = .error "close of closed channel" ∧
    runCalls [.start false, .stop, .start false, .stop] newLifecycle
      = .error "close of closed channel" ∧
    runCalls [.start false, .stop, .stop] newLifecycle
      = runCalls [.start false, .stop] newLifecycle ∧
    (∀ st : Lifecycle, st.running = false → st.Stop = .ok st) ∧
    (∀ st st1 : Lifecycle, st.Stop = .ok st1 → st1.Stop = .ok st1) := by
  refine ⟨by decide, by decide, by decide, by decide, ?_, ?_⟩
  · intro st h
    unfold Lifecycle.Stop
    rw [h]
    rfl
  · intro st st1 h
    rcases st with ⟨r, a, b⟩
    cases r <;> cases a <;> cases b <;> first
      | (cases h; rfl)
      | (exact absurd h (by intro h'; cases h'))

/-! ## The two settlement paths -/

/-- C28, counterexample: settling the sample position (cost 10) as won with
payout 20. Through `onPositionResolved` the budget stays 100; through
`ResolvePosition` it becomes 110. -/
theorem settlement_paths_budget_counterexample :
    (onPositionResolved noResolveFaults sampleDB "1" true 20).strategies
      = [{ sampleStrategy with Locked := 20, PnL := 10, Wins := 1 }] ∧
    (ResolvePosition sampleDB 1 true 20).1.strategies
      = [{ sampleStrategy with Locked := 20, PnL := 10, Wins := 1, Budget := 110 }] ∧
    (onPositionResolved noResolveFaults sampleDB "1" true 20).strategies
      ≠ (ResolvePosition sampleDB 1 true 20).1.strategies := by
  refine ⟨by decide!, by decide!, by decide!⟩

/-- C28 (amended). For a stored position and an outcome that is won with any
payout or lost with payout 0, `onPositionResolved` (no store call failing) and
`ResolvePosition` leave the same positions, and the same strategies except for
the budget: `ResolvePosition` also adds the net profit `payout − cost` to the
budget of the owning strategy, `onPositionResolved` leaves the budget alone. -/
theorem settlement_paths_agree_up_to_budget (db : DB) (posID : String) (won : Bool)
    (payout : ℚ) (p : Position)
    (hp : GetPosition db (Sscanf_d posID) = some p)
    (hlost : won = false → payout = 0) :
    (ResolvePosition db (Sscanf_d posID) won payout).2 = none ∧
    (onPositionResolved noResolveFaults db posID won payout).positions
      = (ResolvePosition db (Sscanf_d posID) won payout).1.positions ∧
    (ResolvePosition db (Sscanf_d posID) won payout).1.strategies
      = (onPositionResolved noResolveFaults db posID won payout).strategies.map
          (fun s => if s.ID = p.StrategyID then
            { s with Budget := s.Budget + (payout - p.Cost) } else s) ∧
    (∀ s ∈ (onPositionResolved noResolveFaults db posID won payout).strategies,
      ∃ r ∈ db.strategies, r.ID = s.ID ∧ s.Budget = r.Budget) := by
  have hres := ResolvePosition_of_row db (Sscanf_d posID) won payout p hp
  have hon := onPositionResolved_ok db posID won payout p hp
  have hprofit : (if !won then -p.Cost else payout - p.Cost) = payout - p.Cost := by
    cases won
    · rw [hlost rfl]; simp
    · simp
  rw [hres, hon]
  refine ⟨rfl, rfl, ?_, ?_⟩
  · show List.map _ db.strategies = List.map _ (List.map _ (List.map _ db.strategies))
    rw [List.map_map, List.map_map]
    apply List.map_congr_left
    intro s _
    rw [hprofit]
    by_cases hid : s.ID = p.StrategyID
    · cases won <;> simp [hid, resolveSet, unlockSet, boolToInt]
    · simp [hid]
  · intro s hs
    have hs' : s ∈ List.map _ (List.map _ db.strategies) := hs
    rw [List.map_map] at hs'
    obtain ⟨r, hr, rfl⟩ := List.mem_map.1 hs'
    refine ⟨r, hr, ?_, ?_⟩
    · by_cases hid : r.ID = p.StrategyID <;> simp [hid, unlockSet]
    · by_cases hid : r.ID = p.StrategyID <;> simp [hid, unlockSet]

/-- C28, witness: the sample position settled as won with payout 20. -/
theorem settlement_paths_agree_up_to_budget_witness :
    GetPosition sampleDB (Sscanf_d "1") = some samplePosition ∧
    (onPositionResolved noResolveFaults sampleDB "1" true 20).positions
      = (ResolvePosition sampleDB (Sscanf_d "1") true 20).1.positions ∧
    (ResolvePosition sampleDB (Sscanf_d "1") true 20).1.strategies
      = (onPositionResolved noResolveFaults sampleDB "1" true 20).strategies.map
          (fun s => if s.ID = samplePosition.StrategyID then
            { s with Budget := s.Budget + (20 - samplePosition.Cost) } else s) :=
  have h := settlement_paths_agree_up_to_budget sampleDB "1" true 20 samplePosition
    (by decide) (by intro h; cases h)
  ⟨by decide, h.2.1, h.2.2.1⟩

/-! ## Feed symbols -/

theorem Char_toUpper_toLower (c : Char) (h : c.toUpper = c) : c.toLower.toUpper = c := by
  by_cases hc : c.toNat ≥ 65 ∧ c.toNat ≤ 90
  · have hofn : c = Char.ofNat c.toNat := (Char.ofNat_toNat c).symm
    obtain ⟨h1, h2⟩ := hc
    generalize c.toNat = n at hofn h1 h2
    subst hofn
    interval_cases n <;> decide
  · have : c.toLower = c := by
      unfold Char.toLower
      simp only [hc, if_false]
    rw [this, h]

theorem map_eq_self_pointwise {α : Type} (f : α → α) (l : List α) (h : l.map f = l) :
    ∀ x ∈ l, f x = x := by
  induction l with
  | nil => intro x hx; cases hx
  | cons a t ih =>
    rw [List.map_cons, List.cons.injEq] at h
    intro x hx
    rcases List.mem_cons.1 hx with rfl | hx
    · exact h.1
    · exact ih h.2 x hx

theorem ToUpper_SymbolToBinance (a : String) (hup : ToUpper a = a) :
    (ToUpper (SymbolToBinance a)).data = a.data ++ "USDT".data := by
  have hpt : ∀ c ∈ a.data, c.toUpper = c := by
    apply map_eq_self_pointwise
    have := congrArg String.data hup
    exact this
  unfold ToUpper SymbolToBinance ToLower
  show List.map Char.toUpper (String.mk (a.data.map Char.toLower) ++ "usdt").data = _
  rw [String.data_append, List.map_append, List.map_map]
  congr 1
  conv_rhs => rw [← List.map_id a.data]
  apply List.map_congr_left
  intro c hc
  exact Char_toUpper_toLower c (hpt c hc)

/-- C30. For every non-empty asset symbol `a` that upper-casing leaves as it
is, `normalizeSymbol` of the upper-cased `SymbolToBinance a` is `a`; so a ticker
carrying that symbol is stored under the key `a`, where `getPrice` and
`getPriceHistory` look it up. -/
theorem symbol_round_trip (a : String) (hne : a ≠ "") (hup : ToUpper a = a) :
    normalizeSymbol (ToUpper (SymbolToBinance a)) = a ∧
    (∀ (ps : PriceState) (price : ℚ) (now : Int),
      getPrice (onTicker ps (ToUpper (SymbolToBinance a)) price now) a = price ∧
      (getPriceHistory (onTicker ps (ToUpper (SymbolToBinance a)) price now) a).isSome) := by
  have hdata := ToUpper_SymbolToBinance a hup
  have hlen : 0 < a.data.length := by
    rcases List.eq_nil_or_concat a.data with h | ⟨l, x, h⟩
    · exfalso; apply hne; exact String.ext h
    · rw [h]; simp
  have hmain : normalizeSymbol (ToUpper (SymbolToBinance a)) = a := by
    generalize ToUpper (SymbolToBinance a) = s at hdata
    have hs : s = String.mk (a.data ++ "USDT".data) := String.ext hdata
    have hcancel : ∀ t : String, s = t ++ "USDT" → a = t := by
      intro t ht
      have h1 := congrArg String.data ht
      rw [hdata, String.data_append] at h1
      exact String.ext (List.append_cancel_right h1)
    unfold normalizeSymbol
    by_cases h1 : s = "BTCUSDT"
    · rw [if_pos h1]; exact (hcancel "BTC" h1).symm
    rw [if_neg h1]
    by_cases h2 : s = "ETHUSDT"
    · rw [if_pos h2]; exact (hcancel "ETH" h2).symm
    rw [if_neg h2]
    by_cases h3 : s = "SOLUSDT"
    · rw [if_pos h3]; exact (hcancel "SOL" h3).symm
    rw [if_neg h3]
    by_cases h4 : s = "BNBUSDT"
    · rw [if_pos h4]; exact (hcancel "BNB" h4).symm
    rw [if_neg h4]
    by_cases h5 : s = "XRPUSDT"
    · rw [if_pos h5]; exact (hcancel "XRP" h5).symm
    rw [if_neg h5]
    have hl : s.data.length = a.data.length + 4 := by
      rw [hdata, List.length_append]; rfl
    have hsub : s.data.length - 4 = a.data.length := by omega
    rw [if_pos]
    · rw [hsub, hdata, List.take_left']
      rfl
    · refine ⟨by omega, ?_⟩
      rw [hsub, hdata, List.drop_left']
      rfl
  refine ⟨hmain, ?_⟩
  intro ps price now
  unfold onTicker
  rw [hmain]
  unfold updatePrice getPrice getPriceHistory
  dsimp only
  rw [Function.update_same, Function.update_same]
  refine ⟨rfl, ?_⟩
  have hlen : (if (ps.priceHist a ++ [(⟨price, now⟩ : PricePoint)]).length > 120
      then (ps.priceHist a ++ [(⟨price, now⟩ : PricePoint)]).drop 1
      else ps.priceHist a ++ [(⟨price, now⟩ : PricePoint)]).length ≠ 0 := by
    split
    · rw [List.length_drop]; omega
    · rw [List.length_append]; simp
  rw [if_neg hlen]
  rfl

/-- C30, witness: BTC becomes btcusdt for the subscription, arrives as BTCUSDT
and is stored under BTC; likewise DOGE. -/
theorem symbol_round_trip_witness :
    ("BTC" : String) ≠ "" ∧ ToUpper "BTC" = "BTC" ∧
    SymbolToBinance "BTC" = "btcusdt" ∧ ToUpper (SymbolToBinance "BTC") = "BTCUSDT" ∧
    normalizeSymbol "BTCUSDT" = "BTC" ∧
    normalizeSymbol (ToUpper (SymbolToBinance "BTC")) = "BTC" ∧
    normalizeSymbol (ToUpper (SymbolToBinance "DOGE")) = "DOGE" :=
  ⟨by decide, by decide, by decide, by decide, by decide,
    (symbol_round_trip "BTC" (by decide) (by decide)).1,
    (symbol_round_trip "DOGE" (by decide) (by decide)).1⟩

/-! ## Placing a bet -/

theorem LockFunds_ok_eq (db : DB) (id : String) (amount : ℚ)
    (hok : (LockFunds db id amount).2 = none) :
    LockFunds db id amount =
      ({ db with
          strategies := db.strategies.map
            (fun s => if lockWhere id amount s then lockSet amount s else s) }, none) :=
  Prod.ext (LockFunds_fst db id amount) hok

theorem GetStrategy_lock_row (db : DB) (id : String) (amount : ℚ) (s : Strategy)
    (hs : GetStrategy db id = some s) (hfunds : s.Budget - s.Locked ≥ amount) :
    (db.strategies.map (fun s => if lockWhere id amount s then lockSet amount s else s)).find?
        (fun s => decide (s.ID = id))
      = some { s with Locked := s.Locked + amount } := by
  obtain ⟨-, hid⟩ := find?_key_mem (fun s : Strategy => s.ID) id db.strategies s hs
  have h := GetStrategy_LockFunds db id id amount
  rw [LockFunds_fst, hs] at h
  have hid' : s.ID = id := hid
  have hw : lockWhere id amount s = true := by
    simp [lockWhere, hid', hfunds]
  rw [Option.map_some', hw] at h
  exact h

/-- C25. With a live client and a matched market, reservation and position
creation succeeding, and `PlaceOrder` answering with an error: `placeBet` returns
no error, the tracked set is the one before the call, the position table has
gained exactly one row, with status PENDING and the bet amount as cost, and the
strategy's `locked` is the old value plus the amount. -/
theorem placeBet_order_error (env : PlaceEnv) (e : Engine) (stratID : String)
    (m : BTCMinuteMarket) (signal : Signal) (amount : ℚ) (s : Strategy)
    (hpk : PrimaryKey e.db)
    (hclient : e.polyClient = true)
    (hlock : env.lockFails = false) (hcreate : env.createFails = false)
    (hs : GetStrategy e.db stratID = some s) (hfunds : s.Budget - s.Locked ≥ amount)
    (horder : ∀ o, ∃ err, env.PlaceOrder o = .error err) :
    (placeBet env e stratID (some m) signal amount).2 = none ∧
    (placeBet env e stratID (some m) signal amount).1.tracker = e.tracker ∧
    (placeBet env e stratID (some m) signal amount).1.db.positions =
      e.db.positions ++
        [{ ID := e.db.lastPosID + 1, StrategyID := stratID, MarketID := m.ConditionID,
           TokenID := "", Side := signal.Side, Status := StatusPending, Cost := amount,
           Shares := 0, Payout := 0, OrderID := "" }] ∧
    GetStrategy (placeBet env e stratID (some m) signal amount).1.db stratID =
      some { s with Locked := s.Locked + amount } := by
  have hok : (LockFunds e.db stratID amount).2 = none :=
    (LockFunds_ok_iff e.db hpk stratID amount).2 ⟨s, hs, hfunds⟩
  have hrow := GetStrategy_lock_row e.db stratID amount s hs hfunds
  obtain ⟨err, herr⟩ := horder
    { TokenID := if signal.Side = "DOWN" then m.DownTokenID else m.UpTokenID
      Price := if signal.Side = "DOWN" then m.DownPrice else m.UpPrice
      Size := CalculateShares amount (if signal.Side = "DOWN" then m.DownPrice else m.UpPrice)
      Side := "BUY", OrderType := "FOK" }
  have hrun : placeBet env e stratID (some m) signal amount =
      ({ e with db := (CreatePosition
          { e.db with
            strategies := e.db.strategies.map
              (fun s => if lockWhere stratID amount s then lockSet amount s else s) }
          { ID := 0, StrategyID := stratID, MarketID := m.ConditionID, TokenID := "",
            Side := signal.Side, Status := StatusPending, Cost := amount, Shares := 0,
            Payout := 0, OrderID := "" }).1 }, none) := by
    unfold placeBet
    rw [hlock, if_neg (by decide), LockFunds_ok_eq e.db stratID amount hok]
    dsimp only
    rw [hcreate, if_neg (by decide), hclient]
    dsimp only
    rw [herr]
  rw [hrun]
  exact ⟨rfl, rfl, rfl, hrow⟩

/-- C25, witness: the sample engine with a live client, the bullish market and
a client that rejects every order. -/
theorem placeBet_order_error_witness :
    (placeBet orderErrorEnv liveEngine "simple" (some bullishMarket) upSignal 10).2 = none ∧
    (placeBet orderErrorEnv liveEngine "simple" (some bullishMarket) upSignal 10).1.tracker
      = some [] ∧
    ((placeBet orderErrorEnv liveEngine "simple" (some bullishMarket) upSignal 10).1.db.positions.map
      (fun p => (p.ID, p.Status, p.Cost))) = [(1, "FILLED", 10), (2, "PENDING", 10)] ∧
    GetStrategy (placeBet orderErrorEnv liveEngine "simple" (some bullishMarket) upSignal 10).1.db
      "simple" = some { sampleStrategy with Locked := sampleStrategy.Locked + 10 } :=
  have h := placeBet_order_error orderErrorEnv liveEngine "simple" bullishMarket upSignal 10
    sampleStrategy (by decide) rfl rfl rfl (by decide) (by decide!)
    (fun _ => ⟨"order rejected", rfl⟩)
  ⟨h.1, h.2.1, by rw [h.2.2.1]; decide!, h.2.2.2⟩

theorem placeBet_dry_run_eq (env : PlaceEnv) (e : Engine) (stratID : String)
    (polyMarket : Option BTCMinuteMarket) (signal : Signal) (amount : ℚ)
    (hlock : env.lockFails = false) (hcreate : env.createFails = false)
    (hok : (LockFunds e.db stratID amount).2 = none) :
    (e.polyClient = false ∨ polyMarket = none) →
    placeBet env e stratID polyMarket signal amount =
      ({ e with db :=
          if env.updateStatusFails then
            (CreatePosition
              { e.db with
                strategies := e.db.strategies.map
                  (fun s => if lockWhere stratID amount s then lockSet amount s else s) }
              { ID := 0, StrategyID := stratID,
                MarketID := (match polyMarket with
                  | some m => m.ConditionID
                  | none => ""),
                TokenID := "",
                Side := signal.Side, Status := StatusPending, Cost := amount, Shares := 0,
                Payout := 0, OrderID := "" }).1
          else
            execUpdateStatus (CreatePosition
              { e.db with
                strategies := e.db.strategies.map
                  (fun s => if lockWhere stratID amount s then lockSet amount s else s) }
              { ID := 0, StrategyID := stratID,
                MarketID := (match polyMarket with
                  | some m => m.ConditionID
                  | none => ""),
                TokenID := "",
                Side := signal.Side, Status := StatusPending, Cost := amount, Shares := 0,
                Payout := 0, OrderID := "" }).1 (e.db.lastPosID + 1) StatusFilled 0 }, none) := by
  intro hmode
  unfold placeBet
  dsimp only
  rw [hlock, if_neg (by decide), LockFunds_ok_eq e.db stratID amount hok]
  dsimp only
  rw [hcreate, if_neg (by decide)]
  rcases e with ⟨db, client, tracker⟩
  rcases hmode with h | h
  · have h' : client = false := h
    subst h'
    cases polyMarket <;> rfl
  · subst h
    cases client <;> rfl

theorem placeBet_dry_run (env : PlaceEnv) (e : Engine) (stratID : String)
    (polyMarket : Option BTCMinuteMarket) (signal : Signal) (amount : ℚ) (s : Strategy)
    (hpk : PrimaryKey e.db)
    (hseq : ∀ p ∈ e.db.positions, p.ID ≤ e.db.lastPosID)
    (hlock : env.lockFails = false) (hcreate : env.createFails = false)
    (hs : GetStrategy e.db stratID = some s) (hfunds : s.Budget - s.Locked ≥ amount) :
    (e.polyClient = false ∨ polyMarket = none) →
    (∀ answer : OrderRequest → Except String OrderResponse,
      placeBet { env with PlaceOrder := answer } e stratID polyMarket signal amount
        = placeBet env e stratID polyMarket signal amount) ∧
    (placeBet env e stratID polyMarket signal amount).2 = none ∧
    (placeBet env e stratID polyMarket signal amount).1.tracker = e.tracker ∧
    (placeBet env e stratID polyMarket signal amount).1.db.positions =
      e.db.positions ++
        [{ ID := e.db.lastPosID + 1, StrategyID := stratID,
           MarketID := (match polyMarket with
             | some m => m.ConditionID
             | none => ""),
           TokenID := "", Side := signal.Side,
           Status := if env.updateStatusFails then StatusPending else StatusFilled,
           Cost := amount, Shares := 0, Payout := 0, OrderID := "" }] ∧
    GetStrategy (placeBet env e stratID polyMarket signal amount).1.db stratID =
      some { s with Locked := s.Locked + amount } := by
  have hok : (LockFunds e.db stratID amount).2 = none :=
    (LockFunds_ok_iff e.db hpk stratID amount).2 ⟨s, hs, hfunds⟩
  have hrow := GetStrategy_lock_row e.db stratID amount s hs hfunds
  intro hmode
  have hrun := placeBet_dry_run_eq env e stratID polyMarket signal amount hlock hcreate hok hmode
  refine ⟨fun answer => ?_, ?_⟩
  · rw [hrun]
    exact placeBet_dry_run_eq { env with PlaceOrder := answer } e stratID polyMarket signal
      amount hlock hcreate hok hmode
  rw [hrun]
  by_cases hu : env.updateStatusFails = true
  · rw [hu]
    exact ⟨rfl, rfl, rfl, hrow⟩
  · have hu' : env.updateStatusFails = false := by simpa using hu
    rw [hu']
    refine ⟨rfl, rfl, ?_, hrow⟩
    show List.map _ (e.db.positions ++ [_]) = _
    rw [List.map_append]
    congr 1
    · conv_rhs => rw [← List.map_id e.db.positions]
      apply List.map_congr_left
      intro p hp
      have := hseq p hp
      have hne : ¬ p.ID = e.db.lastPosID + 1 := by omega
      rw [if_neg hne]; rfl
    · simp [StatusFilled]

/-- C26. On the sample engine without client and market, with reservation and
position creation succeeding and the status update coming back with an error,
`placeBet` returns no error and leaves the new position PENDING with the amount
locked: the error of `UpdatePositionStatus` is dropped. For every engine in
simulated mode with reservation and creation succeeding, the outcome does not
depend on what `PlaceOrder` would answer, no error is returned, the tracked set
is unchanged, one row is added and `locked` grows by the amount; the row is
FILLED with payout 0 exactly when the status update goes through. -/
theorem placeBet_simulated_update_error_dropped :
    updateErrorEnv.lockFails = false ∧ updateErrorEnv.createFails = false ∧
    dryEngine.polyClient = false ∧
    (placeBet updateErrorEnv dryEngine "simple" none upSignal 10).2 = none ∧
    ((placeBet updateErrorEnv dryEngine "simple" none upSignal 10).1.db.positions.map
      (fun p => (p.ID, p.Status, p.Cost, p.Payout)))
        = [(1, "FILLED", 10, 0), (2, "PENDING", 10, 0)] ∧
    GetStrategy (placeBet updateErrorEnv dryEngine "simple" none upSignal 10).1.db "simple"
      = some { sampleStrategy with Locked := 40 } ∧
    ((placeBet fillEnv dryEngine "simple" none upSignal 10).1.db.positions.map
      (fun p => (p.ID, p.Status, p.Cost, p.Payout)))
        = [(1, "FILLED", 10, 0), (2, "FILLED", 10, 0)] ∧
    (∀ (env : PlaceEnv) (e : Engine) (stratID : String) (polyMarket : Option BTCMinuteMarket)
        (signal : Signal) (amount : ℚ) (s : Strategy),
      PrimaryKey e.db → (∀ p ∈ e.db.positions, p.ID ≤ e.db.lastPosID) →
      (e.polyClient = false ∨ polyMarket = none) →
      env.lockFails = false → env.createFails = false →
      GetStrategy e.db stratID = some s → s.Budget - s.Locked ≥ amount →
      (∀ answer : OrderRequest → Except String OrderResponse,
        placeBet { env with PlaceOrder := answer } e stratID polyMarket signal amount
          = placeBet env e stratID polyMarket signal amount) ∧
      (placeBet env e stratID polyMarket signal amount).2 = none ∧
      (placeBet env e stratID polyMarket signal amount).1.tracker = e.tracker ∧
      (placeBet env e stratID polyMarket signal amount).1.db.positions =
        e.db.positions ++
          [{ ID := e.db.lastPosID + 1, StrategyID := stratID,
             MarketID := (match polyMarket with
               | some m => m.ConditionID
               | none => ""),
             TokenID := "", Side := signal.Side,
             Status := if env.updateStatusFails then StatusPending else StatusFilled,
             Cost := amount, Shares := 0, Payout := 0, OrderID := "" }] ∧
      GetStrategy (placeBet env e stratID polyMarket signal amount).1.db stratID =
        some { s with Locked := s.Locked + amount }) := by
  refine ⟨rfl, rfl, rfl, by decide!, by decide!, by decide!, by decide!, ?_⟩
  intro env e stratID polyMarket signal amount s hpk hseq hmode hlock hcreate hs hfunds
  exact placeBet_dry_run env e stratID polyMarket signal amount s hpk hseq hlock hcreate
    hs hfunds hmode

theorem unlock_lock_row (id : String) (amount : ℚ) (l : List Strategy)
    (hlocked : ∀ s ∈ l, s.ID = id → 0 ≤ s.Locked)
    (hall : ∀ s ∈ l, s.ID = id → lockWhere id amount s = true) :
    (l.map (fun s => if lockWhere id amount s then lockSet amount s else s)).map
        (fun s => if s.ID = id then unlockSet amount s else s) = l := by
  rw [List.map_map]
  conv_rhs => rw [← List.map_id l]
  apply List.map_congr_left
  intro s hs
  by_cases hid : s.ID = id
  · have hw := hall s hs hid
    have h0 := hlocked s hs hid
    show (if (if lockWhere id amount s = true then lockSet amount s else s).ID = id
      then unlockSet amount (if lockWhere id amount s = true then lockSet amount s else s)
      else (if lockWhere id amount s = true then lockSet amount s else s)) = s
    rw [if_pos hw]
    have hid2 : (lockSet amount s).ID = id := hid
    rw [if_pos hid2]
    unfold unlockSet lockSet
    dsimp only
    have : max 0 (s.Locked + amount - amount) = s.Locked := by
      rw [add_sub_cancel_right]; exact max_eq_right h0
    rw [this]
  · have hw : lockWhere id amount s = false := by
      simp [lockWhere, hid]
    show (if (if lockWhere id amount s = true then lockSet amount s else s).ID = id
      then unlockSet amount (if lockWhere id amount s = true then lockSet amount s else s)
      else (if lockWhere id amount s = true then lockSet amount s else s)) = s
    rw [hw]
    simp only [Bool.false_eq_true, if_false]
    rw [if_neg hid]

theorem placeBet_restores (env : PlaceEnv) (e : Engine) (stratID : String)
    (polyMarket : Option BTCMinuteMarket) (signal : Signal) (amount : ℚ)
    (hpk : PrimaryKey e.db)
    (hlocked : ∀ s ∈ e.db.strategies, 0 ≤ s.Locked) :
    ((env.lockFails = true ∨ (LockFunds e.db stratID amount).2 ≠ none) →
      (∃ err, (placeBet env e stratID polyMarket signal amount).2 = some err) ∧
      (placeBet env e stratID polyMarket signal amount).1 = e) ∧
    (env.lockFails = false → (LockFunds e.db stratID amount).2 = none →
      env.createFails = true → env.unlockFails = false →
      (∃ err, (placeBet env e stratID polyMarket signal amount).2 = some err) ∧
      (placeBet env e stratID polyMarket signal amount).1 = e) := by
  constructor
  · intro h
    by_cases hl : env.lockFails = true
    · unfold placeBet
      rw [hl, if_pos rfl]
      exact ⟨⟨_, rfl⟩, rfl⟩
    · have hl' : env.lockFails = false := by simpa using hl
      have hfail : (LockFunds e.db stratID amount).2 ≠ none := by
        rcases h with h | h
        · exact absurd h hl
        · exact h
      have hdb := LockFunds_fail_unchanged e.db stratID amount hfail
      obtain ⟨err, herr⟩ : ∃ err, (LockFunds e.db stratID amount).2 = some err := by
        cases hh : (LockFunds e.db stratID amount).2 with
        | none => exact absurd hh hfail
        | some err => exact ⟨err, rfl⟩
      have hL : LockFunds e.db stratID amount = (e.db, some err) := Prod.ext hdb herr
      unfold placeBet
      rw [hl', if_neg (by decide), hL]
      exact ⟨⟨_, rfl⟩, rfl⟩
  · intro hl hok hc hu
    obtain ⟨s, hs, hfunds⟩ := (LockFunds_ok_iff e.db hpk stratID amount).1 hok
    have hall : ∀ r ∈ e.db.strategies, r.ID = stratID → lockWhere stratID amount r = true := by
      intro r hr hid
      have := find?_key_unique (fun s : Strategy => s.ID) stratID e.db.strategies hpk s hs r hr hid
      subst this
      simp [lockWhere, hid, hfunds]
    have hback := unlock_lock_row stratID amount e.db.strategies
      (fun r hr _ => hlocked r hr) hall
    unfold placeBet
    rw [hl, if_neg (by decide), LockFunds_ok_eq e.db stratID amount hok]
    dsimp only
    rw [hc, if_pos rfl, hu, if_neg (by decide)]
    refine ⟨⟨_, rfl⟩, ?_⟩
    unfold UnlockFunds
    dsimp only
    rw [hback]

theorem placeBet_unlock_error (env : PlaceEnv) (e : Engine) (stratID : String)
    (polyMarket : Option BTCMinuteMarket) (signal : Signal) (amount : ℚ) (s : Strategy)
    (hlock : env.lockFails = false) (hcreate : env.createFails = true)
    (hunlock : env.unlockFails = true)
    (hpk : PrimaryKey e.db)
    (hs : GetStrategy e.db stratID = some s) (hfunds : s.Budget - s.Locked ≥ amount) :
    (placeBet env e stratID polyMarket signal amount).2 = some "create position: driver error" ∧
    (placeBet env e stratID polyMarket signal amount).1.db.positions = e.db.positions ∧
    GetStrategy (placeBet env e stratID polyMarket signal amount).1.db stratID =
      some { s with Locked := s.Locked + amount } := by
  have hok : (LockFunds e.db stratID amount).2 = none :=
    (LockFunds_ok_iff e.db hpk stratID amount).2 ⟨s, hs, hfunds⟩
  have hrow := GetStrategy_lock_row e.db stratID amount s hs hfunds
  have hrun : placeBet env e stratID polyMarket signal amount =
      ({ e with db :=
          { e.db with
            strategies := e.db.strategies.map
              (fun s => if lockWhere stratID amount s then lockSet amount s else s) } },
        some "create position: driver error") := by
    unfold placeBet
    rw [hlock, if_neg (by decide), LockFunds_ok_eq e.db stratID amount hok]
    dsimp only
    rw [hcreate, if_pos rfl, hunlock, if_pos rfl]
  rw [hrun]
  exact ⟨rfl, rfl, hrow⟩

/-- C29. On the sample engine (locked 30), a bet of 10 whose reservation
succeeds, whose position insert fails and whose compensating `UnlockFunds` fails
as well returns the insert error only, adds no position and leaves `locked` at
40: the error of `UnlockFunds` is dropped, and the amount stays reserved without
a position record. In general this is what happens whenever both calls fail. If
the reservation fails, the engine is unchanged; if the insert fails and the
release goes through, the store is the one before the call. -/
theorem placeBet_unlock_error_dropped :
    (LockFunds liveEngine.db "simple" 10).2 = none ∧
    createUnlockErrorEnv.createFails = true ∧ createUnlockErrorEnv.unlockFails = true ∧
    GetStrategy liveEngine.db "simple" = some sampleStrategy ∧ sampleStrategy.Locked = 30 ∧
    (placeBet createUnlockErrorEnv liveEngine "simple" (some bullishMarket) upSignal 10).2
      = some "create position: driver error" ∧
    (placeBet createUnlockErrorEnv liveEngine "simple" (some bullishMarket) upSignal 10).1.db.positions
      = liveEngine.db.positions ∧
    GetStrategy
        (placeBet createUnlockErrorEnv liveEngine "simple" (some bullishMarket) upSignal 10).1.db
        "simple"
      = some { sampleStrategy with Locked := 40 } ∧
    (placeBet createErrorEnv liveEngine "simple" (some bullishMarket) upSignal 10).1
      = liveEngine ∧
    (∀ (env : PlaceEnv) (e : Engine) (stratID : String) (polyMarket : Option BTCMinuteMarket)
        (signal : Signal) (amount : ℚ) (s : Strategy),
      env.lockFails = false → env.createFails = true → env.unlockFails = true →
      PrimaryKey e.db → GetStrategy e.db stratID = some s → s.Budget - s.Locked ≥ amount →
      (placeBet env e stratID polyMarket signal amount).2
        = some "create position: driver error" ∧
      (placeBet env e stratID polyMarket signal amount).1.db.positions = e.db.positions ∧
      GetStrategy (placeBet env e stratID polyMarket signal amount).1.db stratID =
        some { s with Locked := s.Locked + amount }) ∧
    (∀ (env : PlaceEnv) (e : Engine) (stratID : String) (polyMarket : Option BTCMinuteMarket)
        (signal : Signal) (amount : ℚ),
      PrimaryKey e.db → (∀ s ∈ e.db.strategies, 0 ≤ s.Locked) →
      ((env.lockFails = true ∨ (LockFunds e.db stratID amount).2 ≠ none) →
        (∃ err, (placeBet env e stratID polyMarket signal amount).2 = some err) ∧
        (placeBet env e stratID polyMarket signal amount).1 = e) ∧
      (env.lockFails = false → (LockFunds e.db stratID amount).2 = none →
        env.createFails = true → env.unlockFails = false →
        (∃ err, (placeBet env e stratID polyMarket signal amount).2 = some err) ∧
        (placeBet env e stratID polyMarket signal amount).1 = e)) := by
  refine ⟨by decide!, rfl, rfl, by decide, by decide!, by decide!, by decide!, by decide!,
    by decide!, ?_, ?_⟩
  · intro env e stratID polyMarket signal amount s hlock hcreate hunlock hpk hs hfunds
    exact placeBet_unlock_error env e stratID polyMarket signal amount s hlock hcreate hunlock
      hpk hs hfunds
  · intro env e stratID polyMarket signal amount hpk hlocked
    exact placeBet_restores env e stratID polyMarket signal amount hpk hlocked

/-! ## One pass of the scheduler -/

theorem foldl_trace {α β κ σ : Type} (f : σ × List β → α → σ × List β) (key : β → κ)
    (g : α → List κ) (P : α → β → Prop)
    (step : ∀ acc a, ∃ news, (f acc a).2 = acc.2 ++ news ∧ news.map key = g a ∧
      ∀ ev ∈ news, P a ev)
    (l : List α) (acc : σ × List β) :
    ∃ news, (l.foldl f acc).2 = acc.2 ++ news ∧ news.map key = l.flatMap g ∧
      ∀ ev ∈ news, ∃ a ∈ l, P a ev := by
  induction l generalizing acc with
  | nil => exact ⟨[], by simp, by simp, by simp⟩
  | cons a t ih =>
    obtain ⟨n1, h1, k1, p1⟩ := step acc a
    obtain ⟨n2, h2, k2, p2⟩ := ih (f acc a)
    refine ⟨n1 ++ n2, ?_, ?_, ?_⟩
    · rw [List.foldl_cons, h2, h1, List.append_assoc]
    · rw [List.map_append, k1, k2, List.flatMap_cons]
    · intro ev hev
      rcases List.mem_append.1 hev with h | h
      · exact ⟨a, List.mem_cons_self _ _, p1 ev h⟩
      · obtain ⟨b, hb, hP⟩ := p2 ev h
        exact ⟨b, List.mem_cons_of_mem _ hb, hP⟩

theorem flatMap_if_filter {α κ : Type} (p : α → Bool) (g : α → List κ) (l : List α) :
    l.flatMap (fun a => if p a then g a else []) = (l.filter p).flatMap g := by
  induction l with
  | nil => rfl
  | cons a t ih =>
    rw [List.flatMap_cons, ih, List.filter_cons]
    by_cases h : p a = true
    · rw [if_pos h, if_pos h, List.flatMap_cons]
    · rw [if_neg h, if_neg h, List.nil_append]

theorem flatMap_singleton_map {α κ : Type} (g : α → κ) (l : List α) :
    l.flatMap (fun a => [g a]) = l.map g := by
  induction l with
  | nil => rfl
  | cons a t ih => rw [List.flatMap_cons, ih]; rfl

theorem capped_eq_min (a b : ℚ) : (if a > b then b else a) = min a b := by
  by_cases h : a > b
  · rw [if_pos h, min_eq_right (le_of_lt h)]
  · rw [if_neg h, min_eq_left (not_lt.1 h)]

theorem decideFrom_amount (e : EnsembleStrategy) (signals : List SubSignal) (sig : Signal)
    (h : e.decideFrom signals = some sig) :
    sig.Amount = e.calculateBetSize sig.Confidence ∧ ¬ sig.Confidence < e.minConfidence := by
  unfold EnsembleStrategy.decideFrom at h
  dsimp only at h
  split at h
  · cases h
  · split at h
    · cases h
    · rename_i hconf
      cases h
      exact ⟨rfl, hconf⟩

theorem builtin_amount (id : String) (impl : StrategyImpl) (market : MarketInfo)
    (prices : PriceHistory) (sig : Signal)
    (hget : RegistryGet DefaultRegistry id = some impl)
    (hsig : impl.Decide market prices = some sig) : 5 ≤ sig.Amount := by
  have hmem : impl ∈ DefaultRegistry := List.mem_of_find?_eq_some hget
  unfold DefaultRegistry at hmem
  rcases List.mem_cons.1 hmem with rfl | hmem
  · have hd : NewEnsembleStrategy.Decide market prices = some sig := hsig
    unfold EnsembleStrategy.Decide at hd
    split at hd
    · cases hd
    · obtain ⟨ha, hc⟩ := decideFrom_amount _ _ _ hd
      rw [ha]
      unfold EnsembleStrategy.calculateBetSize
      have hc' : (0.6 : ℚ) ≤ sig.Confidence := not_lt.1 hc
      norm_num at hc' ⊢
      linarith
  · rcases List.mem_cons.1 hmem with rfl | hmem
    · have hd : NewSimpleStrategy.Decide market (some prices) = some sig := hsig
      rw [SimpleStrategy_Decide_some] at hd
      split at hd
      · cases hd
      · split at hd
        · cases hd
        · cases hd
          norm_num
    · cases hmem

theorem evalStrategy_step (env : WindowEnv) (asset : String) (marketInfo : MarketInfo)
    (market : Option BTCMinuteMarket) (priceHist : PriceHistory)
    (acc : Engine × List Evaluation) (s : Strategy) :
    ∃ news, (evalStrategy env asset marketInfo market priceHist acc s).2 = acc.2 ++ news ∧
      news.map (fun ev => (ev.asset, ev.strat)) = (if eligible s then [(asset, s)] else []) ∧
      ∀ ev ∈ news, ev.strat = s ∧ ev.asset = asset ∧ ev.marketInfo = marketInfo ∧
        s.Enabled = true ∧ 5 ≤ s.Available ∧
        (ev.signal = none → ev.betAmount = none) ∧
        (∀ sig, ev.signal = some sig →
          5 ≤ sig.Amount ∧ ev.betAmount = some (min sig.Amount s.Available)) ∧
        (∃ impl, RegistryGet DefaultRegistry s.ID = some impl ∧
          ev.signal = impl.Decide marketInfo priceHist) := by
  unfold evalStrategy eligible
  by_cases hen : s.Enabled = true
  · rw [hen]
    cases hget : RegistryGet DefaultRegistry s.ID with
    | none => exact ⟨[], by simp, by simp, by simp⟩
    | some impl =>
      by_cases hav : s.Available < 5
      · refine ⟨[], ?_, ?_, by simp⟩
        · simp [hav]
        · simp [hav]
      · have h5 : 5 ≤ s.Available := not_lt.1 hav
        cases hsig : impl.Decide marketInfo priceHist with
        | none =>
          refine ⟨[{ asset := asset, strat := s, marketInfo := marketInfo, signal := none,
                     betAmount := none, err := none }], ?_, ?_, ?_⟩
          · simp [hav, hsig]
          · simp [hav]
          · intro ev hev
            rw [List.mem_singleton] at hev
            subst hev
            exact ⟨rfl, rfl, rfl, rfl, h5, fun _ => rfl, (fun sig h => by cases h),
              impl, rfl, hsig.symm⟩
        | some signal =>
          refine ⟨[{ asset := asset, strat := s, marketInfo := marketInfo,
                     signal := some signal,
                     betAmount := some (if signal.Amount > s.Available then s.Available
                       else signal.Amount),
                     err := (placeBet (env.place asset s.ID) acc.1 s.ID market signal
                       (if signal.Amount > s.Available then s.Available
                         else signal.Amount)).2 }], ?_, ?_, ?_⟩
          · simp [hav, hsig]
          · simp [hav]
          · intro ev hev
            rw [List.mem_singleton] at hev
            subst hev
            refine ⟨rfl, rfl, rfl, rfl, h5, (fun h => by cases h), ?_, impl, rfl, hsig.symm⟩
            intro sig h
            cases h
            exact ⟨builtin_amount s.ID impl marketInfo priceHist _ hget hsig,
              by rw [capped_eq_min]⟩
  · have hen' : s.Enabled = false := by simpa using hen
    rw [hen']
    exact ⟨[], by simp, by simp, by simp⟩

theorem windowAsset_step (env : WindowEnv) (ps : PriceState) (strategies : List Strategy)
    (acc : Engine × List Evaluation) (asset : String) :
    ∃ news, (windowAsset env ps strategies acc asset).2 = acc.2 ++ news ∧
      news.map (fun ev => (ev.asset, ev.strat)) =
        (if priced ps asset then (strategies.filter eligible).map (fun s => (asset, s))
          else []) ∧
      ∀ ev ∈ news, ev.strat ∈ strategies ∧ ev.asset = asset ∧
        (∃ market, ev.marketInfo = buildMarketInfo asset env.now (getPrice ps asset) market) ∧
        ev.strat.Enabled = true ∧ 5 ≤ ev.strat.Available ∧
        (ev.signal = none → ev.betAmount = none) ∧
        (∀ sig, ev.signal = some sig →
          5 ≤ sig.Amount ∧ ev.betAmount = some (min sig.Amount ev.strat.Available)) ∧
        (∃ impl priceHist, RegistryGet DefaultRegistry ev.strat.ID = some impl ∧
          getPriceHistory ps asset = some priceHist ∧
          ev.signal = impl.Decide ev.marketInfo priceHist) := by
  unfold windowAsset priced
  dsimp only
  by_cases hp : getPrice ps asset = 0
  · rw [if_pos hp]
    exact ⟨[], by simp, by simp [hp], by simp⟩
  · rw [if_neg hp]
    cases hh : getPriceHistory ps asset with
    | none => exact ⟨[], by simp, by simp, by simp⟩
    | some priceHist =>
      dsimp only
      obtain ⟨news, h1, h2, h3⟩ := foldl_trace
        (evalStrategy env asset
          (buildMarketInfo asset env.now (getPrice ps asset)
            (if acc.1.polyClient = true then
              match env.GetMarketForWindow asset with
              | .ok m => some m
              | .error _ => none
            else none))
          (if acc.1.polyClient = true then
              match env.GetMarketForWindow asset with
              | .ok m => some m
              | .error _ => none
            else none) priceHist)
        (fun ev => (ev.asset, ev.strat))
        (fun s => if eligible s then [(asset, s)] else [])
        _ (evalStrategy_step env asset _ _ priceHist) strategies acc
      refine ⟨news, h1, ?_, ?_⟩
      · rw [h2, flatMap_if_filter eligible (fun s => [(asset, s)]), flatMap_singleton_map]
        simp [hp]
      · intro ev hev
        obtain ⟨s, hs, e1, e2, e3, e4, e5, e6, e7, impl, e8, e9⟩ := h3 ev hev
        subst e1
        exact ⟨hs, e2, ⟨_, e3⟩, e4, e5, e6, e7, impl, priceHist, e8, rfl, e3 ▸ e9⟩

theorem onMarketWindow_trace (env : WindowEnv) (assets : List String) (ps : PriceState)
    (e : Engine) (hlist : env.listFails = false) :
    (onMarketWindow env assets ps e).2.map (fun ev => (ev.asset, ev.strat)) =
      (assets.filter (priced ps)).flatMap
        (fun a => ((ListStrategies e.db).filter eligible).map (fun s => (a, s))) ∧
    ∀ ev ∈ (onMarketWindow env assets ps e).2,
      ev.strat ∈ ListStrategies e.db ∧ ev.asset ∈ assets ∧
      (∃ market, ev.marketInfo = buildMarketInfo ev.asset env.now (getPrice ps ev.asset) market) ∧
      ev.strat.Enabled = true ∧ 5 ≤ ev.strat.Available ∧
      (ev.signal = none → ev.betAmount = none) ∧
      (∀ sig, ev.signal = some sig →
        5 ≤ sig.Amount ∧ ev.betAmount = some (min sig.Amount ev.strat.Available)) ∧
      (∃ impl priceHist, RegistryGet DefaultRegistry ev.strat.ID = some impl ∧
        getPriceHistory ps ev.asset = some priceHist ∧
        ev.signal = impl.Decide ev.marketInfo priceHist) := by
  unfold onMarketWindow
  rw [hlist, if_neg (by decide)]
  dsimp only
  obtain ⟨news, h1, h2, h3⟩ := foldl_trace (windowAsset env ps (ListStrategies e.db))
    (fun ev => (ev.asset, ev.strat))
    (fun a => if priced ps a then ((ListStrategies e.db).filter eligible).map (fun s => (a, s))
      else [])
    _ (windowAsset_step env ps (ListStrategies e.db)) assets (e, [])
  rw [h1, List.nil_append]
  refine ⟨?_, ?_⟩
  · rw [h2, flatMap_if_filter (priced ps)]
  · intro ev hev
    obtain ⟨a, ha, e1, e2, e3, e4⟩ := h3 ev hev
    subst e2
    exact ⟨e1, ha, e3, e4⟩

theorem onMarketWindow_listFails (env : WindowEnv) (assets : List String) (ps : PriceState)
    (e : Engine) (hlist : env.listFails = true) :
    onMarketWindow env assets ps e = (e, []) := by
  unfold onMarketWindow
  rw [hlist, if_pos rfl]

theorem buildMarketInfo_probabilities (asset : String) (now : Int) (price : ℚ)
    (market : Option BTCMinuteMarket) :
    (buildMarketInfo asset now price market).UpProbability = 0 ∧
    (buildMarketInfo asset now price market).DownProbability = 0 := by
  cases market <;> exact ⟨rfl, rfl⟩

/-- C21. The snapshot `onMarketWindow` hands to the strategies never carries the
market's outcome prices in the fields the ensemble's market sub-signal reads:
`UpProbability` and `DownProbability` are 0 in every evaluation, matched market
or not, so that sub-signal always abstains. On the matched market with up price
0.9 the prices land in `YesPrice` and `NoPrice`; the ensemble, with momentum and
trend voting UP, abstains for want of a third vote, whereas on the same
snapshot with the probabilities filled in it bets UP. -/
theorem market_prices_never_reach_ensemble :
    (∀ (env : WindowEnv) (assets : List String) (ps : PriceState) (e : Engine),
      ∀ ev ∈ (onMarketWindow env assets ps e).2,
        ev.marketInfo.UpProbability = 0 ∧ ev.marketInfo.DownProbability = 0 ∧
        NewEnsembleStrategy.marketProbSignal ev.marketInfo
          = { name := "market", side := "", conf := 0 }) ∧
    (∀ (asset : String) (now : Int) (price : ℚ) (m : BTCMinuteMarket),
      (buildMarketInfo asset now price (some m)).YesPrice = m.UpPrice ∧
      (buildMarketInfo asset now price (some m)).NoPrice = m.DownPrice ∧
      (buildMarketInfo asset now price (some m)).UpProbability = 0 ∧
      (buildMarketInfo asset now price (some m)).DownProbability = 0) ∧
    (onMarketWindow matchedWindow ["BTC"] (ingest newPriceState calmTicks)
        twoStrategyEngine).2.map
      (fun ev => (ev.strat.ID, ev.marketInfo.ID, ev.marketInfo.YesPrice,
        ev.marketInfo.UpProbability, ev.signal.map (fun s => s.Side)))
      = [("ensemble", "0xc0", 0.9, 0, none), ("simple", "0xc0", 0.9, 0, some "UP")] ∧
    getPriceHistory (ingest newPriceState calmTicks) "BTC" = some calmHistory ∧
    (NewEnsembleStrategy.subSignals
        (buildMarketInfo "BTC" matchedWindow.now 100.1 (some bullishMarket)) calmHistory).map
      (fun s => (s.name, s.side)) =
        [("momentum", "UP"), ("trend", "UP"), ("volatility", "DOWN"), ("market", "")] ∧
    NewEnsembleStrategy.marketProbSignal
        { buildMarketInfo "BTC" matchedWindow.now 100.1 (some bullishMarket) with
          UpProbability := 0.9, DownProbability := 0.1 }
      = { name := "market", side := "UP", conf := 0.9 } ∧
    (NewEnsembleStrategy.Decide
        { buildMarketInfo "BTC" matchedWindow.now 100.1 (some bullishMarket) with
          UpProbability := 0.9, DownProbability := 0.1 } calmHistory).map (fun s => s.Side)
      = some "UP" := by
  refine ⟨?_, ?_, by decide!, by decide!, by decide!, by decide!, by decide!⟩
  · intro env assets ps e ev hev
    have hprob : ev.marketInfo.UpProbability = 0 ∧ ev.marketInfo.DownProbability = 0 := by
      by_cases hl : env.listFails = true
      · rw [onMarketWindow_listFails env assets ps e hl] at hev
        cases hev
      · have hl' : env.listFails = false := by simpa using hl
        obtain ⟨-, -, ⟨market, hm⟩, -⟩ := (onMarketWindow_trace env assets ps e hl').2 ev hev
        rw [hm]
        exact buildMarketInfo_probabilities _ _ _ _
    refine ⟨hprob.1, hprob.2, ?_⟩
    unfold EnsembleStrategy.marketProbSignal
    dsimp only
    rw [hprob.1, hprob.2]
    norm_num
  · intro asset now price m
    exact ⟨rfl, rfl, rfl, rfl⟩

theorem placeBet_polyClient (env : PlaceEnv) (e : Engine) (stratID : String)
    (polyMarket : Option BTCMinuteMarket) (signal : Signal) (amount : ℚ) :
    (placeBet env e stratID polyMarket signal amount).1.polyClient = e.polyClient := by
  unfold placeBet
  dsimp only
  repeat' split
  all_goals rfl

theorem foldl_replay {α β σ : Type} (f : σ × List β → α → σ × List β) (F : σ → β → σ)
    (I : σ → Prop)
    (step : ∀ acc a, I acc.1 → ∃ news, (f acc a).2 = acc.2 ++ news ∧
      (f acc a).1 = news.foldl F acc.1 ∧ I (f acc a).1)
    (l : List α) (acc : σ × List β) (hI : I acc.1) :
    ∃ news, (l.foldl f acc).2 = acc.2 ++ news ∧ (l.foldl f acc).1 = news.foldl F acc.1 ∧
      I (l.foldl f acc).1 := by
  induction l generalizing acc with
  | nil => exact ⟨[], by simp, rfl, hI⟩
  | cons a t ih =>
    obtain ⟨n1, h1, s1, i1⟩ := step acc a hI
    obtain ⟨n2, h2, s2, i2⟩ := ih (f acc a) i1
    refine ⟨n1 ++ n2, ?_, ?_, ?_⟩
    · rw [List.foldl_cons, h2, h1, List.append_assoc]
    · rw [List.foldl_cons, s2, s1, List.foldl_append]
    · rw [List.foldl_cons]; exact i2

theorem evalStrategy_state (env : WindowEnv) (finder : Bool) (asset : String)
    (marketInfo : MarketInfo) (priceHist : PriceHistory)
    (acc : Engine × List Evaluation) (s : Strategy) (hI : acc.1.polyClient = finder) :
    ∃ news,
      (evalStrategy env asset marketInfo (windowMarket env finder asset) priceHist acc s).2
        = acc.2 ++ news ∧
      (evalStrategy env asset marketInfo (windowMarket env finder asset) priceHist acc s).1
        = news.foldl (betAfter env finder) acc.1 ∧
      (evalStrategy env asset marketInfo (windowMarket env finder asset) priceHist acc s).1.polyClient
        = finder := by
  unfold evalStrategy
  by_cases hen : s.Enabled = true
  · rw [hen]
    cases hget : RegistryGet DefaultRegistry s.ID with
    | none => exact ⟨[], by simp, rfl, hI⟩
    | some impl =>
      by_cases hav : s.Available < 5
      · exact ⟨[], by simp [hav], by simp [hav], by simp [hav, hI]⟩
      · cases hsig : impl.Decide marketInfo priceHist with
        | none =>
          exact ⟨[{ asset := asset, strat := s, marketInfo := marketInfo, signal := none,
                    betAmount := none, err := none }],
            by simp [hav, hsig], by simp [hav, hsig, betAfter], by simp [hav, hsig, hI]⟩
        | some signal =>
          refine ⟨[{ asset := asset, strat := s, marketInfo := marketInfo,
                     signal := some signal,
                     betAmount := some (if signal.Amount > s.Available then s.Available
                       else signal.Amount),
                     err := (placeBet (env.place asset s.ID) acc.1 s.ID
                       (windowMarket env finder asset) signal
                       (if signal.Amount > s.Available then s.Available
                         else signal.Amount)).2 }], ?_, ?_, ?_⟩
          · simp [hav, hsig]
          · simp only [hav, hsig, Bool.not_true, Bool.false_eq_true, if_false, List.foldl_cons,
              List.foldl_nil, betAfter]
            rw [capped_eq_min]
          · simp only [hav, hsig, Bool.not_true, Bool.false_eq_true, if_false]
            rw [placeBet_polyClient]
            exact hI
  · have hen' : s.Enabled = false := by simpa using hen
    rw [hen']
    exact ⟨[], by simp, rfl, hI⟩

theorem windowAsset_state (env : WindowEnv) (finder : Bool) (ps : PriceState)
    (strategies : List Strategy) (acc : Engine × List Evaluation) (asset : String)
    (hI : acc.1.polyClient = finder) :
    ∃ news, (windowAsset env ps strategies acc asset).2 = acc.2 ++ news ∧
      (windowAsset env ps strategies acc asset).1 = news.foldl (betAfter env finder) acc.1 ∧
      (windowAsset env ps strategies acc asset).1.polyClient = finder := by
  unfold windowAsset
  dsimp only
  by_cases hp : getPrice ps asset = 0
  · rw [if_pos hp]
    exact ⟨[], by simp, rfl, hI⟩
  · rw [if_neg hp]
    cases hh : getPriceHistory ps asset with
    | none => exact ⟨[], by simp, rfl, hI⟩
    | some priceHist =>
      dsimp only
      rw [hI]
      exact foldl_replay
        (evalStrategy env asset
          (buildMarketInfo asset env.now (getPrice ps asset) (windowMarket env finder asset))
          (windowMarket env finder asset) priceHist)
        (betAfter env finder) (fun st => st.polyClient = finder)
        (fun a s h => evalStrategy_state env finder asset _ priceHist a s h) strategies acc hI

theorem onMarketWindow_state (env : WindowEnv) (assets : List String) (ps : PriceState)
    (e : Engine) :
    (onMarketWindow env assets ps e).1 =
      (onMarketWindow env assets ps e).2.foldl (betAfter env e.polyClient) e := by
  unfold onMarketWindow
  by_cases hl : env.listFails = true
  · rw [hl, if_pos rfl]; rfl
  · have hl' : env.listFails = false := by simpa using hl
    rw [hl', if_neg (by decide)]
    dsimp only
    obtain ⟨news, h1, h2, -⟩ := foldl_replay (windowAsset env ps (ListStrategies e.db))
      (betAfter env e.polyClient) (fun st => st.polyClient = e.polyClient)
      (fun a s h => windowAsset_state env e.polyClient ps (ListStrategies e.db) a s h)
      assets (e, []) rfl
    rw [h2, h1, List.nil_append]

/-- C22. In one pass of `onMarketWindow`, every strategy for which `Decide` is
called is an enabled row of the list loaded at the start with at least 5
available, and the signal recorded for it is what the registry entry returns.
The engine after the pass is the engine before it put through `placeBet` once
for every evaluation that gave a signal, in order, each time with the smaller of
the signal's amount and the funds available to the row as the amount; that
amount lies between 5 and the available funds. -/
theorem onMarketWindow_bet_sizing (env : WindowEnv) (assets : List String) (ps : PriceState)
    (e : Engine) :
    (onMarketWindow env assets ps e).1 =
      (onMarketWindow env assets ps e).2.foldl
        (fun st ev =>
          match ev.signal with
          | none => st
          | some signal =>
            (placeBet (env.place ev.asset ev.strat.ID) st ev.strat.ID
              (windowMarket env e.polyClient ev.asset) signal
              (min signal.Amount ev.strat.Available)).1) e ∧
    ∀ ev ∈ (onMarketWindow env assets ps e).2,
      ev.strat ∈ ListStrategies e.db ∧ ev.strat.Enabled = true ∧
      ¬ ev.strat.Available < 5 ∧
      (∃ impl priceHist, RegistryGet DefaultRegistry ev.strat.ID = some impl ∧
        getPriceHistory ps ev.asset = some priceHist ∧
        ev.signal = impl.Decide ev.marketInfo priceHist) ∧
      (ev.signal = none → ev.betAmount = none) ∧
      (∀ sig, ev.signal = some sig →
        ev.betAmount = some (min sig.Amount ev.strat.Available) ∧
        5 ≤ min sig.Amount ev.strat.Available ∧
        min sig.Amount ev.strat.Available ≤ ev.strat.Available) := by
  refine ⟨onMarketWindow_state env assets ps e, ?_⟩
  intro ev hev
  by_cases hl : env.listFails = true
  · rw [onMarketWindow_listFails env assets ps e hl] at hev
    cases hev
  · have hl' : env.listFails = false := by simpa using hl
    obtain ⟨h1, -, -, h2, h3, h4, h5, h6⟩ := (onMarketWindow_trace env assets ps e hl').2 ev hev
    refine ⟨h1, h2, not_lt.2 h3, h6, h4, ?_⟩
    intro sig hsig
    obtain ⟨ha, hb⟩ := h5 sig hsig
    exact ⟨hb, le_min ha h3, min_le_right _ _⟩

/-- C22, witness: the ensemble has 10 available and signals 17.5, the simple
follower has 100 and signals 5. The bets placed are 10 and 5: two positions
with these costs, and `locked` 10 and 5. -/
theorem onMarketWindow_bet_sizing_witness :
    (onMarketWindow matchedWindow ["BTC"] (ingest newPriceState (rampTicks 100 10))
        cappedEngine).2.map
      (fun ev => (ev.strat.ID, ev.strat.Available, ev.signal.map (fun s => s.Amount)))
      = [("ensemble", 10, some 17.5), ("simple", 100, some 5)] ∧
    (onMarketWindow matchedWindow ["BTC"] (ingest newPriceState (rampTicks 100 10))
        cappedEngine).1 =
      (onMarketWindow matchedWindow ["BTC"] (ingest newPriceState (rampTicks 100 10))
        cappedEngine).2.foldl
        (fun st ev =>
          match ev.signal with
          | none => st
          | some signal =>
            (placeBet (matchedWindow.place ev.asset ev.strat.ID) st ev.strat.ID
              (windowMarket matchedWindow cappedEngine.polyClient ev.asset) signal
              (min signal.Amount ev.strat.Available)).1) cappedEngine ∧
    (onMarketWindow matchedWindow ["BTC"] (ingest newPriceState (rampTicks 100 10))
        cappedEngine).1.db.positions.map (fun p => (p.StrategyID, p.Status, p.Cost))
      = [("ensemble", "FILLED", 10), ("simple", "FILLED", 5)] ∧
    (onMarketWindow matchedWindow ["BTC"] (ingest newPriceState (rampTicks 100 10))
        cappedEngine).1.db.strategies.map (fun s => (s.ID, s.Locked))
      = [("ensemble", 10), ("simple", 5)] :=
  ⟨by decide!,
    (onMarketWindow_bet_sizing matchedWindow ["BTC"] (ingest newPriceState (rampTicks 100 10))
      cappedEngine).1,
    by decide!, by decide!⟩

/-- C24. When the strategies were loaded, the calls of `Decide` made in one pass
of `onMarketWindow` are, in order, one for every asset that has a price and a
history and every enabled, registered strategy with at least 5 available,
whatever `placeBet` returns for any of them and whatever the finder answers. -/
theorem onMarketWindow_failure_isolation (env : WindowEnv) (assets : List String)
    (ps : PriceState) (e : Engine) (hlist : env.listFails = false) :
    (onMarketWindow env assets ps e).2.map (fun ev => (ev.asset, ev.strat)) =
      (assets.filter (priced ps)).flatMap
        (fun a => ((ListStrategies e.db).filter eligible).map (fun s => (a, s))) :=
  (onMarketWindow_trace env assets ps e hlist).1

/-- C24, witness: every reservation fails, SOL has no price; both strategies
are still evaluated for BTC and for ETH. -/
theorem onMarketWindow_failure_isolation_witness :
    failingWindow.listFails = false ∧
    ((onMarketWindow failingWindow ["BTC", "SOL", "ETH"]
        (ingest newPriceState (risingTicks ++ ethTicks)) twoStrategyEngine).2.map
      (fun ev => (ev.asset, ev.strat))).map (fun k => (k.1, k.2.ID))
      = [("BTC", "ensemble"), ("BTC", "simple"), ("ETH", "ensemble"), ("ETH", "simple")] ∧
    (onMarketWindow failingWindow ["BTC", "SOL", "ETH"]
        (ingest newPriceState (risingTicks ++ ethTicks)) twoStrategyEngine).2.map
      (fun ev => ev.err)
      = [none, some "lock funds: driver error", none, some "lock funds: driver error"] :=
  ⟨rfl, by
    rw [onMarketWindow_failure_isolation failingWindow ["BTC", "SOL", "ETH"]
      (ingest newPriceState (risingTicks ++ ethTicks)) twoStrategyEngine rfl]
    decide!, by decide!⟩

end Polybot
